import Mathlib

/-!
# Verification of the trix rectangulation core

This file gives a shallow embedding, in Lean 4, of the core of the trix
library (`src/trix.js` and `1dtree/src/1dtree.js`): a binary raster is
scanned into axis-parallel boundary segments, segments are stitched into
doubly-linked loops, concave vertices are classified, and chords are found
and split.

The JavaScript object graph (segments and vertices with mutable fields and
identity) is modelled as an arena: `GState` holds a list of segment records
and a list of vertex records, and object references become indices into
these lists.  JavaScript assertions and crashing property accesses on
`null`/`undefined` are modelled in the `Except String` monad.
-/

namespace Trix

/-- Vertex orientation enum: `OUTGOING` (vertex with an outgoing segment) or
`INCOMING` (vertex with an incoming segment). -/
inductive Orient where
  | outgoing
  | incoming
deriving DecidableEq, Repr

/-- Vertex direction enum: `POSITIVE` (segment goes towards increasing x/y)
or `NEGATIVE`. -/
inductive VDir where
  | positive
  | negative
deriving DecidableEq, Repr

/-- Segment direction enum: `HORIZONTAL` or `VERTICAL`. -/
inductive SDir where
  | horizontal
  | vertical
deriving DecidableEq, Repr

/-- `direction ^ 1` on the numeric enum (HORIZONTAL = 0, VERTICAL = 1). -/
def SDir.flip : SDir → SDir
  | .horizontal => .vertical
  | .vertical => .horizontal

/-- A grid point `[x, y]`. -/
abbrev Point := Nat × Nat

/-- Numeric indexing `p[0]`, `p[1]` by a segment direction
(HORIZONTAL = index 0, VERTICAL = index 1). -/
def Point.coord (p : Point) : SDir → Nat
  | .horizontal => p.1
  | .vertical => p.2

/-- The value stored in a segment record's `start`/`end` field: initially a raw
point array, later overwritten with a reference to a `Vertex`. -/
inductive Ref where
  | pt (p : Point)
  | vx (i : Nat)
deriving DecidableEq, Repr

/-- A `Segment` object: `direction`, the canonical interval `this[0] = lo`,
`this[1] = hi` along its axis, the `start`/`end` references, the loop links
`next`/`prev` (segment indices, `null` = `none`) and the `visited` mark. -/
structure SegNode where
  direction : SDir
  lo : Nat
  hi : Nat
  startR : Ref
  endR : Ref
  next : Option Nat
  prev : Option Nat
  visited : Bool
deriving DecidableEq, Repr

/-- A `Vertex` object: its owning `segment` (index, `null` = `none`), its
position `[this[0], this[1]]`, its orientation, direction, and the `concave`
mark (`null` before stitching). -/
structure VertNode where
  segment : Option Nat
  pos : Point
  orientation : Orient
  direction : VDir
  concave : Option Bool
deriving DecidableEq, Repr

/-- The object heap: all segment records and all vertex records. -/
structure GState where
  segs : List SegNode
  verts : List VertNode
deriving DecidableEq, Repr

def dummySeg : SegNode :=
  ⟨.horizontal, 0, 0, .pt (0, 0), .pt (0, 0), none, none, false⟩

def dummyVert : VertNode :=
  ⟨none, (0, 0), .outgoing, .positive, none⟩

/-- Dereference a segment index in the heap. -/
def GState.seg (st : GState) (i : Nat) : SegNode := st.segs.getD i dummySeg

/-- Dereference a vertex index in the heap. -/
def GState.vert (st : GState) (i : Nat) : VertNode := st.verts.getD i dummyVert

def GState.setSeg (st : GState) (i : Nat) (s : SegNode) : GState :=
  { st with segs := st.segs.set i s }

def GState.setVert (st : GState) (i : Nat) (v : VertNode) : GState :=
  { st with verts := st.verts.set i v }

/-- `segment.next = x`. -/
def GState.setNext (st : GState) (i : Nat) (x : Option Nat) : GState :=
  st.setSeg i { st.seg i with next := x }

/-- `segment.prev = x`. -/
def GState.setPrev (st : GState) (i : Nat) (x : Option Nat) : GState :=
  st.setSeg i { st.seg i with prev := x }

/-- `vertex.concave = b`. -/
def GState.setConcave (st : GState) (i : Nat) (b : Option Bool) : GState :=
  st.setVert i { st.vert i with concave := b }

/-- The coordinates of a `start`/`end` reference (`r[0]`, `r[1]`). -/
def GState.refPos (st : GState) (r : Ref) : Point :=
  match r with
  | .pt p => p
  | .vx i => (st.vert i).pos

/-- Insert `a` before the first element `b` with `le a b`. -/
def orderedIns (le : α → α → Bool) (a : α) : List α → List α
  | [] => [a]
  | b :: l => if le a b then a :: b :: l else b :: orderedIns le a l

/-- `Array.prototype.sort(cmp)` for a consistent comparator `cmp`
(`le a b = (cmp a b ≤ 0)`): the sort is stable (ES2019), and for a total
transitive `le` every stable sort produces the same list, so we model it by
a stable insertion sort. -/
def jsSort (le : α → α → Bool) : List α → List α
  | [] => []
  | a :: l => orderedIns le a (jsSort le l)

/-- The `Segment(start, end)` constructor.  `sp`/`ep` are the coordinates read
from `start[0..1]` and `end[0..1]`; `sr`/`er` are the references stored into
`this.start` and `this.end` (the constructor is called both with raw point
arrays and, for chords, with `Vertex` objects). -/
def segCtor (sp ep : Point) (sr er : Ref) : Except String SegNode :=
  if sp.2 = ep.2 then
    let lohi := if sp.1 < ep.1 then (sp.1, ep.1) else (ep.1, sp.1)
    .ok ⟨.horizontal, lohi.1, lohi.2, sr, er, none, none, false⟩
  else if sp.1 = ep.1 then
    let lohi := if sp.2 < ep.2 then (sp.2, ep.2) else (ep.2, sp.2)
    .ok ⟨.vertical, lohi.1, lohi.2, sr, er, none, none, false⟩
  else .error "Not an axis-parallel segment."

/-- `new Segment(p, q)` on two raw points. -/
def mkSegment (p q : Point) : Except String SegNode :=
  segCtor p q (.pt p) (.pt q)

/-! ## The raster

A binary raster with `shape = [n, m]`.  `px` is the `ndarray` accessor
`array.get(i, j)`; an out-of-range read of an `ndarray` yields `undefined`,
which is falsy, so out-of-range reads return `false`. -/

structure Raster where
  n : Nat
  m : Nat
  get : Nat → Nat → Bool

def Raster.px (r : Raster) (i j : Nat) : Bool :=
  if i < r.n ∧ j < r.m then r.get i j else false

/-! ## scanForVSegments

Extracts all vertical segments, wall by wall (a wall `i` separates column
`i - 1` from column `i`).  The running state is `last_lower`, `last_upper`,
`segment_start` and the output list; `segment_start` is threaded through all
three sections exactly as the single `var segment_start` in the source. -/

/-- Top row (`i = 0`) of `scanForVSegments`: iterate `j` over the rows. -/
def vTopGo (r : Raster) : List Nat → Bool → Nat → List SegNode →
    Except String (Bool × Nat × List SegNode)
  | [], ll, ss, acc => .ok (ll, ss, acc)
  | j :: js, ll, ss, acc =>
    let lower := r.px j 0
    if ll = lower then vTopGo r js ll ss acc
    else if lower then vTopGo r js lower j acc
    else
      match mkSegment (0, j) (0, ss) with
      | .ok s => vTopGo r js lower ss (acc ++ [s])
      | .error e => .error e

/-- Top row of `scanForVSegments` with its trailing flush. -/
def vTop (r : Raster) : Except String (Nat × List SegNode) :=
  match vTopGo r (List.range r.n) false 0 [] with
  | .ok (ll, ss, acc) =>
    if ll then
      match mkSegment (0, r.n) (0, ss) with
      | .ok s => .ok (ss, acc ++ [s])
      | .error e => .error e
    else .ok (ss, acc)
  | .error e => .error e

/-- Inner loop of a center wall `i` of `scanForVSegments`. -/
def vCenterGo (r : Raster) (i : Nat) : List Nat → Bool → Bool → Nat → List SegNode →
    Except String (Bool × Bool × Nat × List SegNode)
  | [], ll, lu, ss, acc => .ok (ll, lu, ss, acc)
  | j :: js, ll, lu, ss, acc =>
    let lower := r.px j i
    let upper := r.px j (i - 1)
    if ll = lower ∧ lu = upper then vCenterGo r i js ll lu ss acc
    else
      if ll ≠ lu then
        if ll then
          match mkSegment (i, j) (i, ss) with
          | .ok s =>
            vCenterGo r i js lower upper (if lower ≠ upper then j else ss) (acc ++ [s])
          | .error e => .error e
        else
          match mkSegment (i, ss) (i, j) with
          | .ok s =>
            vCenterGo r i js lower upper (if lower ≠ upper then j else ss) (acc ++ [s])
          | .error e => .error e
      else
        vCenterGo r i js lower upper (if lower ≠ upper then j else ss) acc

/-- One center wall of `scanForVSegments` (inner loop plus trailing flush). -/
def vCenterWall (r : Raster) (i : Nat) (ss : Nat) (acc : List SegNode) :
    Except String (Nat × List SegNode) :=
  match vCenterGo r i (List.range r.n) false false ss acc with
  | .ok (ll, lu, ss2, acc2) =>
    if ll ≠ lu then
      if ll then
        match mkSegment (i, r.n) (i, ss2) with
        | .ok s => .ok (ss2, acc2 ++ [s])
        | .error e => .error e
      else
        match mkSegment (i, ss2) (i, r.n) with
        | .ok s => .ok (ss2, acc2 ++ [s])
        | .error e => .error e
    else .ok (ss2, acc2)
  | .error e => .error e

/-- The walls `i = 1 .. m-1` of `scanForVSegments`. -/
def vCenterLoop (r : Raster) : List Nat → Nat → List SegNode →
    Except String (Nat × List SegNode)
  | [], ss, acc => .ok (ss, acc)
  | i :: is, ss, acc =>
    match vCenterWall r i ss acc with
    | .ok (ss2, acc2) => vCenterLoop r is ss2 acc2
    | .error e => .error e

/-- Bottom row (`i = m`) of `scanForVSegments`: iterate `j` over the rows. -/
def vBotGo (r : Raster) : List Nat → Bool → Nat → List SegNode →
    Except String (Bool × Nat × List SegNode)
  | [], lu, ss, acc => .ok (lu, ss, acc)
  | j :: js, lu, ss, acc =>
    let upper := r.px j (r.m - 1)
    if lu = upper then vBotGo r js lu ss acc
    else if upper then vBotGo r js upper j acc
    else
      match mkSegment (r.m, ss) (r.m, j) with
      | .ok s => vBotGo r js upper ss (acc ++ [s])
      | .error e => .error e

/-- Bottom row of `scanForVSegments` with its trailing flush. -/
def vBot (r : Raster) (ss : Nat) (acc : List SegNode) :
    Except String (List SegNode) :=
  match vBotGo r (List.range r.n) false ss acc with
  | .ok (lu, ss2, acc2) =>
    if lu then
      match mkSegment (r.m, ss2) (r.m, r.n) with
      | .ok s => .ok (acc2 ++ [s])
      | .error e => .error e
    else .ok acc2
  | .error e => .error e

/-- `scanForVSegments(array)`: all vertical segments, from left to right. -/
def scanForVSegments (r : Raster) : Except String (List SegNode) :=
  match vTop r with
  | .ok (ss, acc) =>
    match vCenterLoop r (List.range' 1 (r.m - 1)) ss acc with
    | .ok (ss2, acc2) => vBot r ss2 acc2
    | .error e => .error e
  | .error e => .error e

/-! ## scanForHSegments

The transposed scan: walls are horizontal (wall `i` separates row `i - 1`
from row `i`), the inner index `j` runs over the columns. -/

/-- Top row (`i = 0`) of `scanForHSegments`. -/
def hTopGo (r : Raster) : List Nat → Bool → Nat → List SegNode →
    Except String (Bool × Nat × List SegNode)
  | [], ll, ss, acc => .ok (ll, ss, acc)
  | j :: js, ll, ss, acc =>
    let lower := r.px 0 j
    if ll = lower then hTopGo r js ll ss acc
    else if lower then hTopGo r js lower j acc
    else
      match mkSegment (ss, 0) (j, 0) with
      | .ok s => hTopGo r js lower ss (acc ++ [s])
      | .error e => .error e

/-- Top row of `scanForHSegments` with its trailing flush. -/
def hTop (r : Raster) : Except String (Nat × List SegNode) :=
  match hTopGo r (List.range r.m) false 0 [] with
  | .ok (ll, ss, acc) =>
    if ll then
      match mkSegment (ss, 0) (r.m, 0) with
      | .ok s => .ok (ss, acc ++ [s])
      | .error e => .error e
    else .ok (ss, acc)
  | .error e => .error e

/-- Inner loop of a center wall `i` of `scanForHSegments`. -/
def hCenterGo (r : Raster) (i : Nat) : List Nat → Bool → Bool → Nat → List SegNode →
    Except String (Bool × Bool × Nat × List SegNode)
  | [], ll, lu, ss, acc => .ok (ll, lu, ss, acc)
  | j :: js, ll, lu, ss, acc =>
    let lower := r.px i j
    let upper := r.px (i - 1) j
    if ll = lower ∧ lu = upper then hCenterGo r i js ll lu ss acc
    else
      if ll ≠ lu then
        if ll then
          match mkSegment (ss, i) (j, i) with
          | .ok s =>
            hCenterGo r i js lower upper (if lower ≠ upper then j else ss) (acc ++ [s])
          | .error e => .error e
        else
          match mkSegment (j, i) (ss, i) with
          | .ok s =>
            hCenterGo r i js lower upper (if lower ≠ upper then j else ss) (acc ++ [s])
          | .error e => .error e
      else
        hCenterGo r i js lower upper (if lower ≠ upper then j else ss) acc

/-- One center wall of `scanForHSegments` (inner loop plus trailing flush). -/
def hCenterWall (r : Raster) (i : Nat) (ss : Nat) (acc : List SegNode) :
    Except String (Nat × List SegNode) :=
  match hCenterGo r i (List.range r.m) false false ss acc with
  | .ok (ll, lu, ss2, acc2) =>
    if ll ≠ lu then
      if ll then
        match mkSegment (ss2, i) (r.m, i) with
        | .ok s => .ok (ss2, acc2 ++ [s])
        | .error e => .error e
      else
        match mkSegment (r.m, i) (ss2, i) with
        | .ok s => .ok (ss2, acc2 ++ [s])
        | .error e => .error e
    else .ok (ss2, acc2)
  | .error e => .error e

/-- The walls `i = 1 .. n-1` of `scanForHSegments`. -/
def hCenterLoop (r : Raster) : List Nat → Nat → List SegNode →
    Except String (Nat × List SegNode)
  | [], ss, acc => .ok (ss, acc)
  | i :: is, ss, acc =>
    match hCenterWall r i ss acc with
    | .ok (ss2, acc2) => hCenterLoop r is ss2 acc2
    | .error e => .error e

/-- Bottom row (`i = n`) of `scanForHSegments`. -/
def hBotGo (r : Raster) : List Nat → Bool → Nat → List SegNode →
    Except String (Bool × Nat × List SegNode)
  | [], lu, ss, acc => .ok (lu, ss, acc)
  | j :: js, lu, ss, acc =>
    let upper := r.px (r.n - 1) j
    if lu = upper then hBotGo r js lu ss acc
    else if upper then hBotGo r js upper j acc
    else
      match mkSegment (j, r.n) (ss, r.n) with
      | .ok s => hBotGo r js upper ss (acc ++ [s])
      | .error e => .error e

/-- Bottom row of `scanForHSegments` with its trailing flush. -/
def hBot (r : Raster) (ss : Nat) (acc : List SegNode) :
    Except String (List SegNode) :=
  match hBotGo r (List.range r.m) false ss acc with
  | .ok (lu, ss2, acc2) =>
    if lu then
      match mkSegment (r.m, r.n) (ss2, r.n) with
      | .ok s => .ok (acc2 ++ [s])
      | .error e => .error e
    else .ok acc2
  | .error e => .error e

/-- `scanForHSegments(array)`: all horizontal segments, from top to bottom. -/
def scanForHSegments (r : Raster) : Except String (List SegNode) :=
  match hTop r with
  | .ok (ss, acc) =>
    match hCenterLoop r (List.range' 1 (r.n - 1)) ss acc with
    | .ok (ss2, acc2) => hBot r ss2 acc2
    | .error e => .error e
  | .error e => .error e

/-! ## Vertex construction -/

/-- The `Vertex(segment, position, orientation, direction)` constructor:
allocates a vertex record, and (when `segment` is non-null) overwrites the
segment's `start` (OUTGOING) or `end` (INCOMING) field with the new vertex. -/
def newVertex (st : GState) (segIdx : Option Nat) (p : Point) (o : Orient)
    (d : VDir) : GState × Nat :=
  let vi := st.verts.length
  let st1 : GState := { st with verts := st.verts ++ [⟨segIdx, p, o, d, none⟩] }
  match segIdx with
  | none => (st1, vi)
  | some si =>
    match o with
    | .outgoing => (st1.setSeg si { st1.seg si with startR := .vx vi }, vi)
    | .incoming => (st1.setSeg si { st1.seg si with endR := .vx vi }, vi)

/-- `getVertices(segments)`: for each segment, in order, create the OUTGOING
vertex at `start` and the INCOMING vertex at `end`, both inheriting the
direction computed from the endpoint order.  Returns the new state and the
vertex index list `[v_0out, v_0in, v_1out, ...]`. -/
def getVertices : GState → List Nat → Except String (GState × List Nat)
  | st, [] => .ok (st, [])
  | st, si :: rest =>
    let s := st.seg si
    let sp := st.refPos s.startR
    let ep := st.refPos s.endR
    -- assert(axis-parallel)
    if sp.1 = ep.1 ∨ sp.2 = ep.2 then
      let d := if sp.1 < ep.1 ∨ sp.2 < ep.2 then VDir.positive else VDir.negative
      let a1 := newVertex st (some si) sp .outgoing d
      let a2 := newVertex a1.1 (some si) (a1.1.refPos (a1.1.seg si).endR) .incoming d
      match getVertices a2.1 rest with
      | .ok (st3, vs) => .ok (st3, a1.2 :: a2.2 :: vs)
      | .error e => .error e
    else .error "Not an axis-parallel segment."

/-! ## Vertex comparators and sorting -/

/-- Direction as the number used by the comparators. -/
def vdirN : VDir → Int
  | .positive => 0
  | .negative => 1

/-- `compareHVertices(a, b)`: keys `x`, then `y`, then `direction`.  On a full
tie the source asserts (two vertices never compare equal); we return 0. -/
def compareHVertices (st : GState) (a b : Nat) : Int :=
  let va := st.vert a
  let vb := st.vert b
  let d1 : Int := (va.pos.1 : Int) - (vb.pos.1 : Int)
  if d1 ≠ 0 then d1
  else
    let d2 : Int := (va.pos.2 : Int) - (vb.pos.2 : Int)
    if d2 ≠ 0 then d2
    else vdirN va.direction - vdirN vb.direction

/-- `compareVVertices(a, b)`: keys `x`, then `y`, then `direction` for
OUTGOING vertices and reversed direction for INCOMING ones.  The source
asserts `a.orientation === b.orientation` before the third key and asserts on
a full tie; we return the third-key difference (0 on a tie). -/
def compareVVertices (st : GState) (a b : Nat) : Int :=
  let va := st.vert a
  let vb := st.vert b
  let d1 : Int := (va.pos.1 : Int) - (vb.pos.1 : Int)
  if d1 ≠ 0 then d1
  else
    let d2 : Int := (va.pos.2 : Int) - (vb.pos.2 : Int)
    if d2 ≠ 0 then d2
    else
      if va.orientation = .outgoing then vdirN va.direction - vdirN vb.direction
      else vdirN vb.direction - vdirN va.direction

/-- `Array.prototype.sort` with a numeric comparator: a stable sort placing
`a` before `b` when `cmp a b ≤ 0`. -/
def sortVerts (st : GState) (cmp : GState → Nat → Nat → Int) (l : List Nat) :
    List Nat :=
  jsSort (fun a b => cmp st a b ≤ 0) l

/-! ## preprocess: stitching loops -/

/-- One iteration of the stitching loop of `preprocess`, for the pair
`(hvertices[i], vvertices[i])`. -/
def stitchPair (st : GState) (concaves : List Nat) (hv vv : Nat) :
    Except String (GState × List Nat) :=
  let h := st.vert hv
  let v := st.vert vv
  if h.orientation = .outgoing then
    match h.segment, v.segment with
    | some hseg, some vseg =>
      -- assert(hvertex.segment.start === hvertex), assert(vvertex.segment.end === vvertex)
      if (st.seg hseg).startR = .vx hv then
        if (st.seg vseg).endR = .vx vv then
          -- assert(vvertex[0] === hvertex[0] && hvertex[1] === vvertex[1])
          if v.pos.1 = h.pos.1 ∧ h.pos.2 = v.pos.2 then
            let st1 := st.setPrev hseg (some vseg)
            let st2 := st1.setNext vseg (some hseg)
            let c := decide (h.direction = v.direction)
            let st3 := st2.setConcave hv (some c)
            let st4 := st3.setConcave vv (some c)
            if c then .ok (st4, concaves ++ [hv]) else .ok (st4, concaves)
          else .error "Assertion failed"
        else .error "Assertion failed"
      else .error "Assertion failed"
    | _, _ => .error "null segment"
  else
    match h.segment, v.segment with
    | some hseg, some vseg =>
      -- assert(vvertex.segment.start === vvertex), assert(hvertex.segment.end === hvertex)
      if (st.seg vseg).startR = .vx vv then
        if (st.seg hseg).endR = .vx hv then
          if v.pos.1 = h.pos.1 ∧ h.pos.2 = v.pos.2 then
            if v.orientation = .outgoing then
              let st1 := st.setNext hseg (some vseg)
              let st2 := st1.setPrev vseg (some hseg)
              let c := decide (h.direction ≠ v.direction)
              let st3 := st2.setConcave hv (some c)
              let st4 := st3.setConcave vv (some c)
              if c then .ok (st4, concaves ++ [vv]) else .ok (st4, concaves)
            else .error "Vertex at start of vertical segment expected."
          else .error "Assertion failed"
        else .error "Assertion failed"
      else .error "Assertion failed"
    | _, _ => .error "null segment"

/-- The whole stitching loop, over the list of index pairs. -/
def stitchAll : GState → List (Nat × Nat) → List Nat →
    Except String (GState × List Nat)
  | st, [], concaves => .ok (st, concaves)
  | st, (hv, vv) :: rest, concaves =>
    match stitchPair st concaves hv vv with
    | .ok (st2, c2) => stitchAll st2 rest c2
    | .error e => .error e

/-- The scanning and vertex-building part of `preprocess`: returns the state,
the horizontal and vertical segment index lists, and the (unsorted) vertex
index lists. -/
def prepVertices (r : Raster) :
    Except String (GState × List Nat × List Nat × List Nat × List Nat) :=
  match scanForHSegments r with
  | .error e => .error e
  | .ok hrecs =>
    let st0 : GState := ⟨hrecs, []⟩
    match getVertices st0 (List.range hrecs.length) with
    | .error e => .error e
    | .ok (st1, hvs) =>
      match scanForVSegments r with
      | .error e => .error e
      | .ok vrecs =>
        let st2 : GState := ⟨st1.segs ++ vrecs, st1.verts⟩
        match getVertices st2 (List.range' hrecs.length vrecs.length) with
        | .error e => .error e
        | .ok (st3, vvs) =>
          .ok (st3, List.range hrecs.length,
            List.range' hrecs.length vrecs.length, hvs, vvs)

/-- `preprocess` up to and including the two length assertions and the two
sorts. -/
def prepSorted (r : Raster) :
    Except String (GState × List Nat × List Nat × List Nat × List Nat) :=
  match prepVertices r with
  | .error e => .error e
  | .ok (st, hIdxs, vIdxs, hvs, vvs) =>
    if hvs.length = vvs.length then
      if 2 * hIdxs.length = hvs.length then
        .ok (st, hIdxs, vIdxs, sortVerts st compareHVertices hvs,
          sortVerts st compareVVertices vvs)
      else .error "Assertion failed"
    else .error "Assertion failed"

/-- The result record of `preprocess`: `{hsegments, vsegments, concaves}`
(as heap indices). -/
structure PreOut where
  st : GState
  hsegs : List Nat
  vsegs : List Nat
  concaves : List Nat
deriving DecidableEq, Repr

/-- `preprocess(array)`: scan both axes, build and sort the vertices, glue
horizontal and vertical vertices together and mark concave vertices. -/
def preprocess (r : Raster) : Except String PreOut :=
  match prepSorted r with
  | .error e => .error e
  | .ok (st, hIdxs, vIdxs, shv, svv) =>
    match stitchAll st (shv.zip svv) [] with
    | .error e => .error e
    | .ok (stF, concaves) => .ok ⟨stF, hIdxs, vIdxs, concaves⟩

/-! ## walk -/

/-- `walk(segment)`: walk around a loop of segments, marking them visited and
collecting the start vertex of each.  The `fuel` argument bounds the number
of steps of the `while` loop (the source loops until it meets a visited
segment; with enough fuel the two agree). -/
def walk : Nat → GState → Nat → Except String (GState × List Nat)
  | 0, _, _ => .error "fuel exhausted"
  | fuel + 1, st, si =>
    let s := st.seg si
    if s.visited then .ok (st, [])
    else
      let st1 := st.setSeg si { s with visited := true }
      match s.startR with
      | .pt _ => .error "Not a vertex."
      | .vx vi =>
        match s.next with
        | none => .error "Not a loop."
        | some nx =>
          match walk fuel st1 nx with
          | .ok (st2, vs) => .ok (st2, vi :: vs)
          | .error e => .error e

/-- Walk every still-unvisited segment of the list, counting the loops. -/
def countLoops (fuel : Nat) : GState → List Nat → Except String (GState × Nat)
  | st, [] => .ok (st, 0)
  | st, si :: rest =>
    if (st.seg si).visited then countLoops fuel st rest
    else
      match walk fuel st si with
      | .ok (st2, _) =>
        match countLoops fuel st2 rest with
        | .ok (st3, k) => .ok (st3, k + 1)
        | .error e => .error e
      | .error e => .error e

/-- Walk every still-unvisited segment of the list, collecting the loops
(each loop is the vertex list `walk` returns). -/
def collectLoops (fuel : Nat) : GState → List Nat → Except String (GState × List (List Nat))
  | st, [] => .ok (st, [])
  | st, si :: rest =>
    if (st.seg si).visited then collectLoops fuel st rest
    else
      match walk fuel st si with
      | .ok (st2, vs) =>
        match collectLoops fuel st2 rest with
        | .ok (st3, ls) => .ok (st3, vs :: ls)
        | .error e => .error e
      | .error e => .error e

/-- The number of concave vertices among a list of vertex indices (the
`getConcaveVertexCount` reduction of the test suite). -/
def countConcaveOf (st : GState) (vs : List Nat) : Nat :=
  vs.countP (fun vi => (st.vert vi).concave = some true)

/-- The number of vertex records currently marked concave. -/
def countConcave (st : GState) : Nat :=
  st.verts.countP (fun v => v.concave = some true)

/-! ## The 1D interval tree (`1dtree/src/1dtree.js`)

The tree is generic over the element type `α`; `lo`/`hi` read the interval
bounds `s[0]`/`s[1]` of an element (for trix, `α` is a segment heap index).
A `null` subtree is `Option.none`.  The query visitor is modelled in
state-passing style: a JavaScript callback that closes over mutable state
and returns a truthy value to stop becomes `σ → α → σ × Option β`, where
`(s, some b)` is a truthy return `b` and `(s, none)` a falsy one. -/

/-- An interval tree `Node(mid, left, right, leftPoints, rightPoints)`. -/
inductive ITree (α : Type) where
  | node (mid : Nat) (left right : Option (ITree α)) (leftPoints rightPoints : List α)
deriving Repr

/-- Lexicographic comparison of character lists by code unit. -/
def charListLt : List Char → List Char → Bool
  | [], [] => false
  | [], _ :: _ => true
  | _ :: _, [] => false
  | a :: as, b :: bs => if a < b then true else if b < a then false else charListLt as bs

/-- The default `Array.prototype.sort()` comparison: numbers are compared as
strings (code-unit-wise on their decimal representations). -/
def jsNumLe (a b : Nat) : Bool := !charListLt (Nat.repr b).data (Nat.repr a).data

/-- `compareBegin(a, b)`: by left endpoint, then right. -/
def compareBegin (lo hi : α → Nat) (a b : α) : Int :=
  let d : Int := (lo a : Int) - (lo b : Int)
  if d ≠ 0 then d else (hi a : Int) - (hi b : Int)

/-- `compareEnd(a, b)`: by right endpoint, then left. -/
def compareEnd (lo hi : α → Nat) (a b : α) : Int :=
  let d : Int := (hi a : Int) - (hi b : Int)
  if d ≠ 0 then d else (lo a : Int) - (lo b : Int)

/-- The partition loop of `createIntervalTree`: intervals entirely below
`mid`, straddling `mid`, and entirely above `mid`, in input order. -/
def partition3 (lo hi : α → Nat) (mid : Nat) : List α → List α × List α × List α
  | [] => ([], [], [])
  | s :: rest =>
    let (l, m, r) := partition3 lo hi mid rest
    if hi s < mid then (s :: l, m, r)
    else if mid < lo s then (l, m, s :: r)
    else (l, s :: m, r)

/-- `createIntervalTree(intervals)`, with an explicit recursion-depth bound.
On intervals with `lo ≤ hi` the recursion strictly shrinks the list, so
`length + 1` fuel (as used by `createIntervalTree` below) is never exhausted;
on invalid intervals the JavaScript recursion does not terminate. -/
def createITreeFuel (lo hi : α → Nat) : Nat → List α → Option (ITree α)
  | 0, _ => none
  | _ + 1, [] => none
  | fuel + 1, x :: xs =>
    let pts := jsSort jsNumLe ((x :: xs).flatMap (fun s => [lo s, hi s]))
    let mid := pts.getD (pts.length >>> 1) 0
    let part := partition3 lo hi mid (x :: xs)
    let leftPoints := jsSort (fun a b => compareBegin lo hi a b ≤ 0) part.2.1
    let rightPoints := jsSort (fun a b => compareEnd lo hi a b ≤ 0) part.2.1
    some (.node mid (createITreeFuel lo hi fuel part.1)
      (createITreeFuel lo hi fuel part.2.2) leftPoints rightPoints)

/-- `createIntervalTree(intervals)`: `null` (= `none`) on the empty list. -/
def createIntervalTree (lo hi : α → Nat) (xs : List α) : Option (ITree α) :=
  createITreeFuel lo hi (xs.length + 1) xs

/-- `reportRange(arr, cb)`: visit a whole list in order, stopping at the
first truthy callback result. -/
def reportRange {α σ β : Type} : List α → σ → (σ → α → σ × Option β) → σ × Option β
  | [], s, _ => (s, none)
  | a :: l, s, cb =>
    match cb s a with
    | (s1, some r) => (s1, some r)
    | (s1, none) => reportRange l s1 cb

/-- `reportLeftRange(arr, hi, cb)`: visit in order while `arr[i][0] <= hi`. -/
def reportLeftRange {α σ β : Type} (lo : α → Nat) :
    List α → Nat → σ → (σ → α → σ × Option β) → σ × Option β
  | [], _, s, _ => (s, none)
  | a :: l, x, s, cb =>
    if lo a ≤ x then
      match cb s a with
      | (s1, some r) => (s1, some r)
      | (s1, none) => reportLeftRange lo l x s1 cb
    else (s, none)

/-- `reportRightRange(arr, lo, cb)` iterates from the back of `arr` while
`arr[i][1] >= lo`; we iterate the reversed list from the front. -/
def reportRightGo {α σ β : Type} (hi : α → Nat) :
    List α → Nat → σ → (σ → α → σ × Option β) → σ × Option β
  | [], _, s, _ => (s, none)
  | a :: l, x, s, cb =>
    if x ≤ hi a then
      match cb s a with
      | (s1, some r) => (s1, some r)
      | (s1, none) => reportRightGo hi l x s1 cb
    else (s, none)

def reportRightRange {α σ β : Type} (hi : α → Nat) (arr : List α) (x : Nat)
    (s : σ) (cb : σ → α → σ × Option β) : σ × Option β :=
  reportRightGo hi arr.reverse x s cb

/-- Propagate an early-exit result, or continue with the carried state (the
`if (queryResult) return queryResult` pattern of `queryPoint`). -/
def contQuery {σ β : Type} (p : σ × Option β) (k : σ → σ × Option β) : σ × Option β :=
  match p with
  | (s1, some r) => (s1, some r)
  | (s1, none) => k s1

/-- `Node.prototype.queryPoint(x, cb)`. -/
def queryPoint {α σ β : Type} (lo hi : α → Nat) :
    ITree α → Nat → σ → (σ → α → σ × Option β) → σ × Option β
  | .node mid left right lp rp, x, s, cb =>
    if x < mid then
      match left with
      | some t => contQuery (queryPoint lo hi t x s cb)
          (fun s1 => reportLeftRange lo lp x s1 cb)
      | none => reportLeftRange lo lp x s cb
    else if mid < x then
      match right with
      | some t => contQuery (queryPoint lo hi t x s cb)
          (fun s1 => reportRightRange hi rp x s1 cb)
      | none => reportRightRange hi rp x s cb
    else reportRange lp s cb

/-- The list of elements `queryPoint` hands to its visitor, in visit order,
ignoring visitor short-circuiting. -/
def visitOrder {α : Type} (lo hi : α → Nat) : ITree α → Nat → List α
  | .node mid left right lp rp, x =>
    if x < mid then
      (match left with
        | some t => visitOrder lo hi t x
        | none => []) ++ lp.takeWhile (fun a => lo a ≤ x)
    else if mid < x then
      (match right with
        | some t => visitOrder lo hi t x
        | none => []) ++ rp.reverse.takeWhile (fun a => x ≤ hi a)
    else lp

/-! ## Diagonals, crossings, splitting -/

/-- `s[0]` of a heap segment. -/
def segLo (st : GState) (i : Nat) : Nat := (st.seg i).lo

/-- `s[1]` of a heap segment. -/
def segHi (st : GState) (i : Nat) : Nat := (st.seg i).hi

/-- `s.start[d]` of a heap segment (the start may be a point or a vertex). -/
def segStartCoord (st : GState) (i : Nat) (d : SDir) : Nat :=
  (st.refPos (st.seg i).startR).coord d

/-- `findIntersections(direction, a, b, tree)`: is there a segment in `tree`
whose interval contains `a[direction ^ 1]` and whose start coordinate lies
strictly between `a[direction]` and `b[direction]`? -/
def findIntersections (st : GState) (direction : SDir) (a b : Nat)
    (tree : ITree Nat) : Bool :=
  let c := (st.vert a).pos.coord direction
  let d := (st.vert b).pos.coord direction
  (queryPoint (segLo st) (segHi st) tree ((st.vert a).pos.coord direction.flip) ()
    (fun u s =>
      (u, if c < segStartCoord st s direction ∧ segStartCoord st s direction < d
        then some true else none))).2.isSome

/-- The comparator `getDiagonals` sorts the concave vertices with:
other-axis coordinate first, then the on-axis coordinate. -/
def diagCmp (st : GState) (direction : SDir) (a b : Nat) : Int :=
  let d : Int := ((st.vert a).pos.coord direction.flip : Int) -
    ((st.vert b).pos.coord direction.flip : Int)
  if d ≠ 0 then d
  else ((st.vert a).pos.coord direction : Int) - ((st.vert b).pos.coord direction : Int)

/-- The pair loop of `getDiagonals`: `a` is `concaves[i-1]`, the list holds
`concaves[i..]`.  Emitted diagonals are appended to the heap and their
indices collected. -/
def getDiagonalsGo (direction : SDir) (tree : ITree Nat) :
    GState → Nat → List Nat → List Nat → Except String (GState × List Nat)
  | st, _, [], acc => .ok (st, acc)
  | st, a, b :: rest, acc =>
    match (st.vert a).segment with
    | none => .error "null segment"
    | some aseg =>
      -- assert(a.segment.start === a)
      if (st.seg aseg).startR = .vx a then
        if (st.vert a).pos.coord direction.flip = (st.vert b).pos.coord direction.flip then
          let aend := st.refPos (st.seg aseg).endR
          if aend.1 = (st.vert b).pos.1 ∧ aend.2 = (st.vert b).pos.2 then
            getDiagonalsGo direction tree st b rest acc
          else
            match (st.seg aseg).prev with
            | none => .error "null prev"
            | some aprev =>
              if (st.seg aprev).startR = .vx b then
                getDiagonalsGo direction tree st b rest acc
              else if findIntersections st direction a b tree then
                getDiagonalsGo direction tree st b rest acc
              else
                match segCtor (st.vert a).pos (st.vert b).pos (.vx a) (.vx b) with
                | .error e => .error e
                | .ok diag =>
                  getDiagonalsGo direction tree
                    { st with segs := st.segs ++ [diag] } b rest
                    (acc ++ [st.segs.length])
        else getDiagonalsGo direction tree st b rest acc
      else .error "Assertion failed"

/-- `getDiagonals(direction, concaves, tree)`: sort the concave vertices,
then emit a chord for each eligible consecutive pair. -/
def getDiagonals (st : GState) (direction : SDir) (concaves : List Nat)
    (tree : ITree Nat) : Except String (GState × List Nat) :=
  match jsSort (fun a b => diagCmp st direction a b ≤ 0) concaves with
  | [] => .ok (st, [])
  | a :: rest => getDiagonalsGo direction tree st a rest []

/-- The vertical-diagonals loop of `findCrossings`. -/
def findCrossingsGo (st : GState) (htree : ITree Nat) :
    List Nat → List (Nat × Nat) → Except String (List (Nat × Nat))
  | [], acc => .ok acc
  | v :: rest, acc =>
    -- assert(verticalDiagonal.start[0] === verticalDiagonal.end[0])
    if (st.refPos (st.seg v).startR).1 = (st.refPos (st.seg v).endR).1 then
      let res := queryPoint (segLo st) (segHi st) htree
        ((st.refPos (st.seg v).startR).1) acc
        (fun a h =>
          (if (st.refPos (st.seg h).startR).2 < segHi st v ∧
              segLo st v < (st.refPos (st.seg h).startR).2
            then a ++ [(h, v)] else a, (none : Option Bool)))
      findCrossingsGo st htree rest res.1
    else .error "Assertion failed"

/-- `findCrossings(horizontalDiagonals, verticalDiagonals)`: all pairs of a
horizontal and a vertical diagonal whose open interiors cross, as
`SegmentCrossing(horizontal, vertical)` index pairs. -/
def findCrossings (st : GState) (hds vds : List Nat) :
    Except String (List (Nat × Nat)) :=
  if hds.length = 0 then .ok []
  else
    match createIntervalTree (segLo st) (segHi st) hds with
    | none => .error "queryPoint called on null tree"
    | some htree => findCrossingsGo st htree vds []

/-- `findIntersectingSegment(vertex, htree, vtree)`: among the segments of
the opposite orientation whose interval contains the perpendicular
coordinate of the vertex, find the nearest one on the side selected by the
vertex direction; assert that one exists. -/
def findIntersectingSegment (st : GState) (vi : Nat)
    (htree vtree : Option (ITree Nat)) : Except String Nat :=
  match (st.vert vi).segment with
  | none => .error "null segment"
  | some vseg =>
    -- assert(vertex.segment.start === vertex)
    if (st.seg vseg).startR = .vx vi then
      let direction := (st.seg vseg).direction
      match (if direction = .horizontal then vtree else htree) with
      | none => .error "queryPoint called on null tree"
      | some tree =>
        let x := (st.vert vi).pos.coord direction.flip
        let vc := (st.vert vi).pos.coord direction
        let best :=
          if (st.vert vi).direction = .positive then
            (queryPoint (segLo st) (segHi st) tree x (none : Option Nat)
              (fun best s =>
                (if segStartCoord st s direction < vc then
                  match best with
                  | none => some s
                  | some b =>
                    if segStartCoord st b direction < segStartCoord st s direction
                    then some s else some b
                 else best, (none : Option Bool)))).1
          else
            (queryPoint (segLo st) (segHi st) tree x (none : Option Nat)
              (fun best s =>
                (if vc < segStartCoord st s direction then
                  match best with
                  | none => some s
                  | some b =>
                    if segStartCoord st s direction < segStartCoord st b direction
                    then some s else some b
                 else best, (none : Option Bool)))).1
        match best with
        | some s => .ok s
        | none => .error "Assertion failed"
    else .error "Assertion failed"

/-- `splitConcave(vertex, htree, vtree)` (as implemented: it locates and
returns the intersecting segment). -/
def splitConcave (st : GState) (vi : Nat) (htree vtree : Option (ITree Nat)) :
    Except String Nat :=
  findIntersectingSegment st vi htree vtree

/-- `getVertexDirection(segment)`: POSITIVE iff `end - start > 0` along the
segment axis (asserting they differ). -/
def getVertexDirection (st : GState) (si : Nat) : Except String VDir :=
  let s := st.seg si
  let sc := (st.refPos s.startR).coord s.direction
  let ec := (st.refPos s.endR).coord s.direction
  -- assert(segment.end[direction] !== segment.start[direction])
  if ec ≠ sc then .ok (if sc < ec then .positive else .negative)
  else .error "Assertion failed"

/-- `vertexDirection ^ 1`. -/
def VDir.flip : VDir → VDir
  | .positive => .negative
  | .negative => .positive

/-- A `start`/`end` field read as a `Vertex` reference; reading `.segment`
off a raw point array yields `undefined` and the subsequent accesses throw. -/
def refVx (r : Ref) : Except String Nat :=
  match r with
  | .vx i => .ok i
  | .pt _ => .error "undefined vertex"

/-- `splitSegment(segment, hsegments, vsegments)`: split the polygon along
the chord `segment`, rewiring the loop links around its two endpoint
vertices, adding the reversed chord `sba`, creating the two new OUTGOING
vertices and clearing the concave marks, and registering both chord copies
in the matching segment list. -/
def splitSegment (st0 : GState) (segIdx : Nat) (hsegs vsegs : List Nat) :
    Except String (GState × List Nat × List Nat) :=
  match refVx (st0.seg segIdx).startR, refVx (st0.seg segIdx).endR with
  | .ok va, .ok vb =>
    match (st0.vert va).segment, (st0.vert vb).segment with
    | some sa, some sb =>
      -- assert(sa != segment), assert(sb != segment)
      if sa ≠ segIdx ∧ sb ≠ segIdx then
        match (st0.seg sa).prev, (st0.seg sb).prev with
        | some spa, some spb =>
          let sab := segIdx
          match segCtor (st0.vert vb).pos (st0.vert va).pos (.vx vb) (.vx va) with
          | .error e => .error e
          | .ok sbaRec =>
            let sba := st0.segs.length
            let st1 : GState := { st0 with segs := st0.segs ++ [sbaRec] }
            let st2 := st1.setNext spa (some sab)
            let st3 := st2.setPrev sab (some spa)
            let st4 := st3.setNext sab (some sb)
            let st5 := st4.setPrev sb (some sab)
            let st6 := st5.setNext spb (some sba)
            let st7 := st6.setPrev sba (some spb)
            let st8 := st7.setNext sba (some sa)
            let st9 := st8.setPrev sa (some sba)
            match getVertexDirection st9 sab with
            | .error e => .error e
            | .ok vd =>
              let a1 := newVertex st9 (some sab) (st9.vert va).pos .outgoing vd
              let a2 := newVertex a1.1 (some sba) (a1.1.vert vb).pos .outgoing vd.flip
              let stC := a2.1.setConcave a1.2 (some false)
              let stD := stC.setConcave a2.2 (some false)
              let stE := stD.setConcave va (some false)
              let stF := stE.setConcave vb (some false)
              if ((stF.seg sab).direction = .horizontal ∨
                  (stF.seg sab).direction = .vertical) ∧
                  ((stF.seg sba).direction = .horizontal ∨
                  (stF.seg sba).direction = .vertical) then
                if (stF.seg sab).direction = .horizontal then
                  .ok (stF, hsegs ++ [sab, sba], vsegs)
                else
                  .ok (stF, hsegs, vsegs ++ [sab, sba])
              else .error "Assertion failed"
        | _, _ => .error "null prev"
      else .error "Assertion failed"
    | _, _ => .error "null segment"
  | _, _ => .error "undefined vertex"

end Trix

namespace Trix

/-! ## Concrete rasters and pipelines for the end-to-end claims -/

/-- A raster from a list of rows of 0/1 entries. -/
def rasterOfRows (rows : List (List Nat)) : Raster :=
  ⟨rows.length, (rows.getD 0 []).length, fun i j => ((rows.getD i []).getD j 0) ≠ 0⟩

/-- The 4×4 raster with two holes touching diagonally at one grid corner. -/
def twoHolesRaster : Raster :=
  rasterOfRows [[1,1,1,1],[1,1,0,1],[1,0,1,1],[1,1,1,1]]

/-- Run `preprocess` on the two-hole raster, then walk `next` from every
unvisited segment; return the number of loops and the number of concave
vertices collected by the walks. -/
def c4Run : Except String (Nat × Nat) :=
  match preprocess twoHolesRaster with
  | .error e => .error e
  | .ok o =>
    match collectLoops (o.st.segs.length + 1) o.st (o.hsegs ++ o.vsegs) with
    | .error e => .error e
    | .ok (st2, ls) => .ok (ls.length, countConcaveOf st2 ls.flatten)

/-- A segment heap cell from two raw points (total helper for building
concrete test states; all uses are axis-parallel). -/
def segOfPts (p q : Point) : SegNode :=
  match mkSegment p q with
  | .ok s => s
  | .error _ => dummySeg

/-- The heap of the `findCrossings` unit test: horizontal diagonals
`(1,1)-(3,1), (1,2)-(6,2), (1,4)-(4,4), (1,5)-(6,5)` at indices 0..3 and
vertical diagonals `(2,1)-(2,3), (5,3)-(5,6)` at indices 4, 5. -/
def c6State : GState :=
  ⟨[segOfPts (1,1) (3,1), segOfPts (1,2) (6,2), segOfPts (1,4) (4,4),
    segOfPts (1,5) (6,5), segOfPts (2,1) (2,3), segOfPts (5,3) (5,6)], []⟩

/-- A five-segment heap exercising `splitSegment`: segment 4 is a chord from
vertex 0 (on segment 0, with predecessor segment 2) to vertex 1 (on segment
1, with predecessor segment 3). -/
def w7st : GState :=
  ⟨[⟨.vertical, 1, 2, .pt (1, 1), .pt (1, 2), none, some 2, false⟩,
    ⟨.vertical, 0, 1, .pt (3, 0), .pt (3, 1), none, some 3, false⟩,
    ⟨.horizontal, 0, 1, .pt (0, 1), .pt (1, 1), some 0, none, false⟩,
    ⟨.horizontal, 3, 4, .pt (4, 1), .pt (3, 1), some 1, none, false⟩,
    ⟨.horizontal, 1, 3, .vx 0, .vx 1, none, none, false⟩],
   [⟨some 0, (1, 1), .outgoing, .positive, none⟩,
    ⟨some 1, (3, 1), .outgoing, .negative, none⟩]⟩

/-- The side test applied by `findIntersectingSegment` to a candidate
segment `s`: the candidate's start coordinate along `d` lies strictly on the
side of vertex `vi` selected by the vertex's `POSITIVE`/`NEGATIVE`
direction. -/
def sideOf (st : GState) (d : SDir) (vi s : Nat) : Bool :=
  match (st.vert vi).direction with
  | .positive => decide (segStartCoord st s d < (st.vert vi).pos.coord d)
  | .negative => decide ((st.vert vi).pos.coord d < segStartCoord st s d)

/-- One visitor step of `findIntersectingSegment` in the `POSITIVE` case:
keep the candidate with the largest key strictly below `vc`. -/
def bestPosStep (k : Nat → Nat) (vc : Nat) (best : Option Nat) (s : Nat) :
    Option Nat :=
  if k s < vc then
    match best with
    | none => some s
    | some b => if k b < k s then some s else some b
  else best

/-- One visitor step of `findIntersectingSegment` in the `NEGATIVE` case:
keep the candidate with the smallest key strictly above `vc`. -/
def bestNegStep (k : Nat → Nat) (vc : Nat) (best : Option Nat) (s : Nat) :
    Option Nat :=
  if vc < k s then
    match best with
    | none => some s
    | some b => if k s < k b then some s else some b
  else best

/-- A heap exercising `findIntersectingSegment`: a `POSITIVE` vertex 0 at
`(2,3)` starting the vertical segment 0, with two horizontal candidate
segments 1 and 2 whose intervals contain `x = 2` and whose start
`y`-coordinates 1 and 2 both lie below `vc = 3`. -/
def w8st : GState :=
  ⟨[⟨.vertical, 3, 5, .vx 0, .pt (2, 5), none, none, false⟩,
    ⟨.horizontal, 1, 3, .pt (1, 1), .pt (3, 1), none, none, false⟩,
    ⟨.horizontal, 0, 4, .pt (0, 2), .pt (4, 2), none, none, false⟩],
   [⟨some 0, (2, 3), .outgoing, .positive, none⟩]⟩

/-- The interval tree `createIntervalTree` builds over segments 1 and 2 of
`w8st`. -/
def w8tree : ITree Nat := .node 3 none none [2, 1] [1, 2]

/-- A heap exercising one `getDiagonals` pair step: concave vertices 0 at
`(1,1)` (on segment 0, whose predecessor is segment 3) and 1 at `(3,1)`
share the `y`-coordinate; segment 2 is an opposite-orientation candidate
whose interval contains `y = 1` but whose start `x`-coordinate 5 is not
strictly between 1 and 3. -/
def w5st : GState :=
  ⟨[⟨.vertical, 1, 2, .vx 0, .pt (1, 2), none, some 3, false⟩,
    ⟨.vertical, 0, 1, .vx 1, .pt (3, 0), none, none, false⟩,
    ⟨.vertical, 0, 2, .pt (5, 0), .pt (5, 2), none, none, false⟩,
    ⟨.horizontal, 0, 1, .pt (0, 0), .pt (1, 0), some 0, none, false⟩],
   [⟨some 0, (1, 1), .outgoing, .positive, some true⟩,
    ⟨some 1, (3, 1), .outgoing, .positive, some true⟩]⟩

/-- The interval tree `createIntervalTree` builds over segment 2 of `w5st`. -/
def w5tree : ITree Nat := .node 2 none none [2] [2]

/-- A two-vertex heap exercising one stitching iteration: the `OUTGOING`
H-vertex 0 and the `INCOMING` V-vertex 1 share position `(1,1)`; vertex 0
starts segment 0 and vertex 1 ends segment 1. -/
def wc1st : GState :=
  ⟨[⟨.horizontal, 1, 2, .vx 0, .pt (2, 1), none, none, false⟩,
    ⟨.vertical, 1, 3, .pt (1, 3), .vx 1, none, none, false⟩],
   [⟨some 0, (1, 1), .outgoing, .positive, none⟩,
    ⟨some 1, (1, 1), .incoming, .positive, none⟩]⟩

/-- The heap after stitching the pair `(0, 1)` of `wc1st`. -/
def wc1res : GState :=
  ⟨[⟨.horizontal, 1, 2, .vx 0, .pt (2, 1), none, some 1, false⟩,
    ⟨.vertical, 1, 3, .pt (1, 3), .vx 1, some 0, none, false⟩],
   [⟨some 0, (1, 1), .outgoing, .positive, some true⟩,
    ⟨some 1, (1, 1), .incoming, .positive, some true⟩]⟩

/-! ## Corner-event counting for the scanner length invariant

A scanner wall loop carries a `(lower, upper)` state; a segment is emitted
exactly when the state changes away from a wall piece (`lower ≠ upper`), and
the trailing flush emits one more segment when the loop ends inside a wall
piece.  Twice the number of emitted segments equals the number of run
boundaries along the wall, which is a sum of per-corner events; the per-corner
events of the vertical and the horizontal scan agree pointwise. -/

/-- 1 when the wall state `p = (lower, upper)` is an actual wall piece. -/
def bnd (p : Bool × Bool) : Nat := if p.1 ≠ p.2 then 1 else 0

/-- The number of run boundaries contributed by one state transition. -/
def evB (p c : Bool × Bool) : Nat := if c = p then 0 else bnd p + bnd c

/-- The wall state after processing the listed positions. -/
def lastSt (f : Nat → Bool × Bool) : Bool × Bool → List Nat → Bool × Bool
  | p, [] => p
  | _, j :: js => lastSt f (f j) js

/-- The number of segments a scanner wall loop emits: one per run end. -/
def endsC (f : Nat → Bool × Bool) : Bool × Bool → List Nat → Nat
  | _, [] => 0
  | p, j :: js => (if f j ≠ p ∧ p.1 ≠ p.2 then 1 else 0) + endsC f (f j) js

/-- The total number of run boundaries along the listed positions. -/
def chain (f : Nat → Bool × Bool) : Bool × Bool → List Nat → Nat
  | _, [] => 0
  | p, j :: js => evB p (f j) + chain f (f j) js

/-- The state preceding position `j` (all-off before position 0). -/
def prevP (f : Nat → Bool × Bool) (j : Nat) : Bool × Bool :=
  if j = 0 then (false, false) else f (j - 1)

/-- The `(lower, upper)` state of vertical wall `i` at row `j`. -/
def vpairf (r : Raster) (i j : Nat) : Bool × Bool :=
  (r.px j i, if i = 0 then false else r.px j (i - 1))

/-- The `(lower, upper)` state of horizontal wall `i` at column `j`. -/
def hpairf (r : Raster) (i j : Nat) : Bool × Bool :=
  (r.px i j, if i = 0 then false else r.px (i - 1) j)

/-- Twice the number of segments the scanner emits along vertical wall `i`:
the number of run boundaries, including the closing one. -/
def wallBV (r : Raster) (i : Nat) : Nat :=
  chain (vpairf r i) (false, false) (List.range (r.n + 1))

/-- Twice the number of segments the scanner emits along horizontal wall `i`. -/
def wallBH (r : Raster) (i : Nat) : Nat :=
  chain (hpairf r i) (false, false) (List.range (r.m + 1))

end Trix

namespace Trix

/-! ## The doubly-linked-loop invariant -/

/-- Whether segment `s` carries mutually consistent loop links: non-null
`next` and `prev` with `s.next.prev == s` and `s.prev.next == s`. -/
def linkedAtB (st : GState) (s : Nat) : Bool :=
  match (st.seg s).next, (st.seg s).prev with
  | some n, some p =>
    decide ((st.seg n).prev = some s) && decide ((st.seg p).next = some s)
  | _, _ => false

/-- Every segment of the heap is doubly linked. -/
def linked (st : GState) : Prop :=
  ∀ s, s < st.segs.length → linkedAtB st s = true

/-- `k` steps of `segment = segment.next` (a dangling `next` falls back to
index 0; all steps taken below follow a non-null `next`). -/
def nextIter (st : GState) : Nat → Nat → Nat
  | 0, s => s
  | k + 1, s => nextIter st k ((st.seg s).next.getD 0)

/-- A freshly scanned segment record: raw-point endpoint references and no
loop links yet. -/
def rawSeg (s : SegNode) : Prop :=
  (∃ p, s.startR = .pt p) ∧ (∃ q, s.endR = .pt q) ∧ s.next = none ∧ s.prev = none

/-- A seven-segment heap exercising `splitSegment` on a fully stitched
state: the chord 4 runs from vertex 0 (on segment 0 of the loop
`0 → 5 → 2 → 0`) to vertex 1 (on segment 1 of the loop `1 → 6 → 3 → 1`). -/
def w9st : GState :=
  ⟨[⟨.vertical, 1, 2, .vx 0, .pt (1, 2), some 5, some 2, false⟩,
    ⟨.vertical, 0, 1, .vx 1, .pt (3, 0), some 6, some 3, false⟩,
    ⟨.horizontal, 0, 1, .pt (0, 1), .pt (1, 1), some 0, some 5, false⟩,
    ⟨.horizontal, 3, 4, .pt (4, 1), .pt (3, 1), some 1, some 6, false⟩,
    ⟨.horizontal, 1, 3, .vx 0, .vx 1, none, none, false⟩,
    ⟨.vertical, 2, 3, .pt (1, 2), .pt (1, 3), some 2, some 0, false⟩,
    ⟨.vertical, 1, 2, .pt (3, 1), .pt (3, 2), some 3, some 1, false⟩],
   [⟨some 0, (1, 1), .outgoing, .positive, some true⟩,
    ⟨some 1, (3, 1), .outgoing, .negative, some true⟩]⟩

/-- The result of `preprocess` on the two-hole raster (total wrapper for the
concrete witness). -/
def c2po : PreOut :=
  match preprocess twoHolesRaster with
  | .ok o => o
  | .error _ => ⟨⟨[], []⟩, [], [], []⟩

/-- The state `splitSegment` produces on `w9st` when splitting chord 4
(total wrapper for the concrete witness). -/
def c2stF : GState :=
  match splitSegment w9st 4 [] [] with
  | .ok (st, _, _) => st
  | .error _ => ⟨[], []⟩

/-! # Theorems -/

/-- C6: `findCrossings` applied to the horizontal chords
`(1,1)-(3,1), (1,2)-(6,2), (1,4)-(4,4), (1,5)-(6,5)` (heap indices 0..3) and
the vertical chords `(2,1)-(2,3), (5,3)-(5,6)` (heap indices 4, 5) returns
exactly two crossings: `((1,2)-(6,2), (2,1)-(2,3))` and
`((1,5)-(6,5), (5,3)-(5,6))`. -/
theorem findCrossings_unit_test :
    findCrossings c6State [0, 1, 2, 3] [4, 5] = .ok [(1, 4), (3, 5)] := by
  rfl

/-- C4 counterexample: on the 4×4 two-diagonal-holes raster, running
`preprocess` and walking `next` from every unvisited segment yields exactly
2 closed loops, not 3 as claimed (6 concave vertices are collected, as
claimed). -/
theorem twoHoles_loops_counterexample :
    c4Run = .ok (2, 6) ∧ (2, 6) ≠ ((3 : Nat), (6 : Nat)) := by
  exact ⟨by rfl, by decide⟩

/-- C4 amended: on the 4×4 two-diagonal-holes raster, `preprocess` followed
by walking `next` from every unvisited segment yields exactly 2 closed loops
(the two diagonally touching holes are stitched into a single loop at the
shared corner), and exactly 6 of the collected loop vertices are marked
concave. -/
theorem twoHoles_loops_amended : c4Run = .ok (2, 6) := by
  rfl

end Trix

namespace Trix

/-! ### Heap access lemmas -/

theorem seg_setSeg_self (st : GState) (i : Nat) (s : SegNode)
    (h : i < st.segs.length) : (st.setSeg i s).seg i = s := by
  simp [GState.setSeg, GState.seg, List.getD_eq_getElem?_getD,
    List.getElem?_set_self h]

theorem seg_setSeg_ne (st : GState) (i j : Nat) (s : SegNode) (h : i ≠ j) :
    (st.setSeg i s).seg j = st.seg j := by
  simp [GState.setSeg, GState.seg, List.getD_eq_getElem?_getD,
    List.getElem?_set_ne h]

theorem vert_setSeg (st : GState) (i j : Nat) (s : SegNode) :
    (st.setSeg i s).vert j = st.vert j := by
  simp [GState.setSeg, GState.vert]

theorem seg_setVert (st : GState) (i j : Nat) (v : VertNode) :
    (st.setVert i v).seg j = st.seg j := by
  simp [GState.setVert, GState.seg]

theorem vert_setVert_self (st : GState) (i : Nat) (v : VertNode)
    (h : i < st.verts.length) : (st.setVert i v).vert i = v := by
  simp [GState.setVert, GState.vert, List.getD_eq_getElem?_getD,
    List.getElem?_set_self h]

theorem vert_setVert_ne (st : GState) (i j : Nat) (v : VertNode) (h : i ≠ j) :
    (st.setVert i v).vert j = st.vert j := by
  simp [GState.setVert, GState.vert, List.getD_eq_getElem?_getD,
    List.getElem?_set_ne h]

theorem segs_setVert (st : GState) (i : Nat) (v : VertNode) :
    (st.setVert i v).segs = st.segs := rfl

theorem verts_setSeg (st : GState) (i : Nat) (s : SegNode) :
    (st.setSeg i s).verts = st.verts := rfl

theorem vert_appendVert_lt (segs : List SegNode) (verts : List VertNode)
    (v : VertNode) (j : Nat) (h : j < verts.length) :
    (GState.mk segs (verts ++ [v])).vert j = (GState.mk segs verts).vert j := by
  simp [GState.vert, List.getD_eq_getElem?_getD, List.getElem?_append_left h]

theorem vert_appendVert_self (segs : List SegNode) (verts : List VertNode)
    (v : VertNode) : (GState.mk segs (verts ++ [v])).vert verts.length = v := by
  simp [GState.vert, List.getD_eq_getElem?_getD]

theorem seg_appendSeg_lt (segs : List SegNode) (verts : List VertNode)
    (s : SegNode) (j : Nat) (h : j < segs.length) :
    (GState.mk (segs ++ [s]) verts).seg j = (GState.mk segs verts).seg j := by
  simp [GState.seg, List.getD_eq_getElem?_getD, List.getElem?_append_left h]

theorem seg_appendSeg_self (segs : List SegNode) (verts : List VertNode)
    (s : SegNode) : (GState.mk (segs ++ [s]) verts).seg segs.length = s := by
  simp [GState.seg, List.getD_eq_getElem?_getD]

/-! ### jsSort lemmas -/

theorem orderedIns_perm (le : α → α → Bool) (a : α) (l : List α) :
    (orderedIns le a l).Perm (a :: l) := by
  induction l with
  | nil => simp [orderedIns]
  | cons b t ih =>
    by_cases h : le a b
    · simp [orderedIns, h]
    · simp only [orderedIns, h, if_neg, Bool.false_eq_true, if_false]
      exact ((ih.cons b).trans (List.Perm.swap a b t))

theorem jsSort_perm (le : α → α → Bool) (l : List α) : (jsSort le l).Perm l := by
  induction l with
  | nil => simp [jsSort]
  | cons a t ih =>
    exact (orderedIns_perm le a (jsSort le t)).trans (ih.cons a)

theorem mem_jsSort (le : α → α → Bool) (l : List α) (a : α) :
    a ∈ jsSort le l ↔ a ∈ l :=
  (jsSort_perm le l).mem_iff

theorem length_jsSort (le : α → α → Bool) (l : List α) :
    (jsSort le l).length = l.length :=
  (jsSort_perm le l).length_eq

theorem orderedIns_pairwise (le : α → α → Bool)
    (htot : ∀ a b, le a b ∨ le b a) (htr : ∀ a b c, le a b → le b c → le a c)
    (a : α) (l : List α) (hl : l.Pairwise (fun x y => le x y)) :
    (orderedIns le a l).Pairwise (fun x y => le x y) := by
  induction l with
  | nil => simp [orderedIns]
  | cons b t ih =>
    rcases List.pairwise_cons.mp hl with ⟨hbt, ht⟩
    by_cases h : le a b
    · simp only [orderedIns, h, if_true]
      refine List.pairwise_cons.mpr ⟨?_, hl⟩
      intro y hy
      rcases List.mem_cons.mp hy with rfl | hy
      · exact h
      · exact htr a b y h (hbt y hy)
    · simp only [orderedIns, h, Bool.false_eq_true, if_false]
      refine List.pairwise_cons.mpr ⟨?_, ih ht⟩
      intro y hy
      have hy2 := (orderedIns_perm le a t).mem_iff.mp hy
      rcases List.mem_cons.mp hy2 with rfl | hy2
      · rcases htot y b with h1 | h1
        · exact absurd h1 h
        · exact h1
      · exact hbt y hy2

theorem jsSort_pairwise (le : α → α → Bool)
    (htot : ∀ a b, le a b ∨ le b a) (htr : ∀ a b c, le a b → le b c → le a c)
    (l : List α) : (jsSort le l).Pairwise (fun x y => le x y) := by
  induction l with
  | nil => simp [jsSort]
  | cons a t ih => exact orderedIns_pairwise le htot htr a (jsSort le t) ih

end Trix

namespace Trix

/-! ### newVertex and getVertices -/

theorem newVertex_out (st : GState) (si : Nat) (p : Point) (d : VDir) :
    newVertex st (some si) p .outgoing d =
      (GState.mk (st.segs.set si { st.seg si with startR := .vx st.verts.length })
        (st.verts ++ [⟨some si, p, .outgoing, d, none⟩]), st.verts.length) := rfl

theorem newVertex_in (st : GState) (si : Nat) (p : Point) (d : VDir) :
    newVertex st (some si) p .incoming d =
      (GState.mk (st.segs.set si { st.seg si with endR := .vx st.verts.length })
        (st.verts ++ [⟨some si, p, .incoming, d, none⟩]), st.verts.length) := rfl

/-! Plain `List.getD` lemmas used for heap reasoning. -/

theorem getD_set_self (l : List α) (i : Nat) (a d : α) (h : i < l.length) :
    (l.set i a).getD i d = a := by
  simp [List.getD_eq_getElem?_getD, List.getElem?_set_self h]

theorem getD_set_ne (l : List α) (i j : Nat) (a d : α) (h : i ≠ j) :
    (l.set i a).getD j d = l.getD j d := by
  simp [List.getD_eq_getElem?_getD, List.getElem?_set_ne h]

theorem getD_append_lt (l1 l2 : List α) (j : Nat) (d : α) (h : j < l1.length) :
    (l1 ++ l2).getD j d = l1.getD j d := by
  simp [List.getD_eq_getElem?_getD, List.getElem?_append_left h]

theorem getD_append_right (l1 l2 : List α) (j : Nat) (d : α) (h : l1.length ≤ j) :
    (l1 ++ l2).getD j d = l2.getD (j - l1.length) d := by
  simp [List.getD_eq_getElem?_getD, List.getElem?_append_right h]

/-- One unfolding of `getVertices` on a segment whose endpoint fields are
still raw points. -/
theorem getVertices_cons_eq (st : GState) (si : Nat) (rest : List Nat)
    (hsi : si < st.segs.length) (p q : Point)
    (hp : (st.seg si).startR = .pt p) (hq : (st.seg si).endR = .pt q) :
    getVertices st (si :: rest) =
      (if p.1 = q.1 ∨ p.2 = q.2 then
        (match getVertices (GState.mk
            (st.segs.set si
              { st.seg si with
                  startR := .vx st.verts.length,
                  endR := .vx (st.verts.length + 1) })
            (st.verts ++
              [⟨some si, p, .outgoing,
                (if p.1 < q.1 ∨ p.2 < q.2 then VDir.positive else VDir.negative), none⟩,
               ⟨some si, q, .incoming,
                (if p.1 < q.1 ∨ p.2 < q.2 then VDir.positive else VDir.negative), none⟩]))
            rest with
        | .ok (st3, vs) => .ok (st3, st.verts.length :: (st.verts.length + 1) :: vs)
        | .error e => .error e)
      else .error "Not an axis-parallel segment.") := by
  simp only [GState.seg] at hp hq
  simp only [getVertices, newVertex, GState.seg, GState.vert, GState.refPos,
    GState.setSeg, hp, hq, getD_set_self _ _ _ _ hsi, List.set_set,
    List.append_assoc, List.cons_append, List.nil_append, List.length_append,
    List.length_cons, List.length_nil]

/-- Everything `getVertices` does to the heap: it appends, per input segment
`idxs[k]`, the OUTGOING vertex at heap index `base + 2k` and the INCOMING
vertex at `base + 2k + 1` (where `base` is the previous vertex count),
redirects that segment's `start`/`end` fields to them, and touches nothing
else. -/
theorem getVertices_build :
    ∀ (idxs : List Nat) (st st' : GState) (vs : List Nat),
    idxs.Nodup →
    (∀ si ∈ idxs, si < st.segs.length) →
    (∀ si ∈ idxs, ∃ p q : Point, (st.seg si).startR = .pt p ∧ (st.seg si).endR = .pt q) →
    getVertices st idxs = .ok (st', vs) →
    vs = List.range' st.verts.length (2 * idxs.length) ∧
    st'.segs.length = st.segs.length ∧
    st'.verts.length = st.verts.length + 2 * idxs.length ∧
    (∀ j, j < st.verts.length → st'.vert j = st.vert j) ∧
    (∀ sj, sj ∉ idxs → st'.seg sj = st.seg sj) ∧
    (∀ sj, (st'.seg sj).direction = (st.seg sj).direction ∧
        (st'.seg sj).lo = (st.seg sj).lo ∧ (st'.seg sj).hi = (st.seg sj).hi ∧
        (st'.seg sj).next = (st.seg sj).next ∧ (st'.seg sj).prev = (st.seg sj).prev ∧
        (st'.seg sj).visited = (st.seg sj).visited) ∧
    (∀ k si, idxs[k]? = some si →
      (st'.seg si).startR = .vx (st.verts.length + 2 * k) ∧
      (st'.seg si).endR = .vx (st.verts.length + 2 * k + 1) ∧
      st'.vert (st.verts.length + 2 * k) =
        ⟨some si, st.refPos (st.seg si).startR, .outgoing,
          (if (st.refPos (st.seg si).startR).1 < (st.refPos (st.seg si).endR).1 ∨
              (st.refPos (st.seg si).startR).2 < (st.refPos (st.seg si).endR).2
            then VDir.positive else VDir.negative), none⟩ ∧
      st'.vert (st.verts.length + 2 * k + 1) =
        ⟨some si, st.refPos (st.seg si).endR, .incoming,
          (if (st.refPos (st.seg si).startR).1 < (st.refPos (st.seg si).endR).1 ∨
              (st.refPos (st.seg si).startR).2 < (st.refPos (st.seg si).endR).2
            then VDir.positive else VDir.negative), none⟩) := by
  intro idxs
  induction idxs with
  | nil =>
    intro st st' vs _ _ _ hok
    simp only [getVertices] at hok
    cases hok
    exact ⟨by simp, rfl, by simp, fun j _ => rfl, fun sj _ => rfl,
      fun sj => ⟨rfl, rfl, rfl, rfl, rfl, rfl⟩, fun k si hk => by simp at hk⟩
  | cons si rest ih =>
    intro st st' vs hnd hvalid hpt hok
    have hsi : si < st.segs.length := hvalid si (List.mem_cons_self si rest)
    obtain ⟨p, q, hp, hq⟩ := hpt si (List.mem_cons_self si rest)
    have hnotmem : si ∉ rest := (List.nodup_cons.mp hnd).1
    have hndr : rest.Nodup := (List.nodup_cons.mp hnd).2
    rw [getVertices_cons_eq st si rest hsi p q hp hq] at hok
    set L := st.verts.length with hLdef
    set d0 := (if p.1 < q.1 ∨ p.2 < q.2 then VDir.positive else VDir.negative) with hd0
    set B : SegNode := { st.seg si with startR := .vx L, endR := .vx (L + 1) } with hB
    set r1 : VertNode := ⟨some si, p, .outgoing, d0, none⟩ with hr1
    set r2 : VertNode := ⟨some si, q, .incoming, d0, none⟩ with hr2
    set st2 : GState := GState.mk (st.segs.set si B) (st.verts ++ [r1, r2]) with hst2
    split at hok
    case isFalse => simp at hok
    case isTrue hax =>
      cases heq : getVertices st2 rest with
      | error e => rw [heq] at hok; simp at hok
      | ok pr =>
        obtain ⟨st3, vs'⟩ := pr
        rw [heq] at hok
        simp only [] at hok
        injection hok with hpr
        injection hpr with hst3 hvs
        subst hst3
        -- hypotheses of the inductive step
        have hval2 : ∀ sj ∈ rest, sj < st2.segs.length := by
          intro sj hj
          have := hvalid sj (List.mem_cons_of_mem si hj)
          simpa [hst2, List.length_set] using this
        have hseg2 : ∀ sj, sj ≠ si → st2.seg sj = st.seg sj := by
          intro sj hj
          simp only [hst2, GState.seg]
          exact getD_set_ne _ _ _ _ _ (fun h => hj h.symm)
        have hpt2 : ∀ sj ∈ rest, ∃ p2 q2 : Point,
            (st2.seg sj).startR = .pt p2 ∧ (st2.seg sj).endR = .pt q2 := by
          intro sj hj
          have hne : sj ≠ si := fun h => hnotmem (h ▸ hj)
          rw [hseg2 sj hne]
          exact hpt sj (List.mem_cons_of_mem si hj)
        obtain ⟨ihvs, ihslen, ihvlen, ihpre, ihframe, ihfields, ihk⟩ :=
          ih st2 st3 vs' hndr hval2 hpt2 heq
        have hst2vlen : st2.verts.length = L + 2 := by simp [hst2]
        have hst2slen : st2.segs.length = st.segs.length := by
          simp [hst2, List.length_set]
        have hseg2si : st2.seg si = B := by
          simp only [hst2, GState.seg]
          exact getD_set_self _ _ _ _ hsi
        refine ⟨?_, ?_, ?_, ?_, ?_, ?_, ?_⟩
        · -- vertex index list
          rw [← hvs, ihvs, hst2vlen]
          simp only [List.length_cons]
          have h2 : 2 * (rest.length + 1) = 2 * rest.length + 1 + 1 := by omega
          rw [h2, List.range'_succ, List.range'_succ]
        · rw [ihslen, hst2slen]
        · rw [ihvlen, hst2vlen, List.length_cons]
          omega
        · intro j hj
          rw [ihpre j (by omega)]
          simp only [hst2, GState.vert]
          exact getD_append_lt _ _ _ _ hj
        · intro sj hj
          have h1 : sj ∉ rest := fun h => hj (List.mem_cons_of_mem si h)
          have h2 : sj ≠ si := fun h => hj (h ▸ List.mem_cons_self si rest)
          rw [ihframe sj h1, hseg2 sj h2]
        · intro sj
          obtain ⟨f1, f2, f3, f4, f5, f6⟩ := ihfields sj
          by_cases hsj : sj = si
          · subst hsj
            rw [f1, f2, f3, f4, f5, f6, hseg2si]
            exact ⟨rfl, rfl, rfl, rfl, rfl, rfl⟩
          · rw [f1, f2, f3, f4, f5, f6, hseg2 sj hsj]
            exact ⟨rfl, rfl, rfl, rfl, rfl, rfl⟩
        · intro k sk hk
          match k, hk with
          | 0, hk =>
            have hks : sk = si := by
              have : si = sk := by simpa using hk
              exact this.symm
            subst hks
            have hfr : st3.seg sk = B := by rw [ihframe sk hnotmem, hseg2si]
            have hv1 : st3.vert L = r1 := by
              rw [ihpre L (by omega)]
              simp only [hst2, GState.vert]
              rw [getD_append_right _ _ _ _ (by omega)]
              simp
            have hv2 : st3.vert (L + 1) = r2 := by
              rw [ihpre (L + 1) (by omega)]
              simp only [hst2, GState.vert]
              rw [getD_append_right _ _ _ _ (by omega)]
              simp
            have hrp : st.refPos (st.seg sk).startR = p := by rw [hp]; rfl
            have hrq : st.refPos (st.seg sk).endR = q := by rw [hq]; rfl
            simp only [Nat.mul_zero, Nat.add_zero, hfr, hv1, hv2, hrp, hrq, hB, hr1, hr2]
            exact ⟨trivial, trivial, trivial, trivial⟩
          | k' + 1, hk =>
            have hk' : rest[k']? = some sk := by simpa using hk
            have hmem : sk ∈ rest := List.getElem?_mem hk' 
            have hne : sk ≠ si := fun h => hnotmem (h ▸ hmem)
            obtain ⟨g1, g2, g3, g4⟩ := ihk k' sk hk'
            have harith : st2.verts.length + 2 * k' = L + 2 * (k' + 1) := by
              rw [hst2vlen]; omega
            have hsegeq : st2.seg sk = st.seg sk := hseg2 sk hne
            obtain ⟨p2, q2, hp2, hq2⟩ := hpt sk (List.mem_cons_of_mem si hmem)
            have hrp2 : st2.refPos (st2.seg sk).startR = st.refPos (st.seg sk).startR := by
              rw [hsegeq, hp2]; rfl
            have hrq2 : st2.refPos (st2.seg sk).endR = st.refPos (st.seg sk).endR := by
              rw [hsegeq, hq2]; rfl
            rw [harith] at g1 g2 g3 g4
            rw [hrp2, hrq2] at g3 g4
            exact ⟨g1, g2, g3, g4⟩

/-- C10: the `Vertex` constructor with orientation OUTGOING (respectively
INCOMING) overwrites its segment's `start` (respectively `end`) field with
the vertex itself, leaving the other endpoint field alone; hence
`getVertices` mutates every segment of its input list so that afterwards its
`start` is the OUTGOING vertex and its `end` the INCOMING vertex created for
it (replacing the raw coordinate pairs), both carrying the direction
computed from the original endpoint order. -/
theorem vertex_ctor_getVertices_spec :
    (∀ (st : GState) (si : Nat) (p : Point) (d : VDir), si < st.segs.length →
      (((newVertex st (some si) p .outgoing d).1.seg si).startR =
          .vx (newVertex st (some si) p .outgoing d).2 ∧
        ((newVertex st (some si) p .outgoing d).1.seg si).endR = (st.seg si).endR ∧
        (newVertex st (some si) p .outgoing d).1.vert
            (newVertex st (some si) p .outgoing d).2 =
          ⟨some si, p, .outgoing, d, none⟩) ∧
      (((newVertex st (some si) p .incoming d).1.seg si).endR =
          .vx (newVertex st (some si) p .incoming d).2 ∧
        ((newVertex st (some si) p .incoming d).1.seg si).startR = (st.seg si).startR ∧
        (newVertex st (some si) p .incoming d).1.vert
            (newVertex st (some si) p .incoming d).2 =
          ⟨some si, p, .incoming, d, none⟩)) ∧
    (∀ (idxs : List Nat) (st st' : GState) (vs : List Nat),
      idxs.Nodup →
      (∀ si ∈ idxs, si < st.segs.length) →
      (∀ si ∈ idxs, ∃ p q : Point, (st.seg si).startR = .pt p ∧ (st.seg si).endR = .pt q) →
      getVertices st idxs = .ok (st', vs) →
      ∀ k si, idxs[k]? = some si →
        (st'.seg si).startR = .vx (st.verts.length + 2 * k) ∧
        (st'.seg si).endR = .vx (st.verts.length + 2 * k + 1) ∧
        st'.vert (st.verts.length + 2 * k) =
          ⟨some si, st.refPos (st.seg si).startR, .outgoing,
            (if (st.refPos (st.seg si).startR).1 < (st.refPos (st.seg si).endR).1 ∨
                (st.refPos (st.seg si).startR).2 < (st.refPos (st.seg si).endR).2
              then VDir.positive else VDir.negative), none⟩ ∧
        st'.vert (st.verts.length + 2 * k + 1) =
          ⟨some si, st.refPos (st.seg si).endR, .incoming,
            (if (st.refPos (st.seg si).startR).1 < (st.refPos (st.seg si).endR).1 ∨
                (st.refPos (st.seg si).startR).2 < (st.refPos (st.seg si).endR).2
              then VDir.positive else VDir.negative), none⟩) := by
  constructor
  · intro st si p d hsi
    constructor
    · refine ⟨?_, ?_, ?_⟩
      · simp only [newVertex_out, GState.seg]
        rw [getD_set_self _ _ _ _ hsi]
      · simp only [newVertex_out, GState.seg]
        rw [getD_set_self _ _ _ _ hsi]
      · simp only [newVertex_out, GState.vert]
        rw [getD_append_right _ _ _ _ (Nat.le_refl _)]
        simp
    · refine ⟨?_, ?_, ?_⟩
      · simp only [newVertex_in, GState.seg]
        rw [getD_set_self _ _ _ _ hsi]
      · simp only [newVertex_in, GState.seg]
        rw [getD_set_self _ _ _ _ hsi]
      · simp only [newVertex_in, GState.vert]
        rw [getD_append_right _ _ _ _ (Nat.le_refl _)]
        simp
  · intro idxs st st' vs hnd hval hpt hok
    exact (getVertices_build idxs st st' vs hnd hval hpt hok).2.2.2.2.2.2

/-- Witness for C10 at the one-segment heap `[(0,0)-(1,0)]`. -/
theorem vertex_ctor_getVertices_spec_witness :
    ((GState.mk [⟨.horizontal, 0, 1, .vx 0, .vx 1, none, none, false⟩]
        [⟨some 0, (0, 0), .outgoing, .positive, none⟩,
         ⟨some 0, (1, 0), .incoming, .positive, none⟩]).seg 0).startR =
      .vx ((GState.mk [segOfPts (0, 0) (1, 0)] []).verts.length + 2 * 0) := by
  have h := (vertex_ctor_getVertices_spec.2 [0]
    (GState.mk [segOfPts (0, 0) (1, 0)] [])
    (GState.mk [⟨.horizontal, 0, 1, .vx 0, .vx 1, none, none, false⟩]
      [⟨some 0, (0, 0), .outgoing, .positive, none⟩,
       ⟨some 0, (1, 0), .incoming, .positive, none⟩])
    [0, 1] (by decide) (by decide)
    (fun si hsi => by
      have h0 : si = 0 := by simpa using hsi
      subst h0
      exact ⟨(0, 0), (1, 0), rfl, rfl⟩)
    (by rfl)) 0 0 (by rfl)
  exact h.1

/-! ### Field-level frame lemmas for the heap operations -/

theorem seg_setSeg (st : GState) (i j : Nat) (s : SegNode) :
    (st.setSeg i s).seg j =
      if i = j ∧ i < st.segs.length then s else st.seg j := by
  simp only [GState.setSeg, GState.seg, List.getD_eq_getElem?_getD,
    List.getElem?_set]
  by_cases h1 : i = j
  · subst h1
    by_cases h2 : i < st.segs.length
    · simp [h2]
    · simp [h2, List.getElem?_eq_none (Nat.le_of_not_lt h2)]
  · simp [h1]

theorem seg_setNext_next_self (st : GState) (i : Nat) (x : Option Nat)
    (h : i < st.segs.length) : ((st.setNext i x).seg i).next = x := by
  simp [GState.setNext, seg_setSeg, h]

theorem seg_setNext_next_ne (st : GState) (i j : Nat) (x : Option Nat)
    (h : i ≠ j) : ((st.setNext i x).seg j).next = (st.seg j).next := by
  simp [GState.setNext, seg_setSeg, h]

theorem seg_setPrev_prev_self (st : GState) (i : Nat) (x : Option Nat)
    (h : i < st.segs.length) : ((st.setPrev i x).seg i).prev = x := by
  simp [GState.setPrev, seg_setSeg, h]

theorem seg_setPrev_prev_ne (st : GState) (i j : Nat) (x : Option Nat)
    (h : i ≠ j) : ((st.setPrev i x).seg j).prev = (st.seg j).prev := by
  simp [GState.setPrev, seg_setSeg, h]

theorem seg_setNext_prev (st : GState) (i j : Nat) (x : Option Nat) :
    ((st.setNext i x).seg j).prev = (st.seg j).prev := by
  simp only [GState.setNext, seg_setSeg]
  split
  case isTrue h => rw [← h.1]
  case isFalse => rfl

theorem seg_setPrev_next (st : GState) (i j : Nat) (x : Option Nat) :
    ((st.setPrev i x).seg j).next = (st.seg j).next := by
  simp only [GState.setPrev, seg_setSeg]
  split
  case isTrue h => rw [← h.1]
  case isFalse => rfl

theorem seg_setNext_startR (st : GState) (i j : Nat) (x : Option Nat) :
    ((st.setNext i x).seg j).startR = (st.seg j).startR := by
  simp only [GState.setNext, seg_setSeg]
  split
  case isTrue h => rw [← h.1]
  case isFalse => rfl

theorem seg_setNext_endR (st : GState) (i j : Nat) (x : Option Nat) :
    ((st.setNext i x).seg j).endR = (st.seg j).endR := by
  simp only [GState.setNext, seg_setSeg]
  split
  case isTrue h => rw [← h.1]
  case isFalse => rfl

theorem seg_setPrev_startR (st : GState) (i j : Nat) (x : Option Nat) :
    ((st.setPrev i x).seg j).startR = (st.seg j).startR := by
  simp only [GState.setPrev, seg_setSeg]
  split
  case isTrue h => rw [← h.1]
  case isFalse => rfl

theorem seg_setPrev_endR (st : GState) (i j : Nat) (x : Option Nat) :
    ((st.setPrev i x).seg j).endR = (st.seg j).endR := by
  simp only [GState.setPrev, seg_setSeg]
  split
  case isTrue h => rw [← h.1]
  case isFalse => rfl

theorem seg_setNext_direction (st : GState) (i j : Nat) (x : Option Nat) :
    ((st.setNext i x).seg j).direction = (st.seg j).direction := by
  simp only [GState.setNext, seg_setSeg]
  split
  case isTrue h => rw [← h.1]
  case isFalse => rfl

theorem seg_setPrev_direction (st : GState) (i j : Nat) (x : Option Nat) :
    ((st.setPrev i x).seg j).direction = (st.seg j).direction := by
  simp only [GState.setPrev, seg_setSeg]
  split
  case isTrue h => rw [← h.1]
  case isFalse => rfl

theorem segsLength_setNext (st : GState) (i : Nat) (x : Option Nat) :
    (st.setNext i x).segs.length = st.segs.length := by
  simp [GState.setNext, GState.setSeg]

theorem segsLength_setPrev (st : GState) (i : Nat) (x : Option Nat) :
    (st.setPrev i x).segs.length = st.segs.length := by
  simp [GState.setPrev, GState.setSeg]

theorem verts_setNext (st : GState) (i : Nat) (x : Option Nat) :
    (st.setNext i x).verts = st.verts := rfl

theorem verts_setPrev (st : GState) (i : Nat) (x : Option Nat) :
    (st.setPrev i x).verts = st.verts := rfl

theorem vert_setNext (st : GState) (i j : Nat) (x : Option Nat) :
    (st.setNext i x).vert j = st.vert j := rfl

theorem vert_setPrev (st : GState) (i j : Nat) (x : Option Nat) :
    (st.setPrev i x).vert j = st.vert j := rfl

theorem seg_setConcave (st : GState) (i j : Nat) (b : Option Bool) :
    (st.setConcave i b).seg j = st.seg j := rfl

theorem vert_setConcave_self (st : GState) (i : Nat) (b : Option Bool)
    (h : i < st.verts.length) : ((st.setConcave i b).vert i).concave = b := by
  simp [GState.setConcave, GState.vert, GState.setVert,
    List.getD_eq_getElem?_getD, List.getElem?_set_self h]

theorem vert_setConcave_ne (st : GState) (i j : Nat) (b : Option Bool)
    (h : i ≠ j) : (st.setConcave i b).vert j = st.vert j := by
  simp [GState.setConcave, GState.vert, GState.setVert,
    List.getD_eq_getElem?_getD, List.getElem?_set_ne h]

theorem vertsLength_setConcave (st : GState) (i : Nat) (b : Option Bool) :
    (st.setConcave i b).verts.length = st.verts.length := by
  simp [GState.setConcave, GState.setVert]

/-- `newVertex` leaves every segment's `next` untouched. -/
theorem seg_newVertex_next (st : GState) (s? : Option Nat) (p : Point)
    (o : Orient) (d : VDir) (j : Nat) :
    (((newVertex st s? p o d).1).seg j).next = (st.seg j).next := by
  cases s? with
  | none => rfl
  | some si =>
    cases o with
    | outgoing =>
      show ((GState.setSeg _ si _).seg j).next = _
      rw [seg_setSeg]
      split
      case isTrue h =>
        have : (GState.seg { st with verts := st.verts ++ [⟨some si, p, .outgoing, d, none⟩] } si) = st.seg si := rfl
        rw [← h.1, this]
      case isFalse => rfl
    | incoming =>
      show ((GState.setSeg _ si _).seg j).next = _
      rw [seg_setSeg]
      split
      case isTrue h =>
        have : (GState.seg { st with verts := st.verts ++ [⟨some si, p, .incoming, d, none⟩] } si) = st.seg si := rfl
        rw [← h.1, this]
      case isFalse => rfl

/-- `newVertex` leaves every segment's `prev` untouched. -/
theorem seg_newVertex_prev (st : GState) (s? : Option Nat) (p : Point)
    (o : Orient) (d : VDir) (j : Nat) :
    (((newVertex st s? p o d).1).seg j).prev = (st.seg j).prev := by
  cases s? with
  | none => rfl
  | some si =>
    cases o with
    | outgoing =>
      show ((GState.setSeg _ si _).seg j).prev = _
      rw [seg_setSeg]
      split
      case isTrue h =>
        have : (GState.seg { st with verts := st.verts ++ [⟨some si, p, .outgoing, d, none⟩] } si) = st.seg si := rfl
        rw [← h.1, this]
      case isFalse => rfl
    | incoming =>
      show ((GState.setSeg _ si _).seg j).prev = _
      rw [seg_setSeg]
      split
      case isTrue h =>
        have : (GState.seg { st with verts := st.verts ++ [⟨some si, p, .incoming, d, none⟩] } si) = st.seg si := rfl
        rw [← h.1, this]
      case isFalse => rfl

/-- `newVertex` leaves every segment's `direction` untouched. -/
theorem seg_newVertex_direction (st : GState) (s? : Option Nat) (p : Point)
    (o : Orient) (d : VDir) (j : Nat) :
    (((newVertex st s? p o d).1).seg j).direction = (st.seg j).direction := by
  cases s? with
  | none => rfl
  | some si =>
    cases o with
    | outgoing =>
      show ((GState.setSeg _ si _).seg j).direction = _
      rw [seg_setSeg]
      split
      case isTrue h =>
        have : (GState.seg { st with verts := st.verts ++ [⟨some si, p, .outgoing, d, none⟩] } si) = st.seg si := rfl
        rw [← h.1, this]
      case isFalse => rfl
    | incoming =>
      show ((GState.setSeg _ si _).seg j).direction = _
      rw [seg_setSeg]
      split
      case isTrue h =>
        have : (GState.seg { st with verts := st.verts ++ [⟨some si, p, .incoming, d, none⟩] } si) = st.seg si := rfl
        rw [← h.1, this]
      case isFalse => rfl

theorem vert_newVertex_lt (st : GState) (s? : Option Nat) (p : Point)
    (o : Orient) (d : VDir) (j : Nat) (h : j < st.verts.length) :
    ((newVertex st s? p o d).1).vert j = st.vert j := by
  have hbase : (GState.mk st.segs (st.verts ++ [⟨s?, p, o, d, none⟩])).vert j
      = st.vert j := by
    simp only [GState.vert, List.getD_eq_getElem?_getD]
    rw [List.getElem?_append_left h]
  cases s? with
  | none => exact hbase
  | some si =>
    cases o with
    | outgoing => exact hbase
    | incoming => exact hbase

theorem vertsLength_newVertex (st : GState) (s? : Option Nat) (p : Point)
    (o : Orient) (d : VDir) :
    ((newVertex st s? p o d).1).verts.length = st.verts.length + 1 := by
  cases s? with
  | none => simp [newVertex]
  | some si =>
    cases o with
    | outgoing => simp [newVertex, GState.setSeg]
    | incoming => simp [newVertex, GState.setSeg]

theorem segsLength_newVertex (st : GState) (s? : Option Nat) (p : Point)
    (o : Orient) (d : VDir) :
    ((newVertex st s? p o d).1).segs.length = st.segs.length := by
  cases s? with
  | none => rfl
  | some si =>
    cases o with
    | outgoing => simp [newVertex, GState.setSeg]
    | incoming => simp [newVertex, GState.setSeg]

theorem snd_newVertex (st : GState) (s? : Option Nat) (p : Point)
    (o : Orient) (d : VDir) : (newVertex st s? p o d).2 = st.verts.length := by
  cases s? with
  | none => rfl
  | some si =>
    cases o with
    | outgoing => rfl
    | incoming => rfl

theorem vert_newVertex_self (st : GState) (s? : Option Nat) (p : Point)
    (o : Orient) (d : VDir) :
    ((newVertex st s? p o d).1).vert st.verts.length = ⟨s?, p, o, d, none⟩ := by
  have hbase : (GState.mk st.segs (st.verts ++ [⟨s?, p, o, d, none⟩])).vert
      st.verts.length = ⟨s?, p, o, d, none⟩ := by
    simp [GState.vert, List.getD_eq_getElem?_getD]
  cases s? with
  | none => exact hbase
  | some si =>
    cases o with
    | outgoing => exact hbase
    | incoming => exact hbase

/-- `newVertex` leaves every segment's `endR` untouched when OUTGOING. -/
theorem seg_newVertex_out_endR (st : GState) (s? : Option Nat) (p : Point)
    (d : VDir) (j : Nat) :
    (((newVertex st s? p .outgoing d).1).seg j).endR = (st.seg j).endR := by
  cases s? with
  | none => rfl
  | some si =>
    show ((GState.setSeg _ si _).seg j).endR = _
    rw [seg_setSeg]
    split
    case isTrue h =>
      have : (GState.seg { st with verts := st.verts ++ [⟨some si, p, .outgoing, d, none⟩] } si) = st.seg si := rfl
      rw [← h.1, this]
    case isFalse => rfl

/-- The references a successful `Segment` constructor stores. -/
theorem segCtor_ok_refs (sp ep : Point) (sr er : Ref) (s : SegNode)
    (h : segCtor sp ep sr er = .ok s) : s.startR = sr ∧ s.endR = er := by
  unfold segCtor at h
  split at h
  · injection h with h2
    subst h2
    exact ⟨rfl, rfl⟩
  · split at h
    · injection h with h2
      subst h2
      exact ⟨rfl, rfl⟩
    · cases h

/-- C7: `splitSegment` on a chord `segIdx` from vertex `va` (on segment `sa`
with predecessor `spa`) to vertex `vb` (on segment `sb` with predecessor
`spb`) creates the reversed chord at heap index `st0.segs.length`, sets
exactly the eight links `spa.next = sab`, `sab.prev = spa`, `sab.next = sb`,
`sb.prev = sab`, `spb.next = sba`, `sba.prev = spb`, `sba.next = sa`,
`sa.prev = sba`, marks `va`, `vb` and the two newly created vertices
non-concave, appends `sab` and `sba` to the matching segment list, and
leaves the links of every other segment unchanged. -/
theorem splitSegment_spec
    (st0 : GState) (segIdx va vb sa sb spa spb : Nat)
    (hsegIdx : segIdx < st0.segs.length)
    (hsa : sa < st0.segs.length) (hsb : sb < st0.segs.length)
    (hspa : spa < st0.segs.length) (hspb : spb < st0.segs.length)
    (hva : va < st0.verts.length) (hvb : vb < st0.verts.length)
    (h1 : (st0.seg segIdx).startR = .vx va) (h2 : (st0.seg segIdx).endR = .vx vb)
    (h3 : (st0.vert va).segment = some sa) (h4 : (st0.vert vb).segment = some sb)
    (h5 : sa ≠ segIdx) (h6 : sb ≠ segIdx)
    (h7 : (st0.seg sa).prev = some spa) (h8 : (st0.seg sb).prev = some spb)
    (hvane : va ≠ vb) (hsasb : sa ≠ sb) (hspane : spa ≠ spb)
    (hfr1 : segIdx ≠ spa) (hfr2 : segIdx ≠ spb)
    (sbaRec : SegNode)
    (hctor : segCtor (st0.vert vb).pos (st0.vert va).pos (.vx vb) (.vx va) = .ok sbaRec)
    (hne : (st0.vert vb).pos.coord (st0.seg segIdx).direction ≠
           (st0.vert va).pos.coord (st0.seg segIdx).direction)
    (hsegs vsegs : List Nat) :
    ∃ stF : GState,
      splitSegment st0 segIdx hsegs vsegs = .ok (stF,
        (if (st0.seg segIdx).direction = .horizontal
          then hsegs ++ [segIdx, st0.segs.length] else hsegs),
        (if (st0.seg segIdx).direction = .horizontal
          then vsegs else vsegs ++ [segIdx, st0.segs.length])) ∧
      (stF.seg spa).next = some segIdx ∧
      (stF.seg segIdx).prev = some spa ∧
      (stF.seg segIdx).next = some sb ∧
      (stF.seg sb).prev = some segIdx ∧
      (stF.seg spb).next = some st0.segs.length ∧
      (stF.seg st0.segs.length).prev = some spb ∧
      (stF.seg st0.segs.length).next = some sa ∧
      (stF.seg sa).prev = some st0.segs.length ∧
      (stF.vert va).concave = some false ∧
      (stF.vert vb).concave = some false ∧
      (stF.vert st0.verts.length).concave = some false ∧
      (stF.vert (st0.verts.length + 1)).concave = some false ∧
      stF.segs.length = st0.segs.length + 1 ∧
      (stF.seg st0.segs.length).endR = .vx va ∧
      (∀ sj, sj ≠ spa → sj ≠ spb → sj ≠ sa → sj ≠ sb → sj ≠ segIdx →
        sj ≠ st0.segs.length →
        (stF.seg sj).next = (st0.seg sj).next ∧
        (stF.seg sj).prev = (st0.seg sj).prev) := by
  set N := st0.segs.length with hN
  set LV := st0.verts.length with hLV
  set st1 : GState := ⟨st0.segs ++ [sbaRec], st0.verts⟩ with hst1def
  set st9 : GState :=
    (((((((st1.setNext spa (some segIdx)).setPrev segIdx (some spa)).setNext segIdx
      (some sb)).setPrev sb (some segIdx)).setNext spb (some N)).setPrev
      N (some spb)).setNext N (some sa)).setPrev sa (some N) with hst9def
  have hv9 : ∀ j, st9.vert j = st0.vert j := fun j => rfl
  have hlen1 : st1.segs.length = N + 1 := by simp [hst1def]
  have hlen9 : st9.segs.length = N + 1 := by
    simp [hst9def, segsLength_setNext, segsLength_setPrev, hlen1]
  have hseg1_lt : ∀ j, j < N → st1.seg j = st0.seg j := by
    intro j hj
    simp only [hst1def, GState.seg]
    exact getD_append_lt _ _ _ _ hj
  -- the record of the chord inside st9 keeps its endpoint refs and direction
  have hstart9 : (st9.seg segIdx).startR = .vx va := by
    rw [hst9def]
    rw [seg_setPrev_startR, seg_setNext_startR, seg_setPrev_startR,
      seg_setNext_startR, seg_setPrev_startR, seg_setNext_startR,
      seg_setPrev_startR, seg_setNext_startR, hseg1_lt segIdx hsegIdx, h1]
  have hend9 : (st9.seg segIdx).endR = .vx vb := by
    rw [hst9def]
    rw [seg_setPrev_endR, seg_setNext_endR, seg_setPrev_endR,
      seg_setNext_endR, seg_setPrev_endR, seg_setNext_endR,
      seg_setPrev_endR, seg_setNext_endR, hseg1_lt segIdx hsegIdx, h2]
  have hdir9 : (st9.seg segIdx).direction = (st0.seg segIdx).direction := by
    rw [hst9def]
    rw [seg_setPrev_direction, seg_setNext_direction, seg_setPrev_direction,
      seg_setNext_direction, seg_setPrev_direction, seg_setNext_direction,
      seg_setPrev_direction, seg_setNext_direction, hseg1_lt segIdx hsegIdx]
  set vdval := (if (st0.vert va).pos.coord (st0.seg segIdx).direction <
      (st0.vert vb).pos.coord (st0.seg segIdx).direction
    then VDir.positive else VDir.negative) with hvdval
  have hgvd : getVertexDirection st9 segIdx = .ok vdval := by
    simp only [getVertexDirection, hstart9, hend9, hdir9, GState.refPos, hv9]
    rw [if_pos hne]
  set a1 := newVertex st9 (some segIdx) (st9.vert va).pos .outgoing vdval with ha1def
  set a2 := newVertex a1.1 (some N) (a1.1.vert vb).pos .outgoing vdval.flip with ha2def
  set stF := (((a2.1.setConcave a1.2 (some false)).setConcave a2.2
    (some false)).setConcave va (some false)).setConcave vb (some false) with hstFdef
  have ha12 : a1.2 = LV := by rw [ha1def, snd_newVertex]; rfl
  have ha1vlen : a1.1.verts.length = LV + 1 := by rw [ha1def, vertsLength_newVertex]; rfl
  have ha22 : a2.2 = LV + 1 := by rw [ha2def, snd_newVertex, ha1vlen]
  have ha2vlen : a2.1.verts.length = LV + 2 := by rw [ha2def, vertsLength_newVertex, ha1vlen]
  -- direction of the chord in the final state
  have hdirF : (stF.seg segIdx).direction = (st0.seg segIdx).direction := by
    rw [hstFdef]
    show ((a2.1.seg segIdx).direction) = _
    rw [ha2def, seg_newVertex_direction, ha1def, seg_newVertex_direction, hdir9]
  have hdirFsba : (stF.seg N).direction = sbaRec.direction := by
    rw [hstFdef]
    show ((a2.1.seg N).direction) = _
    rw [ha2def, seg_newVertex_direction, ha1def, seg_newVertex_direction, hst9def]
    rw [seg_setPrev_direction, seg_setNext_direction, seg_setPrev_direction,
      seg_setNext_direction, seg_setPrev_direction, seg_setNext_direction,
      seg_setPrev_direction, seg_setNext_direction]
    simp [hst1def, GState.seg, List.getD_eq_getElem?_getD]
  -- running splitSegment
  have hrun : splitSegment st0 segIdx hsegs vsegs = .ok (stF,
      (if (stF.seg segIdx).direction = .horizontal
        then hsegs ++ [segIdx, N] else hsegs),
      (if (stF.seg segIdx).direction = .horizontal
        then vsegs else vsegs ++ [segIdx, N])) := by
    have htaut : ((stF.seg segIdx).direction = .horizontal ∨
        (stF.seg segIdx).direction = .vertical) ∧
        ((stF.seg N).direction = .horizontal ∨
        (stF.seg N).direction = .vertical) := by
      constructor
      · cases (stF.seg segIdx).direction
        · exact Or.inl rfl
        · exact Or.inr rfl
      · cases (stF.seg N).direction
        · exact Or.inl rfl
        · exact Or.inr rfl
    simp only [splitSegment, h1, h2, refVx, h3, h4, h7, h8, hctor]
    rw [if_pos ⟨h5, h6⟩]
    simp only [← hN, ← hst1def]
    rw [← hst9def, hgvd]
    simp only [← ha1def, ← ha2def, ← ha12, ← ha22, ← hstFdef]
    rw [if_pos htaut]
    split
    case isTrue => rfl
    case isFalse => rfl
  have hsegF : ∀ j, stF.seg j = a2.1.seg j := fun j => rfl
  have hNspa : N ≠ spa := (Nat.ne_of_lt hspa).symm
  have hNspb : N ≠ spb := (Nat.ne_of_lt hspb).symm
  have hNsa : N ≠ sa := (Nat.ne_of_lt hsa).symm
  have hNsb : N ≠ sb := (Nat.ne_of_lt hsb).symm
  have hNsegIdx : N ≠ segIdx := (Nat.ne_of_lt hsegIdx).symm
  have hspbspa : spb ≠ spa := hspane.symm
  have hspbsegIdx : spb ≠ segIdx := fun h => hfr2 h.symm
  have hsaN : sa ≠ N := Nat.ne_of_lt hsa
  have hsbN : sb ≠ N := Nat.ne_of_lt hsb
  have hsasbN : sa ≠ sb := hsasb
  have hlt1 : ∀ x, x < N → x < st1.segs.length := by
    intro x hx
    rw [hlen1]
    exact Nat.lt_succ_of_lt hx
  have hNlt1 : N < st1.segs.length := by
    rw [hlen1]
    exact Nat.lt_succ_self N
  have hnext9 : ∀ j, (stF.seg j).next = (st9.seg j).next := by
    intro j
    rw [hsegF, ha2def, seg_newVertex_next, ha1def, seg_newVertex_next]
  have hprev9 : ∀ j, (stF.seg j).prev = (st9.seg j).prev := by
    intro j
    rw [hsegF, ha2def, seg_newVertex_prev, ha1def, seg_newVertex_prev]
  have hseg1f : ∀ sj, sj ≠ N → st1.seg sj = st0.seg sj := by
    intro sj hj
    rcases Nat.lt_or_ge sj N with h | h
    · exact hseg1_lt sj h
    · have hgt : N < sj := Nat.lt_of_le_of_ne h (Ne.symm hj)
      simp only [hst1def, GState.seg, List.getD_eq_getElem?_getD]
      rw [List.getElem?_eq_none (by simpa using hgt), List.getElem?_eq_none (Nat.le_of_lt hgt)]
  refine ⟨stF, ?_, ?_, ?_, ?_, ?_, ?_, ?_, ?_, ?_, ?_, ?_, ?_, ?_, ?_, ?_, ?_⟩
  · rw [hrun, hdirF]
  · -- spa.next = sab
    rw [hnext9, hst9def]
    simp only [seg_setPrev_next, seg_setNext_next_ne _ _ _ _ hNspa,
      seg_setNext_next_ne _ _ _ _ hspbspa, seg_setNext_next_ne _ _ _ _ hfr1]
    exact seg_setNext_next_self _ _ _ (hlt1 spa hspa)
  · -- sab.prev = spa
    rw [hprev9, hst9def]
    simp only [seg_setNext_prev, seg_setPrev_prev_ne _ _ _ _ h5,
      seg_setPrev_prev_ne _ _ _ _ hNsegIdx, seg_setPrev_prev_ne _ _ _ _ h6]
    exact seg_setPrev_prev_self _ _ _ (by
      simp only [segsLength_setNext]
      exact hlt1 segIdx hsegIdx)
  · -- sab.next = sb
    rw [hnext9, hst9def]
    simp only [seg_setPrev_next, seg_setNext_next_ne _ _ _ _ hNsegIdx,
      seg_setNext_next_ne _ _ _ _ hspbsegIdx]
    exact seg_setNext_next_self _ _ _ (by
      simp only [segsLength_setPrev, segsLength_setNext]
      exact hlt1 segIdx hsegIdx)
  · -- sb.prev = sab
    rw [hprev9, hst9def]
    simp only [seg_setNext_prev, seg_setPrev_prev_ne _ _ _ _ hsasbN,
      seg_setPrev_prev_ne _ _ _ _ hNsb]
    exact seg_setPrev_prev_self _ _ _ (by
      simp only [segsLength_setNext, segsLength_setPrev]
      exact hlt1 sb hsb)
  · -- spb.next = sba
    rw [hnext9, hst9def]
    simp only [seg_setPrev_next, seg_setNext_next_ne _ _ _ _ hNspb]
    exact seg_setNext_next_self _ _ _ (by
      simp only [segsLength_setNext, segsLength_setPrev]
      exact hlt1 spb hspb)
  · -- sba.prev = spb
    rw [hprev9, hst9def]
    simp only [seg_setNext_prev, seg_setPrev_prev_ne _ _ _ _ hsaN]
    exact seg_setPrev_prev_self _ _ _ (by
      simp only [segsLength_setNext, segsLength_setPrev]
      exact hNlt1)
  · -- sba.next = sa
    rw [hnext9, hst9def]
    simp only [seg_setPrev_next]
    exact seg_setNext_next_self _ _ _ (by
      simp only [segsLength_setNext, segsLength_setPrev]
      exact hNlt1)
  · -- sa.prev = sba
    rw [hprev9, hst9def]
    exact seg_setPrev_prev_self _ _ _ (by
      simp only [segsLength_setNext, segsLength_setPrev]
      exact hlt1 sa hsa)
  · -- va not concave
    rw [hstFdef]
    rw [vert_setConcave_ne _ _ _ _ hvane.symm]
    exact vert_setConcave_self _ _ _ (by
      simp only [vertsLength_setConcave, ha2vlen]
      omega)
  · -- vb not concave
    rw [hstFdef]
    exact vert_setConcave_self _ _ _ (by
      simp only [vertsLength_setConcave, ha2vlen]
      omega)
  · -- vA not concave
    rw [hstFdef]
    have hvbLV : vb ≠ LV := Nat.ne_of_lt hvb
    have hvaLV : va ≠ LV := Nat.ne_of_lt hva
    rw [vert_setConcave_ne _ _ _ _ hvbLV, vert_setConcave_ne _ _ _ _ hvaLV]
    rw [ha22]
    have hLV1 : LV + 1 ≠ LV := by omega
    rw [vert_setConcave_ne _ _ _ _ hLV1, ha12]
    exact vert_setConcave_self _ _ _ (by rw [ha2vlen]; omega)
  · -- vB not concave
    rw [hstFdef]
    have hvbLV : vb ≠ LV + 1 := by omega
    have hvaLV : va ≠ LV + 1 := by omega
    rw [vert_setConcave_ne _ _ _ _ hvbLV, vert_setConcave_ne _ _ _ _ hvaLV]
    rw [ha22]
    exact vert_setConcave_self _ _ _ (by
      simp only [vertsLength_setConcave, ha2vlen]
      omega)
  · -- one segment was appended
    have : stF.segs.length = a2.1.segs.length := rfl
    rw [this, ha2def, segsLength_newVertex, ha1def, segsLength_newVertex, hlen9]
  · -- the reversed chord ends at va
    have hrd : (stF.seg N).endR = (a2.1.seg N).endR := rfl
    rw [hrd, ha2def, seg_newVertex_out_endR, ha1def, seg_newVertex_out_endR, hst9def]
    rw [seg_setPrev_endR, seg_setNext_endR, seg_setPrev_endR, seg_setNext_endR,
      seg_setPrev_endR, seg_setNext_endR, seg_setPrev_endR, seg_setNext_endR]
    have hst1N : st1.seg N = sbaRec := by
      simp [hst1def, GState.seg, List.getD_eq_getElem?_getD]
    rw [hst1N]
    exact (segCtor_ok_refs _ _ _ _ _ hctor).2
  · -- frame
    intro sj hjspa hjspb hjsa hjsb hjseg hjN
    constructor
    · rw [hnext9, hst9def]
      simp only [seg_setPrev_next, seg_setNext_next_ne _ _ _ _ (Ne.symm hjspa),
        seg_setNext_next_ne _ _ _ _ (Ne.symm hjseg),
        seg_setNext_next_ne _ _ _ _ (Ne.symm hjspb),
        seg_setNext_next_ne _ _ _ _ (Ne.symm hjN)]
      rw [hseg1f sj hjN]
    · rw [hprev9, hst9def]
      simp only [seg_setNext_prev, seg_setPrev_prev_ne _ _ _ _ (Ne.symm hjseg),
        seg_setPrev_prev_ne _ _ _ _ (Ne.symm hjsb),
        seg_setPrev_prev_ne _ _ _ _ (Ne.symm hjN),
        seg_setPrev_prev_ne _ _ _ _ (Ne.symm hjsa)]
      rw [hseg1f sj hjN]

/-- Witness for C7 on the concrete heap `w7st`. -/
theorem splitSegment_spec_witness :
    ∃ stF : GState, splitSegment w7st 4 [] [] = .ok (stF, [4, 5], []) ∧
      (stF.seg 2).next = some 4 ∧ (stF.seg 4).prev = some 2 ∧
      (stF.seg 4).next = some 1 ∧ (stF.seg 1).prev = some 4 ∧
      (stF.seg 3).next = some 5 ∧ (stF.seg 5).prev = some 3 ∧
      (stF.seg 5).next = some 0 ∧ (stF.seg 0).prev = some 5 := by
  obtain ⟨stF, hrun, l1, l2, l3, l4, l5, l6, l7, l8, _⟩ :=
    splitSegment_spec w7st 4 0 1 0 1 2 3
      (by decide) (by decide) (by decide) (by decide) (by decide)
      (by decide) (by decide) (by decide) (by decide) (by decide)
      (by decide) (by decide) (by decide) (by decide) (by decide)
      (by decide) (by decide) (by decide) (by decide) (by decide)
      ⟨.horizontal, 1, 3, .vx 1, .vx 0, none, none, false⟩
      (by rfl) (by decide) [] []
  refine ⟨stF, ?_, l1, l2, l3, l4, l5, l6, l7, l8⟩
  rw [hrun]
  rfl


/-! ### Interval tree lemmas -/

theorem partition3_spec (lo hi : α → Nat) (mid : Nat) :
    ∀ xs : List α,
    xs.Perm ((partition3 lo hi mid xs).1 ++ (partition3 lo hi mid xs).2.1 ++
      (partition3 lo hi mid xs).2.2) ∧
    (∀ s ∈ (partition3 lo hi mid xs).1, hi s < mid) ∧
    (∀ s ∈ (partition3 lo hi mid xs).2.1, ¬hi s < mid ∧ ¬mid < lo s) ∧
    (∀ s ∈ (partition3 lo hi mid xs).2.2, ¬hi s < mid ∧ mid < lo s) := by
  intro xs
  induction xs with
  | nil => exact ⟨by simp [partition3], by simp [partition3], by simp [partition3],
      by simp [partition3]⟩
  | cons a t ih =>
    obtain ⟨ihp, ihl, ihm, ihr⟩ := ih
    rcases hpe : partition3 lo hi mid t with ⟨l1, m1, r1⟩
    rw [hpe] at ihp ihl ihm ihr
    simp only at ihp ihl ihm ihr
    have hstep : partition3 lo hi mid (a :: t) =
        (if hi a < mid then (a :: l1, m1, r1)
          else if mid < lo a then (l1, m1, a :: r1) else (l1, a :: m1, r1)) := by
      simp [partition3, hpe]
    by_cases h1 : hi a < mid
    · rw [hstep, if_pos h1]
      refine ⟨by simpa using ihp.cons a, ?_, ?_, ?_⟩
      · intro s hs
        rcases List.mem_cons.mp hs with rfl | hs
        · exact h1
        · exact ihl s hs
      · exact ihm
      · exact ihr
    · by_cases h2 : mid < lo a
      · rw [hstep, if_neg h1, if_pos h2]
        refine ⟨?_, ihl, ihm, ?_⟩
        · simp only
          refine (ihp.cons a).trans ?_
          have hmid : ((l1 ++ m1) ++ a :: r1).Perm (a :: ((l1 ++ m1) ++ r1)) :=
            List.perm_middle
          have := hmid.symm
          rw [List.append_assoc, List.append_assoc] at this
          simpa [List.append_assoc] using this
        · intro s hs
          rcases List.mem_cons.mp hs with rfl | hs
          · exact ⟨h1, h2⟩
          · exact ihr s hs
      · rw [hstep, if_neg h1, if_neg h2]
        refine ⟨?_, ihl, ?_, ihr⟩
        · simp only
          refine (ihp.cons a).trans ?_
          have hmid : (l1 ++ a :: (m1 ++ r1)).Perm (a :: (l1 ++ (m1 ++ r1))) :=
            List.perm_middle
          have := hmid.symm
          simpa [List.append_assoc] using this
        · intro s hs
          rcases List.mem_cons.mp hs with rfl | hs
          · exact ⟨h1, h2⟩
          · exact ihm s hs

theorem compareBegin_le_total (lo hi : α → Nat) (a b : α) :
    compareBegin lo hi a b ≤ 0 ∨ compareBegin lo hi b a ≤ 0 := by
  simp only [compareBegin]
  split_ifs <;> omega

theorem compareBegin_le_trans (lo hi : α → Nat) (a b c : α)
    (h1 : compareBegin lo hi a b ≤ 0) (h2 : compareBegin lo hi b c ≤ 0) :
    compareBegin lo hi a c ≤ 0 := by
  simp only [compareBegin] at h1 h2 ⊢
  split_ifs at h1 h2 ⊢ <;> omega

theorem compareBegin_le_lo (lo hi : α → Nat) (a b : α)
    (h : compareBegin lo hi a b ≤ 0) : lo a ≤ lo b := by
  simp only [compareBegin] at h
  split_ifs at h <;> omega

theorem compareEnd_le_total (lo hi : α → Nat) (a b : α) :
    compareEnd lo hi a b ≤ 0 ∨ compareEnd lo hi b a ≤ 0 := by
  simp only [compareEnd]
  split_ifs <;> omega

theorem compareEnd_le_trans (lo hi : α → Nat) (a b c : α)
    (h1 : compareEnd lo hi a b ≤ 0) (h2 : compareEnd lo hi b c ≤ 0) :
    compareEnd lo hi a c ≤ 0 := by
  simp only [compareEnd] at h1 h2 ⊢
  split_ifs at h1 h2 ⊢ <;> omega

theorem compareEnd_le_hi (lo hi : α → Nat) (a b : α)
    (h : compareEnd lo hi a b ≤ 0) : hi a ≤ hi b := by
  simp only [compareEnd] at h
  split_ifs at h <;> omega

/-- On a list sorted so that earlier elements satisfy `p` whenever later ones
do, `takeWhile` and `filter` agree. -/
theorem takeWhile_eq_filter_of_sorted {p : α → Bool} :
    ∀ l : List α, (l.Pairwise fun a b => p b = true → p a = true) →
    l.takeWhile p = l.filter p := by
  intro l
  induction l with
  | nil => intro _; rfl
  | cons a t ih =>
    intro hp
    obtain ⟨ha, ht⟩ := List.pairwise_cons.mp hp
    cases hpa : p a with
    | true =>
      rw [List.takeWhile_cons_of_pos hpa, List.filter_cons_of_pos hpa, ih ht]
    | false =>
      rw [List.takeWhile_cons_of_neg (by simp [hpa]),
        List.filter_cons_of_neg (by simp [hpa])]
      have : t.filter p = [] := by
        rw [List.filter_eq_nil_iff]
        intro b hb hpb
        have := ha b hb hpb
        rw [hpa] at this
        cases this
      rw [this]

theorem reportRange_append {α σ β : Type} (l1 l2 : List α) (s : σ)
    (cb : σ → α → σ × Option β) :
    reportRange (l1 ++ l2) s cb =
      (match reportRange l1 s cb with
        | (s1, some r) => (s1, some r)
        | (s1, none) => reportRange l2 s1 cb) := by
  induction l1 generalizing s with
  | nil => simp [reportRange]
  | cons a t ih =>
    simp only [List.cons_append, reportRange]
    cases cb s a with
    | mk s1 r? =>
      cases r? with
      | some r => rfl
      | none => exact ih s1

theorem reportLeftRange_eq {α σ β : Type} (lo : α → Nat) (l : List α) (x : Nat)
    (s : σ) (cb : σ → α → σ × Option β) :
    reportLeftRange lo l x s cb =
      reportRange (l.takeWhile fun a => lo a ≤ x) s cb := by
  induction l generalizing s with
  | nil => rfl
  | cons a t ih =>
    by_cases h : lo a ≤ x
    · rw [List.takeWhile_cons_of_pos (by simpa using h)]
      simp only [reportLeftRange, reportRange, if_pos h]
      cases cb s a with
      | mk s1 r? =>
        cases r? with
        | some r => rfl
        | none => exact ih s1
    · rw [List.takeWhile_cons_of_neg (by simpa using h)]
      simp only [reportLeftRange, if_neg h]
      rfl

theorem reportRightGo_eq {α σ β : Type} (hi : α → Nat) (l : List α) (x : Nat)
    (s : σ) (cb : σ → α → σ × Option β) :
    reportRightGo hi l x s cb =
      reportRange (l.takeWhile fun a => x ≤ hi a) s cb := by
  induction l generalizing s with
  | nil => rfl
  | cons a t ih =>
    by_cases h : x ≤ hi a
    · rw [List.takeWhile_cons_of_pos (by simpa using h)]
      simp only [reportRightGo, reportRange, if_pos h]
      cases cb s a with
      | mk s1 r? =>
        cases r? with
        | some r => rfl
        | none => exact ih s1
    · rw [List.takeWhile_cons_of_neg (by simpa using h)]
      simp only [reportRightGo, if_neg h]
      rfl



theorem createITreeFuel_nil (lo hi : α → Nat) (f : Nat) :
    createITreeFuel lo hi f ([] : List α) = none := by
  cases f with
  | zero => rfl
  | succ f => rfl

theorem createITreeFuel_none (lo hi : α → Nat) (f : Nat) (xs : List α)
    (hf : 0 < f) (h : createITreeFuel lo hi f xs = none) : xs = [] := by
  cases f with
  | zero => omega
  | succ f =>
    cases xs with
    | nil => rfl
    | cons y ys => simp [createITreeFuel] at h

theorem visitOrder_lt_none (lo hi : α → Nat) (mid : Nat) (right : Option (ITree α))
    (lp rp : List α) (x : Nat) (hx : x < mid) :
    visitOrder lo hi (.node mid none right lp rp) x =
      lp.takeWhile fun a => lo a ≤ x := by
  rw [visitOrder.eq_def]
  simp [hx]

theorem visitOrder_lt_some (lo hi : α → Nat) (mid : Nat) (t : ITree α)
    (right : Option (ITree α)) (lp rp : List α) (x : Nat) (hx : x < mid) :
    visitOrder lo hi (.node mid (some t) right lp rp) x =
      visitOrder lo hi t x ++ lp.takeWhile fun a => lo a ≤ x := by
  rw [visitOrder.eq_def]
  simp [hx]

theorem visitOrder_eq_mid (lo hi : α → Nat) (mid : Nat) (left right : Option (ITree α))
    (lp rp : List α) :
    visitOrder lo hi (.node mid left right lp rp) mid = lp := by
  rw [visitOrder.eq_def]
  simp

theorem visitOrder_gt_none (lo hi : α → Nat) (mid : Nat) (left : Option (ITree α))
    (lp rp : List α) (x : Nat) (hx : mid < x) :
    visitOrder lo hi (.node mid left none lp rp) x =
      rp.reverse.takeWhile fun a => x ≤ hi a := by
  rw [visitOrder.eq_def]
  simp [hx, Nat.not_lt_of_lt hx]

theorem visitOrder_gt_some (lo hi : α → Nat) (mid : Nat) (t : ITree α)
    (left : Option (ITree α)) (lp rp : List α) (x : Nat) (hx : mid < x) :
    visitOrder lo hi (.node mid left (some t) lp rp) x =
      visitOrder lo hi t x ++ rp.reverse.takeWhile fun a => x ≤ hi a := by
  rw [visitOrder.eq_def]
  simp [hx, Nat.not_lt_of_lt hx]

theorem queryPoint_lt_none {σ β : Type} (lo hi : α → Nat) (mid : Nat)
    (right : Option (ITree α)) (lp rp : List α) (x : Nat) (s : σ)
    (cb : σ → α → σ × Option β) (hx : x < mid) :
    queryPoint lo hi (.node mid none right lp rp) x s cb =
      reportLeftRange lo lp x s cb := by
  rw [queryPoint.eq_def]
  simp [hx]

theorem queryPoint_lt_some {σ β : Type} (lo hi : α → Nat) (mid : Nat)
    (t : ITree α) (right : Option (ITree α)) (lp rp : List α) (x : Nat) (s : σ)
    (cb : σ → α → σ × Option β) (hx : x < mid) :
    queryPoint lo hi (.node mid (some t) right lp rp) x s cb =
      contQuery (queryPoint lo hi t x s cb)
        (fun s1 => reportLeftRange lo lp x s1 cb) := by
  rw [queryPoint.eq_def]
  simp [hx]

theorem queryPoint_eq_mid {σ β : Type} (lo hi : α → Nat) (mid : Nat)
    (left right : Option (ITree α)) (lp rp : List α) (s : σ)
    (cb : σ → α → σ × Option β) :
    queryPoint lo hi (.node mid left right lp rp) mid s cb =
      reportRange lp s cb := by
  rw [queryPoint.eq_def]
  simp

theorem queryPoint_gt_none {σ β : Type} (lo hi : α → Nat) (mid : Nat)
    (left : Option (ITree α)) (lp rp : List α) (x : Nat) (s : σ)
    (cb : σ → α → σ × Option β) (hx : mid < x) :
    queryPoint lo hi (.node mid left none lp rp) x s cb =
      reportRightRange hi rp x s cb := by
  rw [queryPoint.eq_def]
  simp [hx, Nat.not_lt_of_lt hx]

theorem queryPoint_gt_some {σ β : Type} (lo hi : α → Nat) (mid : Nat)
    (t : ITree α) (left : Option (ITree α)) (lp rp : List α) (x : Nat) (s : σ)
    (cb : σ → α → σ × Option β) (hx : mid < x) :
    queryPoint lo hi (.node mid left (some t) lp rp) x s cb =
      contQuery (queryPoint lo hi t x s cb)
        (fun s1 => reportRightRange hi rp x s1 cb) := by
  rw [queryPoint.eq_def]
  simp [hx, Nat.not_lt_of_lt hx]

/-- Queries on a tree built from valid intervals visit exactly the intervals
containing the query point (as a multiset), and a query with any visitor is
the sequential early-exit run over the visit order. -/
theorem createITreeFuel_query (lo hi : α → Nat) :
    ∀ (fuel : Nat) (xs : List α) (t : ITree α),
    (∀ s ∈ xs, lo s ≤ hi s) → xs.length < fuel →
    createITreeFuel lo hi fuel xs = some t →
    ∀ x : Nat,
    (visitOrder lo hi t x).Perm (xs.filter fun s => lo s ≤ x ∧ x ≤ hi s) ∧
    (∀ (σ β : Type) (s : σ) (cb : σ → α → σ × Option β),
      queryPoint lo hi t x s cb = reportRange (visitOrder lo hi t x) s cb) := by
  intro fuel
  induction fuel with
  | zero => intro xs t _ h; omega
  | succ fuel ih =>
    intro xs t hvalid hlen hc x
    cases xs with
    | nil => simp [createITreeFuel_nil] at hc
    | cons x0 xs0 =>
      simp only [createITreeFuel] at hc
      set ys := x0 :: xs0 with hys
      set pts := jsSort jsNumLe (ys.flatMap fun s => [lo s, hi s]) with hpts
      set mid := pts.getD (pts.length >>> 1) 0 with hmid
      rcases hpe : partition3 lo hi mid ys with ⟨l1, m1, r1⟩
      set lp := jsSort (fun a b => compareBegin lo hi a b ≤ 0) m1 with hlp
      set rp := jsSort (fun a b => compareEnd lo hi a b ≤ 0) m1 with hrp
      rw [hpe] at hc
      simp only at hc
      rw [← hlp, ← hrp] at hc
      injection hc with hc
      subst hc
      -- basic facts about the partition
      obtain ⟨hperm, hlpred, hmpred, hrpred⟩ := partition3_spec lo hi mid ys
      rw [hpe] at hperm hlpred hmpred hrpred
      simp only at hperm hlpred hmpred hrpred
      -- mid is an endpoint of some interval
      have hptsnil : pts ≠ [] := by
        have : pts.length = (ys.flatMap fun s => [lo s, hi s]).length :=
          (jsSort_perm _ _).length_eq
        intro hnil
        rw [hnil] at this
        simp [hys] at this
      have hmidmem : ∃ s ∈ ys, mid = lo s ∨ mid = hi s := by
        have hlt : pts.length >>> 1 < pts.length := by
          have h0 : 0 < pts.length := List.length_pos.mpr hptsnil
          have : pts.length >>> 1 = pts.length / 2 := Nat.shiftRight_one _
          omega
        have hmem : mid ∈ pts := by
          rw [hmid, List.getD_eq_getElem?_getD, List.getElem?_eq_getElem hlt]
          exact List.getElem_mem hlt
        have hmem2 : mid ∈ ys.flatMap fun s => [lo s, hi s] :=
          (jsSort_perm _ _).mem_iff.mp hmem
        rcases List.mem_flatMap.mp hmem2 with ⟨s, hs, hin⟩
        rcases List.mem_cons.mp hin with h | h
        · exact ⟨s, hs, Or.inl h⟩
        · have h2 : mid = hi s := by simpa using h
          exact ⟨s, hs, Or.inr h2⟩
      have hm1ne : m1 ≠ [] := by
        rcases hmidmem with ⟨s, hs, hcase⟩
        have hsv := hvalid s hs
        have hmem3 : s ∈ l1 ++ m1 ++ r1 := hperm.mem_iff.mp hs
        have hstraddle : ¬hi s < mid ∧ ¬mid < lo s := by
          rcases hcase with h | h <;> omega
        intro hm1
        subst hm1
        simp only [List.append_nil] at hmem3
        rcases List.mem_append.mp hmem3 with h | h
        · exact absurd (hlpred s h) hstraddle.1
        · exact absurd (hrpred s h).2 hstraddle.2
      have hlensum : l1.length + m1.length + r1.length = ys.length := by
        have := hperm.length_eq
        simp only [List.length_append] at this
        omega
      have hm1pos : 0 < m1.length := List.length_pos.mpr hm1ne
      have hl1fuel : l1.length < fuel := by omega
      have hr1fuel : r1.length < fuel := by omega
      have hvl1 : ∀ s ∈ l1, lo s ≤ hi s := fun s hs =>
        hvalid s (hperm.mem_iff.mpr (by simp [hs]))
      have hvr1 : ∀ s ∈ r1, lo s ≤ hi s := fun s hs =>
        hvalid s (hperm.mem_iff.mpr (by simp [hs]))
      have hlpperm : lp.Perm m1 := jsSort_perm _ _
      have hrpperm : rp.Perm m1 := jsSort_perm _ _
      have hmplp : ∀ s ∈ lp, ¬hi s < mid ∧ ¬mid < lo s := fun s hs =>
        hmpred s (hlpperm.mem_iff.mp hs)
      have hmprp : ∀ s ∈ rp, ¬hi s < mid ∧ ¬mid < lo s := fun s hs =>
        hmpred s (hrpperm.mem_iff.mp hs)
      -- the three components of the filtered input
      have hfsplit : (ys.filter fun s => lo s ≤ x ∧ x ≤ hi s).Perm
          ((l1.filter fun s => lo s ≤ x ∧ x ≤ hi s) ++
           (m1.filter fun s => lo s ≤ x ∧ x ≤ hi s) ++
           (r1.filter fun s => lo s ≤ x ∧ x ≤ hi s)) := by
        have := hperm.filter (fun s => decide (lo s ≤ x ∧ x ≤ hi s))
        simpa [List.filter_append] using this
      rcases Nat.lt_trichotomy x mid with hx | hx | hx
      · -- x < mid
        have hlpsorted : lp.Pairwise fun a b => lo a ≤ lo b :=
          (jsSort_pairwise _ (fun a b => by
              rcases compareBegin_le_total lo hi a b with h | h
              · exact Or.inl (by simpa using h)
              · exact Or.inr (by simpa using h))
            (fun a b c h1 h2 => by
              simp only [decide_eq_true_eq] at h1 h2 ⊢
              exact compareBegin_le_trans lo hi a b c h1 h2) m1).imp
            (fun h => compareBegin_le_lo lo hi _ _ (by simpa using h))
        have htw : (lp.takeWhile fun a => lo a ≤ x) = lp.filter fun a => lo a ≤ x := by
          apply takeWhile_eq_filter_of_sorted
          exact hlpsorted.imp (fun hab hb => by
            simp only [decide_eq_true_eq] at hb ⊢
            omega)
        have hfm : (lp.filter fun a => lo a ≤ x).Perm
            (m1.filter fun s => lo s ≤ x ∧ x ≤ hi s) := by
          have h1 : (lp.filter fun a => lo a ≤ x).Perm
              (m1.filter fun a => lo a ≤ x) := hlpperm.filter _
          have h2 : (m1.filter fun a => lo a ≤ x) =
              m1.filter fun s => lo s ≤ x ∧ x ≤ hi s := by
            apply List.filter_congr
            intro s hs
            have hm := hmpred s hs
            have hxh : x ≤ hi s := by omega
            simp [hxh]
          rw [h2] at h1
          exact h1
        have hfr : (r1.filter fun s => lo s ≤ x ∧ x ≤ hi s) = [] := by
          rw [List.filter_eq_nil_iff]
          intro s hs
          have := (hrpred s hs).2
          simp only [decide_eq_true_eq]
          omega
        cases hcl : createITreeFuel lo hi fuel l1 with
        | none =>
          have hl1nil : l1 = [] := createITreeFuel_none lo hi fuel l1 (by omega) hcl
          constructor
          · rw [visitOrder_lt_none lo hi mid _ lp rp x hx, htw]
            refine hfm.trans ?_
            refine (hfsplit.trans ?_).symm
            rw [hl1nil, hfr]
            simp
          · intro σ β s cb
            rw [visitOrder_lt_none lo hi mid _ lp rp x hx,
              queryPoint_lt_none lo hi mid _ lp rp x s cb hx]
            exact reportLeftRange_eq lo lp x s cb
        | some tl =>
          obtain ⟨ihperm, ihrun⟩ := ih l1 tl hvl1 hl1fuel hcl x
          constructor
          · rw [visitOrder_lt_some lo hi mid tl _ lp rp x hx, htw]
            refine (ihperm.append hfm).trans ?_
            refine (hfsplit.trans ?_).symm
            rw [hfr]
            simp
          · intro σ β s cb
            rw [visitOrder_lt_some lo hi mid tl _ lp rp x hx,
              queryPoint_lt_some lo hi mid tl _ lp rp x s cb hx,
              reportRange_append, ← ihrun σ β s cb]
            cases queryPoint lo hi tl x s cb with
            | mk s1 r? =>
              cases r? with
              | some r => rfl
              | none => exact reportLeftRange_eq lo lp x s1 cb
      · -- x = mid
        subst hx
        constructor
        · rw [visitOrder_eq_mid lo hi mid _ _ lp rp]
          have h2 : (m1.filter fun s => lo s ≤ mid ∧ mid ≤ hi s) = m1 := by
            rw [List.filter_eq_self]
            intro s hs
            have := hmpred s hs
            simp only [decide_eq_true_eq]
            omega
          have hfl : (l1.filter fun s => lo s ≤ mid ∧ mid ≤ hi s) = [] := by
            rw [List.filter_eq_nil_iff]
            intro s hs
            have := hlpred s hs
            simp only [decide_eq_true_eq]
            omega
          have hfr : (r1.filter fun s => lo s ≤ mid ∧ mid ≤ hi s) = [] := by
            rw [List.filter_eq_nil_iff]
            intro s hs
            have := (hrpred s hs).2
            simp only [decide_eq_true_eq]
            omega
          refine (hlpperm.trans ?_).trans hfsplit.symm
          rw [h2, hfl, hfr]
          simp
        · intro σ β s cb
          rw [visitOrder_eq_mid lo hi mid _ _ lp rp,
            queryPoint_eq_mid lo hi mid _ _ lp rp s cb]
      · -- mid < x
        have hrpsorted : rp.Pairwise fun a b => hi a ≤ hi b :=
          (jsSort_pairwise _ (fun a b => by
              rcases compareEnd_le_total lo hi a b with h | h
              · exact Or.inl (by simpa using h)
              · exact Or.inr (by simpa using h))
            (fun a b c h1 h2 => by
              simp only [decide_eq_true_eq] at h1 h2 ⊢
              exact compareEnd_le_trans lo hi a b c h1 h2) m1).imp
            (fun h => compareEnd_le_hi lo hi _ _ (by simpa using h))
        have hrevsorted : rp.reverse.Pairwise fun a b => hi b ≤ hi a :=
          List.pairwise_reverse.mpr hrpsorted
        have htw : (rp.reverse.takeWhile fun a => x ≤ hi a) =
            rp.reverse.filter fun a => x ≤ hi a := by
          apply takeWhile_eq_filter_of_sorted
          exact hrevsorted.imp (fun hab hb => by
            simp only [decide_eq_true_eq] at hb ⊢
            omega)
        have hfm : (rp.reverse.filter fun a => x ≤ hi a).Perm
            (m1.filter fun s => lo s ≤ x ∧ x ≤ hi s) := by
          have h0 : (rp.reverse.filter fun a => x ≤ hi a).Perm
              (rp.filter fun a => x ≤ hi a) :=
            (List.reverse_perm rp).filter _
          have h1 : (rp.filter fun a => x ≤ hi a).Perm
              (m1.filter fun a => x ≤ hi a) := hrpperm.filter _
          have h2 : (m1.filter fun a => x ≤ hi a) =
              m1.filter fun s => lo s ≤ x ∧ x ≤ hi s := by
            apply List.filter_congr
            intro s hs
            have hm := hmpred s hs
            have hxl : lo s ≤ x := by omega
            simp [hxl]
          rw [h2] at h1
          exact h0.trans h1
        have hfl : (l1.filter fun s => lo s ≤ x ∧ x ≤ hi s) = [] := by
          rw [List.filter_eq_nil_iff]
          intro s hs
          have := hlpred s hs
          simp only [decide_eq_true_eq]
          omega
        cases hcr : createITreeFuel lo hi fuel r1 with
        | none =>
          have hr1nil : r1 = [] := createITreeFuel_none lo hi fuel r1 (by omega) hcr
          constructor
          · rw [visitOrder_gt_none lo hi mid _ lp rp x hx, htw]
            refine hfm.trans ?_
            refine (hfsplit.trans ?_).symm
            rw [hr1nil, hfl]
            simp
          · intro σ β s cb
            rw [visitOrder_gt_none lo hi mid _ lp rp x hx,
              queryPoint_gt_none lo hi mid _ lp rp x s cb hx]
            exact reportRightGo_eq hi rp.reverse x s cb
        | some tr =>
          obtain ⟨ihperm, ihrun⟩ := ih r1 tr hvr1 hr1fuel hcr x
          constructor
          · rw [visitOrder_gt_some lo hi mid tr _ lp rp x hx, htw]
            refine (ihperm.append hfm).trans ?_
            refine (hfsplit.trans ?_).symm
            rw [hfl]
            simp
            exact List.perm_append_comm
          · intro σ β s cb
            rw [visitOrder_gt_some lo hi mid tr _ lp rp x hx,
              queryPoint_gt_some lo hi mid tr _ lp rp x s cb hx,
              reportRange_append, ← ihrun σ β s cb]
            cases queryPoint lo hi tr x s cb with
            | mk s1 r? =>
              cases r? with
              | some r => rfl
              | none => exact reportRightGo_eq hi rp.reverse x s1 cb

/-- C3: for every list of intervals with `lo ≤ hi` and every query point `x`,
a query on the tree built by `createIntervalTree` hands its visitor exactly
the intervals that contain `x` under closed-interval semantics (`x = lo` and
`x = hi` both count as hits; duplicate intervals are each reported), up to
order, and the query equals the sequential early-exit run of the visitor over
the visit order: a truthy visitor result stops traversal immediately and is
returned as the query's result. -/
theorem intervalTree_queryPoint_spec (lo hi : α → Nat) (xs : List α) (t : ITree α)
    (hvalid : ∀ s ∈ xs, lo s ≤ hi s)
    (ht : createIntervalTree lo hi xs = some t) (x : Nat) :
    (visitOrder lo hi t x).Perm (xs.filter fun s => lo s ≤ x ∧ x ≤ hi s) ∧
    ∀ (σ β : Type) (s : σ) (cb : σ → α → σ × Option β),
      queryPoint lo hi t x s cb = reportRange (visitOrder lo hi t x) s cb :=
  createITreeFuel_query lo hi (xs.length + 1) xs t hvalid (Nat.lt_succ_self _) ht x

theorem intervalTree_queryPoint_spec_witness :
    (∀ s ∈ [((1 : Nat), (2 : Nat)), (2, 3)], Prod.fst s ≤ Prod.snd s) ∧
    createIntervalTree Prod.fst Prod.snd [((1 : Nat), (2 : Nat)), (2, 3)] =
      some (.node 2 none none [(1, 2), (2, 3)] [(1, 2), (2, 3)]) ∧
    ((visitOrder Prod.fst Prod.snd
        (.node 2 none none [(1, 2), (2, 3)] [(1, 2), (2, 3)]) 2).Perm
      ([((1 : Nat), (2 : Nat)), (2, 3)].filter fun s =>
        Prod.fst s ≤ 2 ∧ 2 ≤ Prod.snd s) ∧
    ∀ (σ β : Type) (s : σ) (cb : σ → Nat × Nat → σ × Option β),
      queryPoint Prod.fst Prod.snd
          (.node 2 none none [(1, 2), (2, 3)] [(1, 2), (2, 3)]) 2 s cb =
        reportRange (visitOrder Prod.fst Prod.snd
          (.node 2 none none [(1, 2), (2, 3)] [(1, 2), (2, 3)]) 2) s cb) :=
  ⟨by decide, rfl,
    intervalTree_queryPoint_spec Prod.fst Prod.snd [((1 : Nat), (2 : Nat)), (2, 3)]
      (.node 2 none none [(1, 2), (2, 3)] [(1, 2), (2, 3)]) (by decide) rfl 2⟩

theorem reportRange_foldl {α σ β : Type} (l : List α) (a : σ) (f : σ → α → σ) :
    reportRange l a (fun u s => (f u s, (none : Option β))) = (l.foldl f a, none) := by
  induction l generalizing a with
  | nil => rfl
  | cons c t ih =>
    simp only [reportRange, List.foldl_cons]
    exact ih (f a c)

theorem bestPosStep_foldl (k : Nat → Nat) (vc : Nat) :
    ∀ (l : List Nat) (acc : Option Nat),
      (l.foldl (bestPosStep k vc) acc = none ↔
        acc = none ∧ ∀ b ∈ l, ¬k b < vc) ∧
      ∀ s, l.foldl (bestPosStep k vc) acc = some s →
        ((s ∈ l ∧ k s < vc) ∨ acc = some s) ∧
        (∀ b ∈ l, k b < vc → k b ≤ k s) ∧
        (∀ a, acc = some a → k a ≤ k s) := by
  intro l
  induction l with
  | nil =>
    intro acc
    refine ⟨by simp, ?_⟩
    intro s hs
    simp only [List.foldl_nil] at hs
    refine ⟨Or.inr hs, by simp, ?_⟩
    intro a ha
    rw [hs] at ha
    injection ha with h
    rw [h]
  | cons c t ih =>
    intro acc
    simp only [List.foldl_cons]
    obtain ⟨ihn, ihs⟩ := ih (bestPosStep k vc acc c)
    by_cases hc : k c < vc
    · have hstep_some : ∀ a1, bestPosStep k vc acc c = some a1 → k c ≤ k a1 := by
        intro a1 ha1
        cases acc with
        | none =>
          simp only [bestPosStep, if_pos hc] at ha1
          injection ha1 with h
          rw [← h]
        | some a0 =>
          simp only [bestPosStep, if_pos hc] at ha1
          by_cases hab : k a0 < k c
          · rw [if_pos hab] at ha1
            injection ha1 with h
            rw [← h]
          · rw [if_neg hab] at ha1
            injection ha1 with h
            rw [← h]
            omega
      have hstep_ne : bestPosStep k vc acc c ≠ none := by
        cases acc with
        | none => simp [bestPosStep, hc]
        | some a0 =>
          simp only [bestPosStep, if_pos hc]
          by_cases hab : k a0 < k c <;> simp [hab]
      constructor
      · constructor
        · intro hnone
          exact absurd (ihn.mp hnone).1 hstep_ne
        · rintro ⟨-, hall⟩
          exact absurd hc (hall c (by simp))
      · intro s hs
        obtain ⟨hmem, hbt, hba⟩ := ihs s hs
        have hkc : k c ≤ k s := by
          cases hacc : bestPosStep k vc acc c with
          | none => exact absurd hacc hstep_ne
          | some a1 => exact le_trans (hstep_some a1 hacc) (hba a1 hacc)
        refine ⟨?_, ?_, ?_⟩
        · rcases hmem with ⟨hsm, hsk⟩ | hseq
          · exact Or.inl ⟨List.mem_cons_of_mem _ hsm, hsk⟩
          · cases acc with
            | none =>
              simp only [bestPosStep, if_pos hc] at hseq
              injection hseq with h
              exact Or.inl ⟨h ▸ List.mem_cons_self c t, h ▸ hc⟩
            | some a0 =>
              simp only [bestPosStep, if_pos hc] at hseq
              by_cases hab : k a0 < k c
              · rw [if_pos hab] at hseq
                injection hseq with h
                exact Or.inl ⟨h ▸ List.mem_cons_self c t, h ▸ hc⟩
              · rw [if_neg hab] at hseq
                injection hseq with h
                exact Or.inr (by rw [h])
        · intro b hb hbk
          rcases List.mem_cons.mp hb with hbc | hbt'
          · rw [hbc]
            exact hkc
          · exact hbt b hbt' hbk
        · intro a ha
          by_cases hab : k a < k c
          · exact le_trans (Nat.le_of_lt hab) hkc
          · have hkeep : bestPosStep k vc acc c = some a := by
              rw [ha]
              simp only [bestPosStep, if_pos hc, if_neg hab]
            exact hba a hkeep
    · have hid : bestPosStep k vc acc c = acc := by
        simp [bestPosStep, hc]
      rw [hid] at ihn ihs ⊢
      constructor
      · rw [ihn]
        constructor
        · rintro ⟨h1, h2⟩
          refine ⟨h1, ?_⟩
          intro b hb
          rcases List.mem_cons.mp hb with hbc | hbt
          · rw [hbc]
            exact hc
          · exact h2 b hbt
        · rintro ⟨h1, h2⟩
          exact ⟨h1, fun b hb => h2 b (List.mem_cons_of_mem _ hb)⟩
      · intro s hs
        obtain ⟨hmem, hbt, hba⟩ := ihs s hs
        refine ⟨?_, ?_, hba⟩
        · rcases hmem with ⟨hm, hk⟩ | he
          · exact Or.inl ⟨List.mem_cons_of_mem _ hm, hk⟩
          · exact Or.inr he
        · intro b hb hbk
          rcases List.mem_cons.mp hb with hbc | hbt'
          · exact absurd (hbc ▸ hbk) hc
          · exact hbt b hbt' hbk

theorem bestNegStep_foldl (k : Nat → Nat) (vc : Nat) :
    ∀ (l : List Nat) (acc : Option Nat),
      (l.foldl (bestNegStep k vc) acc = none ↔
        acc = none ∧ ∀ b ∈ l, ¬vc < k b) ∧
      ∀ s, l.foldl (bestNegStep k vc) acc = some s →
        ((s ∈ l ∧ vc < k s) ∨ acc = some s) ∧
        (∀ b ∈ l, vc < k b → k s ≤ k b) ∧
        (∀ a, acc = some a → k s ≤ k a) := by
  intro l
  induction l with
  | nil =>
    intro acc
    refine ⟨by simp, ?_⟩
    intro s hs
    simp only [List.foldl_nil] at hs
    refine ⟨Or.inr hs, by simp, ?_⟩
    intro a ha
    rw [hs] at ha
    injection ha with h
    rw [h]
  | cons c t ih =>
    intro acc
    simp only [List.foldl_cons]
    obtain ⟨ihn, ihs⟩ := ih (bestNegStep k vc acc c)
    by_cases hc : vc < k c
    · have hstep_some : ∀ a1, bestNegStep k vc acc c = some a1 → k a1 ≤ k c := by
        intro a1 ha1
        cases acc with
        | none =>
          simp only [bestNegStep, if_pos hc] at ha1
          injection ha1 with h
          rw [← h]
        | some a0 =>
          simp only [bestNegStep, if_pos hc] at ha1
          by_cases hab : k c < k a0
          · rw [if_pos hab] at ha1
            injection ha1 with h
            rw [← h]
          · rw [if_neg hab] at ha1
            injection ha1 with h
            rw [← h]
            omega
      have hstep_ne : bestNegStep k vc acc c ≠ none := by
        cases acc with
        | none => simp [bestNegStep, hc]
        | some a0 =>
          simp only [bestNegStep, if_pos hc]
          by_cases hab : k c < k a0 <;> simp [hab]
      constructor
      · constructor
        · intro hnone
          exact absurd (ihn.mp hnone).1 hstep_ne
        · rintro ⟨-, hall⟩
          exact absurd hc (hall c (by simp))
      · intro s hs
        obtain ⟨hmem, hbt, hba⟩ := ihs s hs
        have hkc : k s ≤ k c := by
          cases hacc : bestNegStep k vc acc c with
          | none => exact absurd hacc hstep_ne
          | some a1 => exact le_trans (hba a1 hacc) (hstep_some a1 hacc)
        refine ⟨?_, ?_, ?_⟩
        · rcases hmem with ⟨hsm, hsk⟩ | hseq
          · exact Or.inl ⟨List.mem_cons_of_mem _ hsm, hsk⟩
          · cases acc with
            | none =>
              simp only [bestNegStep, if_pos hc] at hseq
              injection hseq with h
              exact Or.inl ⟨h ▸ List.mem_cons_self c t, h ▸ hc⟩
            | some a0 =>
              simp only [bestNegStep, if_pos hc] at hseq
              by_cases hab : k c < k a0
              · rw [if_pos hab] at hseq
                injection hseq with h
                exact Or.inl ⟨h ▸ List.mem_cons_self c t, h ▸ hc⟩
              · rw [if_neg hab] at hseq
                injection hseq with h
                exact Or.inr (by rw [h])
        · intro b hb hbk
          rcases List.mem_cons.mp hb with hbc | hbt'
          · rw [hbc]
            exact hkc
          · exact hbt b hbt' hbk
        · intro a ha
          by_cases hab : k c < k a
          · exact le_trans hkc (Nat.le_of_lt hab)
          · have hkeep : bestNegStep k vc acc c = some a := by
              rw [ha]
              simp only [bestNegStep, if_pos hc, if_neg hab]
            exact hba a hkeep
    · have hid : bestNegStep k vc acc c = acc := by
        simp [bestNegStep, hc]
      rw [hid] at ihn ihs ⊢
      constructor
      · rw [ihn]
        constructor
        · rintro ⟨h1, h2⟩
          refine ⟨h1, ?_⟩
          intro b hb
          rcases List.mem_cons.mp hb with hbc | hbt
          · rw [hbc]
            exact hc
          · exact h2 b hbt
        · rintro ⟨h1, h2⟩
          exact ⟨h1, fun b hb => h2 b (List.mem_cons_of_mem _ hb)⟩
      · intro s hs
        obtain ⟨hmem, hbt, hba⟩ := ihs s hs
        refine ⟨?_, ?_, hba⟩
        · rcases hmem with ⟨hm, hk⟩ | he
          · exact Or.inl ⟨List.mem_cons_of_mem _ hm, hk⟩
          · exact Or.inr he
        · intro b hb hbk
          rcases List.mem_cons.mp hb with hbc | hbt'
          · exact absurd (hbc ▸ hbk) hc
          · exact hbt b hbt' hbk

/-- C8: at a vertex `vi` that starts its segment, with the opposite-
orientation tree built from the candidate list `cands`,
`findIntersectingSegment` fails with the assertion error exactly when no
candidate whose interval contains the vertex's perpendicular coordinate lies
strictly on the side selected by the vertex's `POSITIVE`/`NEGATIVE`
direction; otherwise it returns such a candidate that is nearest to the
vertex (largest start coordinate strictly below the vertex when `POSITIVE`,
smallest strictly above when `NEGATIVE`). -/
theorem findIntersectingSegment_spec (st : GState) (vi vseg : Nat)
    (htree vtree : Option (ITree Nat)) (tree : ITree Nat) (cands : List Nat)
    (d : SDir) (x vc : Nat)
    (hseg : (st.vert vi).segment = some vseg)
    (hstart : (st.seg vseg).startR = .vx vi)
    (hd : (st.seg vseg).direction = d)
    (hx : x = (st.vert vi).pos.coord d.flip)
    (hvc : vc = (st.vert vi).pos.coord d)
    (hsel : (if d = .horizontal then vtree else htree) = some tree)
    (hvalid : ∀ s ∈ cands, segLo st s ≤ segHi st s)
    (hbuild : createIntervalTree (segLo st) (segHi st) cands = some tree) :
    (findIntersectingSegment st vi htree vtree = .error "Assertion failed" ↔
      cands.filter (fun s => sideOf st d vi s &&
        decide (segLo st s ≤ x ∧ x ≤ segHi st s)) = []) ∧
    ∀ s, findIntersectingSegment st vi htree vtree = .ok s →
      s ∈ cands.filter (fun s => sideOf st d vi s &&
        decide (segLo st s ≤ x ∧ x ≤ segHi st s)) ∧
      ∀ b ∈ cands.filter (fun s => sideOf st d vi s &&
        decide (segLo st s ≤ x ∧ x ≤ segHi st s)),
        Nat.dist vc (segStartCoord st s d) ≤ Nat.dist vc (segStartCoord st b d) := by
  subst hd hx hvc
  obtain ⟨hperm, hrun⟩ := createITreeFuel_query (segLo st) (segHi st)
    (cands.length + 1) cands tree hvalid (Nat.lt_succ_self _) hbuild
    ((st.vert vi).pos.coord (st.seg vseg).direction.flip)
  by_cases hpd : (st.vert vi).direction = .positive
  · have hmain : findIntersectingSegment st vi htree vtree =
        (match (visitOrder (segLo st) (segHi st) tree
            ((st.vert vi).pos.coord (st.seg vseg).direction.flip)).foldl
            (bestPosStep (fun s => segStartCoord st s (st.seg vseg).direction)
              ((st.vert vi).pos.coord (st.seg vseg).direction)) none with
          | some s => Except.ok s
          | none => Except.error "Assertion failed") := by
      simp only [findIntersectingSegment, hseg, hstart, hsel, hpd, if_true]
      rw [hrun (Option Nat) Bool none]
      rw [reportRange_foldl]
      rfl
    obtain ⟨hfnone, hfsome⟩ := bestPosStep_foldl
      (fun s => segStartCoord st s (st.seg vseg).direction)
      ((st.vert vi).pos.coord (st.seg vseg).direction)
      (visitOrder (segLo st) (segHi st) tree
        ((st.vert vi).pos.coord (st.seg vseg).direction.flip)) none
    have hps : ((visitOrder (segLo st) (segHi st) tree
        ((st.vert vi).pos.coord (st.seg vseg).direction.flip)).filter
        (fun s => decide (segStartCoord st s (st.seg vseg).direction <
          (st.vert vi).pos.coord (st.seg vseg).direction))).Perm
        (cands.filter (fun s => sideOf st (st.seg vseg).direction vi s &&
          decide (segLo st s ≤ (st.vert vi).pos.coord (st.seg vseg).direction.flip ∧
            (st.vert vi).pos.coord (st.seg vseg).direction.flip ≤ segHi st s))) := by
      have h1 := hperm.filter (fun s =>
        decide (segStartCoord st s (st.seg vseg).direction <
          (st.vert vi).pos.coord (st.seg vseg).direction))
      rw [List.filter_filter] at h1
      have h2 : ∀ pr : Nat → Bool, List.filter pr cands =
          cands.filter (fun s => sideOf st (st.seg vseg).direction vi s &&
            decide (segLo st s ≤ (st.vert vi).pos.coord (st.seg vseg).direction.flip ∧
              (st.vert vi).pos.coord (st.seg vseg).direction.flip ≤ segHi st s)) →
          True := fun _ _ => trivial
      refine h1.trans ?_
      have h3 : (List.filter (fun a =>
          decide (segStartCoord st a (st.seg vseg).direction <
            (st.vert vi).pos.coord (st.seg vseg).direction) &&
          decide (segLo st a ≤ (st.vert vi).pos.coord (st.seg vseg).direction.flip ∧
            (st.vert vi).pos.coord (st.seg vseg).direction.flip ≤ segHi st a)) cands) =
          cands.filter (fun s => sideOf st (st.seg vseg).direction vi s &&
            decide (segLo st s ≤ (st.vert vi).pos.coord (st.seg vseg).direction.flip ∧
              (st.vert vi).pos.coord (st.seg vseg).direction.flip ≤ segHi st s)) := by
        apply List.filter_congr
        intro s _
        simp [sideOf, hpd]
      rw [h3]
    constructor
    · rw [hmain]
      rcases hres : List.foldl (bestPosStep
          (fun s => segStartCoord st s (st.seg vseg).direction)
          ((st.vert vi).pos.coord (st.seg vseg).direction)) none
          (visitOrder (segLo st) (segHi st) tree
            ((st.vert vi).pos.coord (st.seg vseg).direction.flip)) with _ | s
      · simp only []
        constructor
        · intro _
          have hall := (hfnone.mp hres).2
          have hnil : (visitOrder (segLo st) (segHi st) tree
              ((st.vert vi).pos.coord (st.seg vseg).direction.flip)).filter
              (fun s => decide (segStartCoord st s (st.seg vseg).direction <
                (st.vert vi).pos.coord (st.seg vseg).direction)) = [] := by
            rw [List.filter_eq_nil_iff]
            intro b hb
            simpa using hall b hb
          exact List.nil_perm.mp (hnil ▸ hps)
        · intro _
          trivial
      · constructor
        · intro h
          exact Except.noConfusion h
        · intro hfil
          exfalso
          obtain ⟨hmem, -, -⟩ := hfsome s hres
          rcases hmem with ⟨hm, hk⟩ | habs
          · have hsmem : s ∈ (visitOrder (segLo st) (segHi st) tree
                ((st.vert vi).pos.coord (st.seg vseg).direction.flip)).filter
                (fun s => decide (segStartCoord st s (st.seg vseg).direction <
                  (st.vert vi).pos.coord (st.seg vseg).direction)) :=
              List.mem_filter.mpr ⟨hm, by simpa using hk⟩
            have := hps.mem_iff.mp hsmem
            rw [hfil] at this
            cases this
          · exact Option.noConfusion habs
    · intro s hok
      rw [hmain] at hok
      rcases hres : List.foldl (bestPosStep
          (fun s => segStartCoord st s (st.seg vseg).direction)
          ((st.vert vi).pos.coord (st.seg vseg).direction)) none
          (visitOrder (segLo st) (segHi st) tree
            ((st.vert vi).pos.coord (st.seg vseg).direction.flip)) with _ | s1
      · rw [hres] at hok
        exact Except.noConfusion hok
      · rw [hres] at hok
        have hs1 : s1 = s := by
          injection hok
        subst hs1
        obtain ⟨hmem, hbound, -⟩ := hfsome s1 hres
        rcases hmem with ⟨hm, hk⟩ | habs
        · have hsmem : s1 ∈ (visitOrder (segLo st) (segHi st) tree
              ((st.vert vi).pos.coord (st.seg vseg).direction.flip)).filter
              (fun s => decide (segStartCoord st s (st.seg vseg).direction <
                (st.vert vi).pos.coord (st.seg vseg).direction)) :=
            List.mem_filter.mpr ⟨hm, by simpa using hk⟩
          refine ⟨hps.mem_iff.mp hsmem, ?_⟩
          intro b hb
          have hbvo := hps.mem_iff.mpr hb
          obtain ⟨hbm, hbk⟩ := List.mem_filter.mp hbvo
          have hbk' : segStartCoord st b (st.seg vseg).direction <
              (st.vert vi).pos.coord (st.seg vseg).direction := by simpa using hbk
          have hble := hbound b hbm hbk'
          simp only [Nat.dist]
          omega
        · exact Option.noConfusion habs
  · have hpd' : (st.vert vi).direction = .negative := by
      cases hv : (st.vert vi).direction
      · exact absurd hv hpd
      · rfl
    have hmain : findIntersectingSegment st vi htree vtree =
        (match (visitOrder (segLo st) (segHi st) tree
            ((st.vert vi).pos.coord (st.seg vseg).direction.flip)).foldl
            (bestNegStep (fun s => segStartCoord st s (st.seg vseg).direction)
              ((st.vert vi).pos.coord (st.seg vseg).direction)) none with
          | some s => Except.ok s
          | none => Except.error "Assertion failed") := by
      simp only [findIntersectingSegment, hseg, hstart, hsel]
      rw [if_neg hpd]
      rw [hrun (Option Nat) Bool none]
      rw [reportRange_foldl]
      rfl
    obtain ⟨hfnone, hfsome⟩ := bestNegStep_foldl
      (fun s => segStartCoord st s (st.seg vseg).direction)
      ((st.vert vi).pos.coord (st.seg vseg).direction)
      (visitOrder (segLo st) (segHi st) tree
        ((st.vert vi).pos.coord (st.seg vseg).direction.flip)) none
    have hps : ((visitOrder (segLo st) (segHi st) tree
        ((st.vert vi).pos.coord (st.seg vseg).direction.flip)).filter
        (fun s => decide ((st.vert vi).pos.coord (st.seg vseg).direction <
          segStartCoord st s (st.seg vseg).direction))).Perm
        (cands.filter (fun s => sideOf st (st.seg vseg).direction vi s &&
          decide (segLo st s ≤ (st.vert vi).pos.coord (st.seg vseg).direction.flip ∧
            (st.vert vi).pos.coord (st.seg vseg).direction.flip ≤ segHi st s))) := by
      have h1 := hperm.filter (fun s =>
        decide ((st.vert vi).pos.coord (st.seg vseg).direction <
          segStartCoord st s (st.seg vseg).direction))
      rw [List.filter_filter] at h1
      refine h1.trans ?_
      have h3 : (List.filter (fun a =>
          decide ((st.vert vi).pos.coord (st.seg vseg).direction <
            segStartCoord st a (st.seg vseg).direction) &&
          decide (segLo st a ≤ (st.vert vi).pos.coord (st.seg vseg).direction.flip ∧
            (st.vert vi).pos.coord (st.seg vseg).direction.flip ≤ segHi st a)) cands) =
          cands.filter (fun s => sideOf st (st.seg vseg).direction vi s &&
            decide (segLo st s ≤ (st.vert vi).pos.coord (st.seg vseg).direction.flip ∧
              (st.vert vi).pos.coord (st.seg vseg).direction.flip ≤ segHi st s)) := by
        apply List.filter_congr
        intro s _
        simp [sideOf, hpd']
      rw [h3]
    constructor
    · rw [hmain]
      rcases hres : List.foldl (bestNegStep
          (fun s => segStartCoord st s (st.seg vseg).direction)
          ((st.vert vi).pos.coord (st.seg vseg).direction)) none
          (visitOrder (segLo st) (segHi st) tree
            ((st.vert vi).pos.coord (st.seg vseg).direction.flip)) with _ | s
      · simp only []
        constructor
        · intro _
          have hall := (hfnone.mp hres).2
          have hnil : (visitOrder (segLo st) (segHi st) tree
              ((st.vert vi).pos.coord (st.seg vseg).direction.flip)).filter
              (fun s => decide ((st.vert vi).pos.coord (st.seg vseg).direction <
                segStartCoord st s (st.seg vseg).direction)) = [] := by
            rw [List.filter_eq_nil_iff]
            intro b hb
            simpa using hall b hb
          exact List.nil_perm.mp (hnil ▸ hps)
        · intro _
          trivial
      · constructor
        · intro h
          exact Except.noConfusion h
        · intro hfil
          exfalso
          obtain ⟨hmem, -, -⟩ := hfsome s hres
          rcases hmem with ⟨hm, hk⟩ | habs
          · have hsmem : s ∈ (visitOrder (segLo st) (segHi st) tree
                ((st.vert vi).pos.coord (st.seg vseg).direction.flip)).filter
                (fun s => decide ((st.vert vi).pos.coord (st.seg vseg).direction <
                  segStartCoord st s (st.seg vseg).direction)) :=
              List.mem_filter.mpr ⟨hm, by simpa using hk⟩
            have := hps.mem_iff.mp hsmem
            rw [hfil] at this
            cases this
          · exact Option.noConfusion habs
    · intro s hok
      rw [hmain] at hok
      rcases hres : List.foldl (bestNegStep
          (fun s => segStartCoord st s (st.seg vseg).direction)
          ((st.vert vi).pos.coord (st.seg vseg).direction)) none
          (visitOrder (segLo st) (segHi st) tree
            ((st.vert vi).pos.coord (st.seg vseg).direction.flip)) with _ | s1
      · rw [hres] at hok
        exact Except.noConfusion hok
      · rw [hres] at hok
        have hs1 : s1 = s := by
          injection hok
        subst hs1
        obtain ⟨hmem, hbound, -⟩ := hfsome s1 hres
        rcases hmem with ⟨hm, hk⟩ | habs
        · have hsmem : s1 ∈ (visitOrder (segLo st) (segHi st) tree
              ((st.vert vi).pos.coord (st.seg vseg).direction.flip)).filter
              (fun s => decide ((st.vert vi).pos.coord (st.seg vseg).direction <
                segStartCoord st s (st.seg vseg).direction)) :=
            List.mem_filter.mpr ⟨hm, by simpa using hk⟩
          refine ⟨hps.mem_iff.mp hsmem, ?_⟩
          intro b hb
          have hbvo := hps.mem_iff.mpr hb
          obtain ⟨hbm, hbk⟩ := List.mem_filter.mp hbvo
          have hbk' : (st.vert vi).pos.coord (st.seg vseg).direction <
              segStartCoord st b (st.seg vseg).direction := by simpa using hbk
          have hble := hbound b hbm hbk'
          simp only [Nat.dist]
          omega
        · exact Option.noConfusion habs

theorem findIntersectingSegment_spec_witness :
    (∀ s ∈ ([1, 2] : List Nat), segLo w8st s ≤ segHi w8st s) ∧
    createIntervalTree (segLo w8st) (segHi w8st) [1, 2] = some w8tree ∧
    ((findIntersectingSegment w8st 0 (some w8tree) none = .error "Assertion failed" ↔
      ([1, 2] : List Nat).filter (fun s => sideOf w8st .vertical 0 s &&
        decide (segLo w8st s ≤ 2 ∧ 2 ≤ segHi w8st s)) = []) ∧
    ∀ s, findIntersectingSegment w8st 0 (some w8tree) none = .ok s →
      s ∈ ([1, 2] : List Nat).filter (fun s => sideOf w8st .vertical 0 s &&
        decide (segLo w8st s ≤ 2 ∧ 2 ≤ segHi w8st s)) ∧
      ∀ b ∈ ([1, 2] : List Nat).filter (fun s => sideOf w8st .vertical 0 s &&
        decide (segLo w8st s ≤ 2 ∧ 2 ≤ segHi w8st s)),
        Nat.dist 3 (segStartCoord w8st s .vertical) ≤
        Nat.dist 3 (segStartCoord w8st b .vertical)) :=
  ⟨by decide, rfl,
    findIntersectingSegment_spec w8st 0 0 (some w8tree) none w8tree [1, 2]
      .vertical 2 3 rfl rfl rfl rfl rfl rfl (by decide) rfl⟩

theorem reportRange_const_state {α σ β : Type} (l : List α) (u : σ)
    (f : α → Option β) :
    (reportRange l u (fun u s => (u, f s))).2.isSome =
      l.any fun s => (f s).isSome := by
  induction l generalizing u with
  | nil => rfl
  | cons c t ih =>
    simp only [reportRange, List.any_cons]
    cases hf : f c with
    | some r => simp
    | none => simp [ih u]

/-- C5: in the pair loop of `getDiagonals`, for a consecutive pair `(a, b)`
of concave vertices sharing the other-axis coordinate, the interval-tree
probe `findIntersections` is truthy exactly when some candidate segment of
the opposite orientation whose interval contains the shared coordinate has
its start coordinate strictly between the two vertices, and the pair step
emits a chord (appending it to the heap and recording its index) if and
only if all three guards pass: the pair is skipped whenever `a`'s segment
ends at `b`'s position, or the predecessor of `a`'s segment starts at `b`,
or the probe finds an intersection; the chord is emitted when all three
guards fail. -/
theorem getDiagonals_pair_spec (st : GState) (direction : SDir) (tree : ITree Nat)
    (cands : List Nat) (a b aseg aprev : Nat) (rest acc : List Nat)
    (hseg : (st.vert a).segment = some aseg)
    (hstart : (st.seg aseg).startR = .vx a)
    (hprev : (st.seg aseg).prev = some aprev)
    (hshare : (st.vert a).pos.coord direction.flip =
      (st.vert b).pos.coord direction.flip)
    (hvalid : ∀ s ∈ cands, segLo st s ≤ segHi st s)
    (hbuild : createIntervalTree (segLo st) (segHi st) cands = some tree) :
    (findIntersections st direction a b tree = true ↔
      ∃ s ∈ cands, (segLo st s ≤ (st.vert a).pos.coord direction.flip ∧
          (st.vert a).pos.coord direction.flip ≤ segHi st s) ∧
        (st.vert a).pos.coord direction < segStartCoord st s direction ∧
        segStartCoord st s direction < (st.vert b).pos.coord direction) ∧
    (st.refPos (st.seg aseg).endR = (st.vert b).pos ∨
        (st.seg aprev).startR = .vx b ∨
        findIntersections st direction a b tree = true →
      getDiagonalsGo direction tree st a (b :: rest) acc =
        getDiagonalsGo direction tree st b rest acc) ∧
    (∀ diag, st.refPos (st.seg aseg).endR ≠ (st.vert b).pos →
      (st.seg aprev).startR ≠ .vx b →
      findIntersections st direction a b tree = false →
      segCtor (st.vert a).pos (st.vert b).pos (.vx a) (.vx b) = .ok diag →
      getDiagonalsGo direction tree st a (b :: rest) acc =
        getDiagonalsGo direction tree { st with segs := st.segs ++ [diag] } b rest
          (acc ++ [st.segs.length])) := by
  obtain ⟨hperm, hrun⟩ := createITreeFuel_query (segLo st) (segHi st)
    (cands.length + 1) cands tree hvalid (Nat.lt_succ_self _) hbuild
    ((st.vert a).pos.coord direction.flip)
  have hfi : findIntersections st direction a b tree =
      (visitOrder (segLo st) (segHi st) tree
        ((st.vert a).pos.coord direction.flip)).any fun s =>
        decide ((st.vert a).pos.coord direction < segStartCoord st s direction ∧
          segStartCoord st s direction < (st.vert b).pos.coord direction) := by
    simp only [findIntersections]
    rw [hrun Unit Bool ()]
    rw [reportRange_const_state]
    apply congrArg
    funext s
    by_cases hp : (st.vert a).pos.coord direction < segStartCoord st s direction ∧
        segStartCoord st s direction < (st.vert b).pos.coord direction
    · simp [hp]
    · simp [hp]
  refine ⟨?_, ?_, ?_⟩
  · rw [hfi, List.any_eq_true]
    constructor
    · rintro ⟨s, hs, hp⟩
      have hsc := hperm.mem_iff.mp hs
      obtain ⟨hsm, hcont⟩ := List.mem_filter.mp hsc
      exact ⟨s, hsm, by simpa using hcont, by simpa using hp⟩
    · rintro ⟨s, hsm, hcont, hp⟩
      exact ⟨s, hperm.mem_iff.mpr (List.mem_filter.mpr ⟨hsm, by simpa using hcont⟩),
        by simpa using hp⟩
  · intro hskip
    by_cases hg1 : st.refPos (st.seg aseg).endR = (st.vert b).pos
    · simp only [getDiagonalsGo, hseg, hstart, hshare, hg1, and_self, if_true,
        eq_self_iff_true]
    · have hg1p : ¬((st.refPos (st.seg aseg).endR).1 = (st.vert b).pos.1 ∧
          (st.refPos (st.seg aseg).endR).2 = (st.vert b).pos.2) := by
        rintro ⟨h1, h2⟩
        exact hg1 (Prod.ext h1 h2)
      by_cases hg2 : (st.seg aprev).startR = .vx b
      · simp only [getDiagonalsGo, hseg, hstart, hshare, hprev, eq_self_iff_true,
          if_true]
        rw [if_neg hg1p, if_pos hg2]
      · have hg3 : findIntersections st direction a b tree = true := by
          rcases hskip with h | h | h
          · exact absurd h hg1
          · exact absurd h hg2
          · exact h
        simp only [getDiagonalsGo, hseg, hstart, hshare, hprev, eq_self_iff_true,
          if_true]
        rw [if_neg hg1p, if_neg hg2, hg3]
        rfl
  · intro diag h1 h2 h3 hctor
    have hg1p : ¬((st.refPos (st.seg aseg).endR).1 = (st.vert b).pos.1 ∧
        (st.refPos (st.seg aseg).endR).2 = (st.vert b).pos.2) := by
      rintro ⟨ha1, ha2⟩
      exact h1 (Prod.ext ha1 ha2)
    simp only [getDiagonalsGo, hseg, hstart, hshare, hprev, eq_self_iff_true,
      if_true]
    rw [if_neg hg1p, if_neg h2, h3, hctor]
    rfl

theorem getDiagonals_pair_spec_witness :
    (∀ s ∈ ([2] : List Nat), segLo w5st s ≤ segHi w5st s) ∧
    createIntervalTree (segLo w5st) (segHi w5st) [2] = some w5tree ∧
    ((findIntersections w5st .horizontal 0 1 w5tree = true ↔
      ∃ s ∈ ([2] : List Nat),
        (segLo w5st s ≤ (w5st.vert 0).pos.coord SDir.horizontal.flip ∧
          (w5st.vert 0).pos.coord SDir.horizontal.flip ≤ segHi w5st s) ∧
        (w5st.vert 0).pos.coord .horizontal < segStartCoord w5st s .horizontal ∧
        segStartCoord w5st s .horizontal < (w5st.vert 1).pos.coord .horizontal) ∧
    (w5st.refPos (w5st.seg 0).endR = (w5st.vert 1).pos ∨
        (w5st.seg 3).startR = .vx 1 ∨
        findIntersections w5st .horizontal 0 1 w5tree = true →
      getDiagonalsGo .horizontal w5tree w5st 0 [1] [] =
        getDiagonalsGo .horizontal w5tree w5st 1 [] []) ∧
    (∀ diag, w5st.refPos (w5st.seg 0).endR ≠ (w5st.vert 1).pos →
      (w5st.seg 3).startR ≠ .vx 1 →
      findIntersections w5st .horizontal 0 1 w5tree = false →
      segCtor (w5st.vert 0).pos (w5st.vert 1).pos (.vx 0) (.vx 1) = .ok diag →
      getDiagonalsGo .horizontal w5tree w5st 0 [1] [] =
        getDiagonalsGo .horizontal w5tree
          { w5st with segs := w5st.segs ++ [diag] } 1 [] ([] ++ [w5st.segs.length]))) :=
  ⟨by decide, rfl,
    getDiagonals_pair_spec w5st .horizontal w5tree [2] 0 1 0 3 [] []
      rfl rfl rfl rfl (by decide) rfl⟩

theorem mkSegment_fst_ok (x a b : Nat) : ∃ s, mkSegment (x, a) (x, b) = .ok s := by
  unfold mkSegment segCtor
  by_cases h : a = b
  · rw [if_pos (show ((x, a) : Point).2 = ((x, b) : Point).2 by simpa using h)]
    exact ⟨_, rfl⟩
  · rw [if_neg (show ¬((x, a) : Point).2 = ((x, b) : Point).2 by simpa using h),
      if_pos (show ((x, a) : Point).1 = ((x, b) : Point).1 by simp)]
    exact ⟨_, rfl⟩

theorem mkSegment_snd_ok (y a b : Nat) : ∃ s, mkSegment (a, y) (b, y) = .ok s := by
  unfold mkSegment segCtor
  rw [if_pos (show ((a, y) : Point).2 = ((b, y) : Point).2 by simp)]
  exact ⟨_, rfl⟩

theorem chain_append (f : Nat → Bool × Bool) :
    ∀ (l1 l2 : List Nat) (p : Bool × Bool),
    chain f p (l1 ++ l2) = chain f p l1 + chain f (lastSt f p l1) l2 := by
  intro l1
  induction l1 with
  | nil =>
    intro l2 p
    simp [chain, lastSt]
  | cons j js ih =>
    intro l2 p
    simp only [List.cons_append, chain, lastSt, List.append_eq]
    rw [ih]
    omega

theorem two_mul_endsC (f : Nat → Bool × Bool) :
    ∀ (js : List Nat) (p : Bool × Bool),
    2 * (endsC f p js + bnd (lastSt f p js)) =
      chain f p js + bnd p + bnd (lastSt f p js) := by
  intro js
  induction js with
  | nil =>
    intro p
    simp [endsC, lastSt, chain]
    omega
  | cons j js ih =>
    intro p
    simp only [endsC, lastSt, chain]
    have hih := ih (f j)
    by_cases hc : f j = p
    · have h1 : evB p (f j) = 0 := by simp [evB, hc]
      have h2 : (if f j ≠ p ∧ p.1 ≠ p.2 then 1 else 0) = 0 := by simp [hc]
      rw [hc] at hih
      rw [h1, h2, hc]
      omega
    · have hstep : (if f j ≠ p ∧ p.1 ≠ p.2 then 1 else 0) =
          (if p.1 ≠ p.2 then 1 else 0) := by
        simp [hc]
      have hev : evB p (f j) = bnd p + bnd (f j) := by
        simp [evB, hc]
      rw [hstep, hev]
      have hbp : (if p.1 ≠ p.2 then 1 else 0) = bnd p := rfl
      rw [hbp]
      omega

theorem chain_eq_sum (f : Nat → Bool × Bool) :
    ∀ (k j : Nat),
    chain f (prevP f j) (List.range' j k) =
      ((List.range' j k).map fun t => evB (prevP f t) (f t)).sum := by
  intro k
  induction k with
  | zero =>
    intro j
    rfl
  | succ k ih =>
    intro j
    rw [List.range'_succ]
    simp only [chain, List.map_cons, List.sum_cons]
    have h : f j = prevP f (j + 1) := by simp [prevP]
    rw [h, ih (j + 1)]

theorem evB_ff (q : Bool × Bool) : evB q (false, false) = bnd q := by
  rcases q with ⟨a, b⟩
  cases a <;> cases b <;> rfl

theorem evB_corner (a b c d : Bool) : evB (b, a) (d, c) = evB (c, a) (d, b) := by
  cases a <;> cases b <;> cases c <;> cases d <;> rfl

theorem listSum_range (g : Nat → Nat) (N : Nat) :
    ((List.range N).map g).sum = ∑ i ∈ Finset.range N, g i := by
  induction N with
  | zero => rfl
  | succ n ih =>
    rw [List.range_succ, Finset.sum_range_succ, List.map_append, List.sum_append, ih]
    rfl

theorem vTopGo_spec (r : Raster) :
    ∀ (k j : Nat) (ll : Bool) (ss : Nat) (acc : List SegNode),
    ∃ ss2 acc2,
      vTopGo r (List.range' j k) ll ss acc =
        .ok ((lastSt (vpairf r 0) (ll, false) (List.range' j k)).1, ss2, acc2) ∧
      acc2.length = acc.length + endsC (vpairf r 0) (ll, false) (List.range' j k) := by
  intro k
  induction k with
  | zero =>
    intro j ll ss acc
    exact ⟨ss, acc, rfl, by simp [endsC]⟩
  | succ k ih =>
    intro j ll ss acc
    have hfj : vpairf r 0 j = (r.px j 0, false) := rfl
    rw [List.range'_succ]
    by_cases h1 : ll = r.px j 0
    · have hfp : vpairf r 0 j = (ll, false) := by rw [hfj, ← h1]
      obtain ⟨ss2, acc2, hgo, hlen⟩ := ih (j + 1) ll ss acc
      refine ⟨ss2, acc2, ?_, ?_⟩
      · simp only [vTopGo]
        rw [if_pos h1, hgo]
        simp only [lastSt, hfp]
      · simp only [endsC, hfp]
        simpa using hlen
    · by_cases h2 : r.px j 0 = true
      · have hll : ll = false := by
          cases ll with
          | false => rfl
          | true => exact absurd h2.symm h1
        have hfp : vpairf r 0 j = (true, false) := by rw [hfj, h2]
        obtain ⟨ss2, acc2, hgo, hlen⟩ := ih (j + 1) (r.px j 0) j acc
        refine ⟨ss2, acc2, ?_, ?_⟩
        · simp only [vTopGo]
          rw [if_neg h1, if_pos h2, hgo]
          simp only [lastSt, hfj]
        · simp only [endsC, hfj, hll]
          simpa using hlen
      · have hpx : r.px j 0 = false := by
          cases hp : r.px j 0 with
          | false => rfl
          | true => exact absurd hp h2
        have hll : ll = true := by
          cases ll with
          | false => exact absurd hpx.symm h1
          | true => rfl
        obtain ⟨s, hs⟩ := mkSegment_fst_ok 0 j ss
        obtain ⟨ss2, acc2, hgo, hlen⟩ := ih (j + 1) (r.px j 0) ss (acc ++ [s])
        refine ⟨ss2, acc2, ?_, ?_⟩
        · simp only [vTopGo]
          rw [if_neg h1, if_neg h2, hs]
          simp only []
          rw [hgo]
          simp only [lastSt, hfj]
        · simp only [endsC, hfj, hll, hpx]
          rw [hpx] at hlen
          simp only [List.length_append, List.length_cons, List.length_nil] at hlen
          rw [hlen]
          simp
          omega

theorem vCenterGo_spec (r : Raster) (i : Nat) (hi : i ≠ 0) :
    ∀ (k j : Nat) (ll lu : Bool) (ss : Nat) (acc : List SegNode),
    ∃ ss2 acc2,
      vCenterGo r i (List.range' j k) ll lu ss acc =
        .ok ((lastSt (vpairf r i) (ll, lu) (List.range' j k)).1,
          (lastSt (vpairf r i) (ll, lu) (List.range' j k)).2, ss2, acc2) ∧
      acc2.length = acc.length + endsC (vpairf r i) (ll, lu) (List.range' j k) := by
  intro k
  induction k with
  | zero =>
    intro j ll lu ss acc
    exact ⟨ss, acc, rfl, by simp [endsC]⟩
  | succ k ih =>
    intro j ll lu ss acc
    have hfj : vpairf r i j = (r.px j i, r.px j (i - 1)) := by
      simp [vpairf, hi]
    rw [List.range'_succ]
    by_cases h1 : ll = r.px j i ∧ lu = r.px j (i - 1)
    · have hfp : vpairf r i j = (ll, lu) := by rw [hfj, ← h1.1, ← h1.2]
      obtain ⟨ss2, acc2, hgo, hlen⟩ := ih (j + 1) ll lu ss acc
      refine ⟨ss2, acc2, ?_, ?_⟩
      · simp only [vCenterGo]
        rw [if_pos h1, hgo]
        simp only [lastSt, hfp]
      · simp only [endsC, hfp]
        simpa using hlen
    · have hne : vpairf r i j ≠ (ll, lu) := by
        rw [hfj]
        intro hcon
        rw [Prod.mk.injEq] at hcon
        exact h1 ⟨hcon.1.symm, hcon.2.symm⟩
      by_cases h2 : ll ≠ lu
      · by_cases hll : ll = true
        · obtain ⟨s, hs⟩ := mkSegment_fst_ok i j ss
          obtain ⟨ss2, acc2, hgo, hlen⟩ := ih (j + 1) (r.px j i) (r.px j (i - 1))
            (if r.px j i ≠ r.px j (i - 1) then j else ss) (acc ++ [s])
          refine ⟨ss2, acc2, ?_, ?_⟩
          · simp only [vCenterGo]
            rw [if_neg h1, if_pos h2, if_pos hll, hs]
            show vCenterGo r i (List.range' (j + 1) k) (r.px j i) (r.px j (i - 1))
              (if r.px j i ≠ r.px j (i - 1) then j else ss) (acc ++ [s]) = _
            rw [hgo]
            simp only [lastSt, hfj]
          · simp only [endsC, hfj]
            rw [if_pos ⟨by rw [← hfj]; exact hne, by simpa using h2⟩]
            simp only [List.length_append, List.length_cons, List.length_nil] at hlen
            rw [hlen]
            omega
        · obtain ⟨s, hs⟩ := mkSegment_fst_ok i ss j
          obtain ⟨ss2, acc2, hgo, hlen⟩ := ih (j + 1) (r.px j i) (r.px j (i - 1))
            (if r.px j i ≠ r.px j (i - 1) then j else ss) (acc ++ [s])
          refine ⟨ss2, acc2, ?_, ?_⟩
          · simp only [vCenterGo]
            rw [if_neg h1, if_pos h2, if_neg hll, hs]
            show vCenterGo r i (List.range' (j + 1) k) (r.px j i) (r.px j (i - 1))
              (if r.px j i ≠ r.px j (i - 1) then j else ss) (acc ++ [s]) = _
            rw [hgo]
            simp only [lastSt, hfj]
          · simp only [endsC, hfj]
            rw [if_pos ⟨by rw [← hfj]; exact hne, by simpa using h2⟩]
            simp only [List.length_append, List.length_cons, List.length_nil] at hlen
            rw [hlen]
            omega
      · obtain ⟨ss2, acc2, hgo, hlen⟩ := ih (j + 1) (r.px j i) (r.px j (i - 1))
          (if r.px j i ≠ r.px j (i - 1) then j else ss) acc
        refine ⟨ss2, acc2, ?_, ?_⟩
        · simp only [vCenterGo]
          rw [if_neg h1, if_neg h2]
          rw [hgo]
          simp only [lastSt, hfj]
        · simp only [endsC, hfj]
          rw [if_neg (by
            rintro ⟨-, hcon⟩
            exact h2 (by simpa using hcon))]
          simpa using hlen

theorem vBotGo_spec (r : Raster) :
    ∀ (k j : Nat) (lu : Bool) (ss : Nat) (acc : List SegNode),
    ∃ ss2 acc2,
      vBotGo r (List.range' j k) lu ss acc =
        .ok ((lastSt (vpairf r r.m) (false, lu) (List.range' j k)).2, ss2, acc2) ∧
      acc2.length = acc.length + endsC (vpairf r r.m) (false, lu) (List.range' j k) := by
  intro k
  induction k with
  | zero =>
    intro j lu ss acc
    exact ⟨ss, acc, rfl, by simp [endsC]⟩
  | succ k ih =>
    intro j lu ss acc
    have hfj : vpairf r r.m j = (false, r.px j (r.m - 1)) := by
      by_cases hm : r.m = 0
      · simp [vpairf, hm, Raster.px]
      · simp [vpairf, hm, Raster.px]
    rw [List.range'_succ]
    by_cases h1 : lu = r.px j (r.m - 1)
    · have hfp : vpairf r r.m j = (false, lu) := by rw [hfj, ← h1]
      obtain ⟨ss2, acc2, hgo, hlen⟩ := ih (j + 1) lu ss acc
      refine ⟨ss2, acc2, ?_, ?_⟩
      · simp only [vBotGo]
        rw [if_pos h1, hgo]
        simp only [lastSt, hfp]
      · simp only [endsC, hfp]
        simpa using hlen
    · by_cases h2 : r.px j (r.m - 1) = true
      · have hlu : lu = false := by
          cases lu with
          | false => rfl
          | true => exact absurd h2.symm h1
        obtain ⟨ss2, acc2, hgo, hlen⟩ := ih (j + 1) (r.px j (r.m - 1)) j acc
        refine ⟨ss2, acc2, ?_, ?_⟩
        · simp only [vBotGo]
          rw [if_neg h1, if_pos h2, hgo]
          simp only [lastSt, hfj]
        · simp only [endsC, hfj, hlu]
          simpa using hlen
      · have hpx : r.px j (r.m - 1) = false := by
          cases hp : r.px j (r.m - 1) with
          | false => rfl
          | true => exact absurd hp h2
        have hlu : lu = true := by
          cases lu with
          | false => exact absurd hpx.symm h1
          | true => rfl
        obtain ⟨s, hs⟩ := mkSegment_fst_ok r.m ss j
        obtain ⟨ss2, acc2, hgo, hlen⟩ := ih (j + 1) (r.px j (r.m - 1)) ss (acc ++ [s])
        refine ⟨ss2, acc2, ?_, ?_⟩
        · simp only [vBotGo]
          rw [if_neg h1, if_neg h2, hs]
          show vBotGo r (List.range' (j + 1) k) (r.px j (r.m - 1)) ss (acc ++ [s]) = _
          rw [hgo]
          simp only [lastSt, hfj]
        · simp only [endsC, hfj, hlu, hpx]
          rw [hpx] at hlen
          simp only [List.length_append, List.length_cons, List.length_nil] at hlen
          rw [hlen]
          simp
          omega

theorem hTopGo_spec (r : Raster) :
    ∀ (k j : Nat) (ll : Bool) (ss : Nat) (acc : List SegNode),
    ∃ ss2 acc2,
      hTopGo r (List.range' j k) ll ss acc =
        .ok ((lastSt (hpairf r 0) (ll, false) (List.range' j k)).1, ss2, acc2) ∧
      acc2.length = acc.length + endsC (hpairf r 0) (ll, false) (List.range' j k) := by
  intro k
  induction k with
  | zero =>
    intro j ll ss acc
    exact ⟨ss, acc, rfl, by simp [endsC]⟩
  | succ k ih =>
    intro j ll ss acc
    have hfj : hpairf r 0 j = (r.px 0 j, false) := rfl
    rw [List.range'_succ]
    by_cases h1 : ll = r.px 0 j
    · have hfp : hpairf r 0 j = (ll, false) := by rw [hfj, ← h1]
      obtain ⟨ss2, acc2, hgo, hlen⟩ := ih (j + 1) ll ss acc
      refine ⟨ss2, acc2, ?_, ?_⟩
      · simp only [hTopGo]
        rw [if_pos h1, hgo]
        simp only [lastSt, hfp]
      · simp only [endsC, hfp]
        simpa using hlen
    · by_cases h2 : r.px 0 j = true
      · have hll : ll = false := by
          cases ll with
          | false => rfl
          | true => exact absurd h2.symm h1
        obtain ⟨ss2, acc2, hgo, hlen⟩ := ih (j + 1) (r.px 0 j) j acc
        refine ⟨ss2, acc2, ?_, ?_⟩
        · simp only [hTopGo]
          rw [if_neg h1, if_pos h2, hgo]
          simp only [lastSt, hfj]
        · simp only [endsC, hfj, hll]
          simpa using hlen
      · have hpx : r.px 0 j = false := by
          cases hp : r.px 0 j with
          | false => rfl
          | true => exact absurd hp h2
        have hll : ll = true := by
          cases ll with
          | false => exact absurd hpx.symm h1
          | true => rfl
        obtain ⟨s, hs⟩ := mkSegment_snd_ok 0 ss j
        obtain ⟨ss2, acc2, hgo, hlen⟩ := ih (j + 1) (r.px 0 j) ss (acc ++ [s])
        refine ⟨ss2, acc2, ?_, ?_⟩
        · simp only [hTopGo]
          rw [if_neg h1, if_neg h2, hs]
          show hTopGo r (List.range' (j + 1) k) (r.px 0 j) ss (acc ++ [s]) = _
          rw [hgo]
          simp only [lastSt, hfj]
        · simp only [endsC, hfj, hll, hpx]
          rw [hpx] at hlen
          simp only [List.length_append, List.length_cons, List.length_nil] at hlen
          rw [hlen]
          simp
          omega

theorem hCenterGo_spec (r : Raster) (i : Nat) (hi : i ≠ 0) :
    ∀ (k j : Nat) (ll lu : Bool) (ss : Nat) (acc : List SegNode),
    ∃ ss2 acc2,
      hCenterGo r i (List.range' j k) ll lu ss acc =
        .ok ((lastSt (hpairf r i) (ll, lu) (List.range' j k)).1,
          (lastSt (hpairf r i) (ll, lu) (List.range' j k)).2, ss2, acc2) ∧
      acc2.length = acc.length + endsC (hpairf r i) (ll, lu) (List.range' j k) := by
  intro k
  induction k with
  | zero =>
    intro j ll lu ss acc
    exact ⟨ss, acc, rfl, by simp [endsC]⟩
  | succ k ih =>
    intro j ll lu ss acc
    have hfj : hpairf r i j = (r.px i j, r.px (i - 1) j) := by
      simp [hpairf, hi]
    rw [List.range'_succ]
    by_cases h1 : ll = r.px i j ∧ lu = r.px (i - 1) j
    · have hfp : hpairf r i j = (ll, lu) := by rw [hfj, ← h1.1, ← h1.2]
      obtain ⟨ss2, acc2, hgo, hlen⟩ := ih (j + 1) ll lu ss acc
      refine ⟨ss2, acc2, ?_, ?_⟩
      · simp only [hCenterGo]
        rw [if_pos h1, hgo]
        simp only [lastSt, hfp]
      · simp only [endsC, hfp]
        simpa using hlen
    · have hne : hpairf r i j ≠ (ll, lu) := by
        rw [hfj]
        intro hcon
        rw [Prod.mk.injEq] at hcon
        exact h1 ⟨hcon.1.symm, hcon.2.symm⟩
      by_cases h2 : ll ≠ lu
      · by_cases hll : ll = true
        · obtain ⟨s, hs⟩ := mkSegment_snd_ok i ss j
          obtain ⟨ss2, acc2, hgo, hlen⟩ := ih (j + 1) (r.px i j) (r.px (i - 1) j)
            (if r.px i j ≠ r.px (i - 1) j then j else ss) (acc ++ [s])
          refine ⟨ss2, acc2, ?_, ?_⟩
          · simp only [hCenterGo]
            rw [if_neg h1, if_pos h2, if_pos hll, hs]
            show hCenterGo r i (List.range' (j + 1) k) (r.px i j) (r.px (i - 1) j)
              (if r.px i j ≠ r.px (i - 1) j then j else ss) (acc ++ [s]) = _
            rw [hgo]
            simp only [lastSt, hfj]
          · simp only [endsC, hfj]
            rw [if_pos ⟨by rw [← hfj]; exact hne, by simpa using h2⟩]
            simp only [List.length_append, List.length_cons, List.length_nil] at hlen
            rw [hlen]
            omega
        · obtain ⟨s, hs⟩ := mkSegment_snd_ok i j ss
          obtain ⟨ss2, acc2, hgo, hlen⟩ := ih (j + 1) (r.px i j) (r.px (i - 1) j)
            (if r.px i j ≠ r.px (i - 1) j then j else ss) (acc ++ [s])
          refine ⟨ss2, acc2, ?_, ?_⟩
          · simp only [hCenterGo]
            rw [if_neg h1, if_pos h2, if_neg hll, hs]
            show hCenterGo r i (List.range' (j + 1) k) (r.px i j) (r.px (i - 1) j)
              (if r.px i j ≠ r.px (i - 1) j then j else ss) (acc ++ [s]) = _
            rw [hgo]
            simp only [lastSt, hfj]
          · simp only [endsC, hfj]
            rw [if_pos ⟨by rw [← hfj]; exact hne, by simpa using h2⟩]
            simp only [List.length_append, List.length_cons, List.length_nil] at hlen
            rw [hlen]
            omega
      · obtain ⟨ss2, acc2, hgo, hlen⟩ := ih (j + 1) (r.px i j) (r.px (i - 1) j)
          (if r.px i j ≠ r.px (i - 1) j then j else ss) acc
        refine ⟨ss2, acc2, ?_, ?_⟩
        · simp only [hCenterGo]
          rw [if_neg h1, if_neg h2]
          rw [hgo]
          simp only [lastSt, hfj]
        · simp only [endsC, hfj]
          rw [if_neg (by
            rintro ⟨-, hcon⟩
            exact h2 (by simpa using hcon))]
          simpa using hlen

theorem hBotGo_spec (r : Raster) :
    ∀ (k j : Nat) (lu : Bool) (ss : Nat) (acc : List SegNode),
    ∃ ss2 acc2,
      hBotGo r (List.range' j k) lu ss acc =
        .ok ((lastSt (hpairf r r.n) (false, lu) (List.range' j k)).2, ss2, acc2) ∧
      acc2.length = acc.length + endsC (hpairf r r.n) (false, lu) (List.range' j k) := by
  intro k
  induction k with
  | zero =>
    intro j lu ss acc
    exact ⟨ss, acc, rfl, by simp [endsC]⟩
  | succ k ih =>
    intro j lu ss acc
    have hfj : hpairf r r.n j = (false, r.px (r.n - 1) j) := by
      by_cases hn : r.n = 0
      · simp [hpairf, hn, Raster.px]
      · simp [hpairf, hn, Raster.px]
    rw [List.range'_succ]
    by_cases h1 : lu = r.px (r.n - 1) j
    · have hfp : hpairf r r.n j = (false, lu) := by rw [hfj, ← h1]
      obtain ⟨ss2, acc2, hgo, hlen⟩ := ih (j + 1) lu ss acc
      refine ⟨ss2, acc2, ?_, ?_⟩
      · simp only [hBotGo]
        rw [if_pos h1, hgo]
        simp only [lastSt, hfp]
      · simp only [endsC, hfp]
        simpa using hlen
    · by_cases h2 : r.px (r.n - 1) j = true
      · have hlu : lu = false := by
          cases lu with
          | false => rfl
          | true => exact absurd h2.symm h1
        obtain ⟨ss2, acc2, hgo, hlen⟩ := ih (j + 1) (r.px (r.n - 1) j) j acc
        refine ⟨ss2, acc2, ?_, ?_⟩
        · simp only [hBotGo]
          rw [if_neg h1, if_pos h2, hgo]
          simp only [lastSt, hfj]
        · simp only [endsC, hfj, hlu]
          simpa using hlen
      · have hpx : r.px (r.n - 1) j = false := by
          cases hp : r.px (r.n - 1) j with
          | false => rfl
          | true => exact absurd hp h2
        have hlu : lu = true := by
          cases lu with
          | false => exact absurd hpx.symm h1
          | true => rfl
        obtain ⟨s, hs⟩ := mkSegment_snd_ok r.n j ss
        obtain ⟨ss2, acc2, hgo, hlen⟩ := ih (j + 1) (r.px (r.n - 1) j) ss (acc ++ [s])
        refine ⟨ss2, acc2, ?_, ?_⟩
        · simp only [hBotGo]
          rw [if_neg h1, if_neg h2, hs]
          show hBotGo r (List.range' (j + 1) k) (r.px (r.n - 1) j) ss (acc ++ [s]) = _
          rw [hgo]
          simp only [lastSt, hfj]
        · simp only [endsC, hfj, hlu, hpx]
          rw [hpx] at hlen
          simp only [List.length_append, List.length_cons, List.length_nil] at hlen
          rw [hlen]
          simp
          omega

theorem lastSt_snd (f : Nat → Bool × Bool) (hf : ∀ j, (f j).2 = false) :
    ∀ (js : List Nat) (p : Bool × Bool), p.2 = false → (lastSt f p js).2 = false := by
  intro js
  induction js with
  | nil => intro p hp; exact hp
  | cons j js ih => intro p hp; exact ih (f j) (hf j)

theorem lastSt_fst (f : Nat → Bool × Bool) (hf : ∀ j, (f j).1 = false) :
    ∀ (js : List Nat) (p : Bool × Bool), p.1 = false → (lastSt f p js).1 = false := by
  intro js
  induction js with
  | nil => intro p hp; exact hp
  | cons j js ih => intro p hp; exact ih (f j) (hf j)

theorem vTop_spec (r : Raster) :
    ∃ ss acc, vTop r = .ok (ss, acc) ∧ 2 * acc.length = wallBV r 0 := by
  obtain ⟨ss2, acc2, hgo, hlen⟩ := vTopGo_spec r r.n 0 false 0 []
  rw [← List.range_eq_range'] at hgo hlen
  have hsnd : (lastSt (vpairf r 0) (false, false) (List.range r.n)).2 = false :=
    lastSt_snd (vpairf r 0) (fun j => rfl) (List.range r.n) (false, false) rfl
  have hfn : vpairf r 0 r.n = (false, false) := by
    simp [vpairf, Raster.px]
  have hkey : 2 * (endsC (vpairf r 0) (false, false) (List.range r.n) +
      bnd (lastSt (vpairf r 0) (false, false) (List.range r.n))) = wallBV r 0 := by
    rw [two_mul_endsC]
    unfold wallBV
    rw [List.range_succ, chain_append]
    simp only [chain, hfn, evB_ff]
    have hb0 : bnd (false, false) = 0 := rfl
    omega
  simp only [List.length_nil, Nat.zero_add] at hlen
  by_cases hll : (lastSt (vpairf r 0) (false, false) (List.range r.n)).1 = true
  · obtain ⟨s, hs⟩ := mkSegment_fst_ok 0 r.n ss2
    refine ⟨ss2, acc2 ++ [s], ?_, ?_⟩
    · simp only [vTop, hgo]
      rw [if_pos hll, hs]
    · have hbnd : bnd (lastSt (vpairf r 0) (false, false) (List.range r.n)) = 1 := by
        simp [bnd, hsnd, hll]
      simp only [List.length_append, List.length_cons, List.length_nil]
      omega
  · refine ⟨ss2, acc2, ?_, ?_⟩
    · simp only [vTop, hgo]
      rw [if_neg hll]
    · have hll0 : (lastSt (vpairf r 0) (false, false) (List.range r.n)).1 = false := by
        cases hq : (lastSt (vpairf r 0) (false, false) (List.range r.n)).1 with
        | false => rfl
        | true => exact absurd hq hll
      have hbnd : bnd (lastSt (vpairf r 0) (false, false) (List.range r.n)) = 0 := by
        simp [bnd, hsnd, hll0]
      omega

theorem vCenterWall_spec (r : Raster) (i : Nat) (hi : i ≠ 0) (ss : Nat)
    (acc : List SegNode) :
    ∃ ss2 acc2, vCenterWall r i ss acc = .ok (ss2, acc2) ∧
      2 * acc2.length = 2 * acc.length + wallBV r i := by
  obtain ⟨ss2, acc2, hgo, hlen⟩ := vCenterGo_spec r i hi r.n 0 false false ss acc
  rw [← List.range_eq_range'] at hgo hlen
  have hfn : vpairf r i r.n = (false, false) := by
    by_cases h0 : i = 0 <;> simp [vpairf, h0, Raster.px]
  have hkey : 2 * (endsC (vpairf r i) (false, false) (List.range r.n) +
      bnd (lastSt (vpairf r i) (false, false) (List.range r.n))) = wallBV r i := by
    rw [two_mul_endsC]
    unfold wallBV
    rw [List.range_succ, chain_append]
    simp only [chain, hfn, evB_ff]
    have hb0 : bnd (false, false) = 0 := rfl
    omega
  by_cases hne : (lastSt (vpairf r i) (false, false) (List.range r.n)).1 ≠
      (lastSt (vpairf r i) (false, false) (List.range r.n)).2
  · have hbnd : bnd (lastSt (vpairf r i) (false, false) (List.range r.n)) = 1 := by
      simp [bnd, hne]
    by_cases hll : (lastSt (vpairf r i) (false, false) (List.range r.n)).1 = true
    · obtain ⟨s, hs⟩ := mkSegment_fst_ok i r.n ss2
      refine ⟨ss2, acc2 ++ [s], ?_, ?_⟩
      · simp only [vCenterWall, hgo]
        rw [if_pos hne, if_pos hll, hs]
      · simp only [List.length_append, List.length_cons, List.length_nil]
        omega
    · obtain ⟨s, hs⟩ := mkSegment_fst_ok i ss2 r.n
      refine ⟨ss2, acc2 ++ [s], ?_, ?_⟩
      · simp only [vCenterWall, hgo]
        rw [if_pos hne, if_neg hll, hs]
      · simp only [List.length_append, List.length_cons, List.length_nil]
        omega
  · have hbnd : bnd (lastSt (vpairf r i) (false, false) (List.range r.n)) = 0 := by
      simp only [bnd, if_neg hne]
    refine ⟨ss2, acc2, ?_, ?_⟩
    · simp only [vCenterWall, hgo]
      rw [if_neg hne]
    · omega

theorem vBot_spec (r : Raster) (ss : Nat) (acc : List SegNode) :
    ∃ acc2, vBot r ss acc = .ok acc2 ∧
      2 * acc2.length = 2 * acc.length + wallBV r r.m := by
  obtain ⟨ss2, acc2, hgo, hlen⟩ := vBotGo_spec r r.n 0 false ss acc
  rw [← List.range_eq_range'] at hgo hlen
  have hfst : (lastSt (vpairf r r.m) (false, false) (List.range r.n)).1 = false := by
    apply lastSt_fst
    · intro j
      by_cases hm : r.m = 0 <;> simp [vpairf, hm, Raster.px]
    · rfl
  have hfn : vpairf r r.m r.n = (false, false) := by
    by_cases hm : r.m = 0 <;> simp [vpairf, hm, Raster.px]
  have hkey : 2 * (endsC (vpairf r r.m) (false, false) (List.range r.n) +
      bnd (lastSt (vpairf r r.m) (false, false) (List.range r.n))) = wallBV r r.m := by
    rw [two_mul_endsC]
    unfold wallBV
    rw [List.range_succ, chain_append]
    simp only [chain, hfn, evB_ff]
    have hb0 : bnd (false, false) = 0 := rfl
    omega
  by_cases hlu : (lastSt (vpairf r r.m) (false, false) (List.range r.n)).2 = true
  · obtain ⟨s, hs⟩ := mkSegment_fst_ok r.m ss2 r.n
    refine ⟨acc2 ++ [s], ?_, ?_⟩
    · simp only [vBot, hgo]
      rw [if_pos hlu, hs]
    · have hbnd : bnd (lastSt (vpairf r r.m) (false, false) (List.range r.n)) = 1 := by
        simp [bnd, hfst, hlu]
      simp only [List.length_append, List.length_cons, List.length_nil]
      omega
  · refine ⟨acc2, ?_, ?_⟩
    · simp only [vBot, hgo]
      rw [if_neg hlu]
    · have hlu0 : (lastSt (vpairf r r.m) (false, false) (List.range r.n)).2 = false := by
        cases hq : (lastSt (vpairf r r.m) (false, false) (List.range r.n)).2 with
        | false => rfl
        | true => exact absurd hq hlu
      have hbnd : bnd (lastSt (vpairf r r.m) (false, false) (List.range r.n)) = 0 := by
        simp [bnd, hfst, hlu0]
      omega

theorem hTop_spec (r : Raster) :
    ∃ ss acc, hTop r = .ok (ss, acc) ∧ 2 * acc.length = wallBH r 0 := by
  obtain ⟨ss2, acc2, hgo, hlen⟩ := hTopGo_spec r r.m 0 false 0 []
  rw [← List.range_eq_range'] at hgo hlen
  have hsnd : (lastSt (hpairf r 0) (false, false) (List.range r.m)).2 = false :=
    lastSt_snd (hpairf r 0) (fun j => rfl) (List.range r.m) (false, false) rfl
  have hfn : hpairf r 0 r.m = (false, false) := by
    simp [hpairf, Raster.px]
  have hkey : 2 * (endsC (hpairf r 0) (false, false) (List.range r.m) +
      bnd (lastSt (hpairf r 0) (false, false) (List.range r.m))) = wallBH r 0 := by
    rw [two_mul_endsC]
    unfold wallBH
    rw [List.range_succ, chain_append]
    simp only [chain, hfn, evB_ff]
    have hb0 : bnd (false, false) = 0 := rfl
    omega
  simp only [List.length_nil, Nat.zero_add] at hlen
  by_cases hll : (lastSt (hpairf r 0) (false, false) (List.range r.m)).1 = true
  · obtain ⟨s, hs⟩ := mkSegment_snd_ok 0 ss2 r.m
    refine ⟨ss2, acc2 ++ [s], ?_, ?_⟩
    · simp only [hTop, hgo]
      rw [if_pos hll, hs]
    · have hbnd : bnd (lastSt (hpairf r 0) (false, false) (List.range r.m)) = 1 := by
        simp [bnd, hsnd, hll]
      simp only [List.length_append, List.length_cons, List.length_nil]
      omega
  · refine ⟨ss2, acc2, ?_, ?_⟩
    · simp only [hTop, hgo]
      rw [if_neg hll]
    · have hll0 : (lastSt (hpairf r 0) (false, false) (List.range r.m)).1 = false := by
        cases hq : (lastSt (hpairf r 0) (false, false) (List.range r.m)).1 with
        | false => rfl
        | true => exact absurd hq hll
      have hbnd : bnd (lastSt (hpairf r 0) (false, false) (List.range r.m)) = 0 := by
        simp [bnd, hsnd, hll0]
      omega

theorem hCenterWall_spec (r : Raster) (i : Nat) (hi : i ≠ 0) (ss : Nat)
    (acc : List SegNode) :
    ∃ ss2 acc2, hCenterWall r i ss acc = .ok (ss2, acc2) ∧
      2 * acc2.length = 2 * acc.length + wallBH r i := by
  obtain ⟨ss2, acc2, hgo, hlen⟩ := hCenterGo_spec r i hi r.m 0 false false ss acc
  rw [← List.range_eq_range'] at hgo hlen
  have hfn : hpairf r i r.m = (false, false) := by
    by_cases h0 : i = 0 <;> simp [hpairf, h0, Raster.px]
  have hkey : 2 * (endsC (hpairf r i) (false, false) (List.range r.m) +
      bnd (lastSt (hpairf r i) (false, false) (List.range r.m))) = wallBH r i := by
    rw [two_mul_endsC]
    unfold wallBH
    rw [List.range_succ, chain_append]
    simp only [chain, hfn, evB_ff]
    have hb0 : bnd (false, false) = 0 := rfl
    omega
  by_cases hne : (lastSt (hpairf r i) (false, false) (List.range r.m)).1 ≠
      (lastSt (hpairf r i) (false, false) (List.range r.m)).2
  · have hbnd : bnd (lastSt (hpairf r i) (false, false) (List.range r.m)) = 1 := by
      simp [bnd, hne]
    by_cases hll : (lastSt (hpairf r i) (false, false) (List.range r.m)).1 = true
    · obtain ⟨s, hs⟩ := mkSegment_snd_ok i ss2 r.m
      refine ⟨ss2, acc2 ++ [s], ?_, ?_⟩
      · simp only [hCenterWall, hgo]
        rw [if_pos hne, if_pos hll, hs]
      · simp only [List.length_append, List.length_cons, List.length_nil]
        omega
    · obtain ⟨s, hs⟩ := mkSegment_snd_ok i r.m ss2
      refine ⟨ss2, acc2 ++ [s], ?_, ?_⟩
      · simp only [hCenterWall, hgo]
        rw [if_pos hne, if_neg hll, hs]
      · simp only [List.length_append, List.length_cons, List.length_nil]
        omega
  · have hbnd : bnd (lastSt (hpairf r i) (false, false) (List.range r.m)) = 0 := by
      simp only [bnd, if_neg hne]
    refine ⟨ss2, acc2, ?_, ?_⟩
    · simp only [hCenterWall, hgo]
      rw [if_neg hne]
    · omega

theorem hBot_spec (r : Raster) (ss : Nat) (acc : List SegNode) :
    ∃ acc2, hBot r ss acc = .ok acc2 ∧
      2 * acc2.length = 2 * acc.length + wallBH r r.n := by
  obtain ⟨ss2, acc2, hgo, hlen⟩ := hBotGo_spec r r.m 0 false ss acc
  rw [← List.range_eq_range'] at hgo hlen
  have hfst : (lastSt (hpairf r r.n) (false, false) (List.range r.m)).1 = false := by
    apply lastSt_fst
    · intro j
      by_cases hn : r.n = 0 <;> simp [hpairf, hn, Raster.px]
    · rfl
  have hfn : hpairf r r.n r.m = (false, false) := by
    by_cases hn : r.n = 0 <;> simp [hpairf, hn, Raster.px]
  have hkey : 2 * (endsC (hpairf r r.n) (false, false) (List.range r.m) +
      bnd (lastSt (hpairf r r.n) (false, false) (List.range r.m))) = wallBH r r.n := by
    rw [two_mul_endsC]
    unfold wallBH
    rw [List.range_succ, chain_append]
    simp only [chain, hfn, evB_ff]
    have hb0 : bnd (false, false) = 0 := rfl
    omega
  by_cases hlu : (lastSt (hpairf r r.n) (false, false) (List.range r.m)).2 = true
  · obtain ⟨s, hs⟩ := mkSegment_snd_ok r.n r.m ss2
    refine ⟨acc2 ++ [s], ?_, ?_⟩
    · simp only [hBot, hgo]
      rw [if_pos hlu, hs]
    · have hbnd : bnd (lastSt (hpairf r r.n) (false, false) (List.range r.m)) = 1 := by
        simp [bnd, hfst, hlu]
      simp only [List.length_append, List.length_cons, List.length_nil]
      omega
  · refine ⟨acc2, ?_, ?_⟩
    · simp only [hBot, hgo]
      rw [if_neg hlu]
    · have hlu0 : (lastSt (hpairf r r.n) (false, false) (List.range r.m)).2 = false := by
        cases hq : (lastSt (hpairf r r.n) (false, false) (List.range r.m)).2 with
        | false => rfl
        | true => exact absurd hq hlu
      have hbnd : bnd (lastSt (hpairf r r.n) (false, false) (List.range r.m)) = 0 := by
        simp [bnd, hfst, hlu0]
      omega

theorem chain_eq_zero (f : Nat → Bool × Bool) :
    ∀ (js : List Nat) (p : Bool × Bool), (∀ j ∈ js, f j = p) → chain f p js = 0 := by
  intro js
  induction js with
  | nil => intro p _; rfl
  | cons j js ih =>
    intro p hp
    have hj : f j = p := hp j (by simp)
    simp only [chain, evB, hj, if_pos rfl]
    have : ∀ t ∈ js, f t = f j := by
      intro t ht
      rw [hj]
      exact hp t (by simp [ht])
    have h2 := ih (f j) this
    rw [hj] at h2
    simpa using h2

theorem vCenterLoop_spec (r : Raster) :
    ∀ (is : List Nat), (∀ i ∈ is, i ≠ 0) → ∀ (ss : Nat) (acc : List SegNode),
    ∃ ss2 acc2, vCenterLoop r is ss acc = .ok (ss2, acc2) ∧
      2 * acc2.length = 2 * acc.length + (is.map (wallBV r)).sum := by
  intro is
  induction is with
  | nil =>
    intro _ ss acc
    exact ⟨ss, acc, rfl, by simp⟩
  | cons i is ih =>
    intro his ss acc
    obtain ⟨ss2, acc2, hw, hl⟩ := vCenterWall_spec r i (his i (by simp)) ss acc
    obtain ⟨ss3, acc3, hloop, hl3⟩ := ih (fun t ht => his t (by simp [ht])) ss2 acc2
    refine ⟨ss3, acc3, ?_, ?_⟩
    · simp only [vCenterLoop, hw]
      exact hloop
    · simp only [List.map_cons, List.sum_cons]
      omega

theorem hCenterLoop_spec (r : Raster) :
    ∀ (is : List Nat), (∀ i ∈ is, i ≠ 0) → ∀ (ss : Nat) (acc : List SegNode),
    ∃ ss2 acc2, hCenterLoop r is ss acc = .ok (ss2, acc2) ∧
      2 * acc2.length = 2 * acc.length + (is.map (wallBH r)).sum := by
  intro is
  induction is with
  | nil =>
    intro _ ss acc
    exact ⟨ss, acc, rfl, by simp⟩
  | cons i is ih =>
    intro his ss acc
    obtain ⟨ss2, acc2, hw, hl⟩ := hCenterWall_spec r i (his i (by simp)) ss acc
    obtain ⟨ss3, acc3, hloop, hl3⟩ := ih (fun t ht => his t (by simp [ht])) ss2 acc2
    refine ⟨ss3, acc3, ?_, ?_⟩
    · simp only [hCenterLoop, hw]
      exact hloop
    · simp only [List.map_cons, List.sum_cons]
      omega

theorem scanForVSegments_spec (r : Raster) :
    ∃ segs, scanForVSegments r = .ok segs ∧
      2 * segs.length = ((List.range (r.m + 1)).map (wallBV r)).sum := by
  obtain ⟨ss, acc, htop, hltop⟩ := vTop_spec r
  obtain ⟨ss2, acc2, hloop, hlloop⟩ := vCenterLoop_spec r (List.range' 1 (r.m - 1))
    (by
      intro i hi
      have := List.mem_range'_1.mp hi
      omega) ss acc
  obtain ⟨acc3, hbot, hlbot⟩ := vBot_spec r ss2 acc2
  refine ⟨acc3, ?_, ?_⟩
  · simp only [scanForVSegments, htop, hloop]
    exact hbot
  · by_cases hm : r.m = 0
    · have hw0 : wallBV r 0 = 0 := by
        apply chain_eq_zero
        intro j _
        simp [vpairf, Raster.px, hm]
      rw [hm] at hlloop hlbot ⊢
      simp only [Nat.zero_sub, List.range'_zero, List.map_nil, List.sum_nil,
        Nat.add_zero] at hlloop
      have hsum : ((List.range (0 + 1)).map (wallBV r)).sum = wallBV r 0 := rfl
      omega
    · have hdec : List.range (r.m + 1) = 0 :: (List.range' 1 (r.m - 1) ++ [r.m]) := by
        rw [List.range_eq_range']
        rw [show r.m + 1 = ((r.m - 1) + 1) + 1 by omega]
        rw [List.range'_succ]
        rw [List.range'_concat]
        simp only [Nat.zero_add, Nat.one_mul]
        rw [show 1 + (r.m - 1) = r.m by omega]
      rw [hdec]
      simp only [List.map_cons, List.sum_cons, List.map_append, List.sum_append,
        List.map_nil, List.sum_nil]
      omega

theorem scanForHSegments_spec (r : Raster) :
    ∃ segs, scanForHSegments r = .ok segs ∧
      2 * segs.length = ((List.range (r.n + 1)).map (wallBH r)).sum := by
  obtain ⟨ss, acc, htop, hltop⟩ := hTop_spec r
  obtain ⟨ss2, acc2, hloop, hlloop⟩ := hCenterLoop_spec r (List.range' 1 (r.n - 1))
    (by
      intro i hi
      have := List.mem_range'_1.mp hi
      omega) ss acc
  obtain ⟨acc3, hbot, hlbot⟩ := hBot_spec r ss2 acc2
  refine ⟨acc3, ?_, ?_⟩
  · simp only [scanForHSegments, htop, hloop]
    exact hbot
  · by_cases hn : r.n = 0
    · have hw0 : wallBH r 0 = 0 := by
        apply chain_eq_zero
        intro j _
        simp [hpairf, Raster.px, hn]
      rw [hn] at hlloop hlbot ⊢
      simp only [Nat.zero_sub, List.range'_zero, List.map_nil, List.sum_nil,
        Nat.add_zero] at hlloop
      have hsum : ((List.range (0 + 1)).map (wallBH r)).sum = wallBH r 0 := rfl
      omega
    · have hdec : List.range (r.n + 1) = 0 :: (List.range' 1 (r.n - 1) ++ [r.n]) := by
        rw [List.range_eq_range']
        rw [show r.n + 1 = ((r.n - 1) + 1) + 1 by omega]
        rw [List.range'_succ]
        rw [List.range'_concat]
        simp only [Nat.zero_add, Nat.one_mul]
        rw [show 1 + (r.n - 1) = r.n by omega]
      rw [hdec]
      simp only [List.map_cons, List.sum_cons, List.map_append, List.sum_append,
        List.map_nil, List.sum_nil]
      omega

theorem corner_event_eq (r : Raster) (i j : Nat) :
    evB (prevP (vpairf r i) j) (vpairf r i j) =
      evB (prevP (hpairf r j) i) (hpairf r j i) := by
  by_cases hi0 : i = 0 <;> by_cases hj0 : j = 0
  · subst hi0
    subst hj0
    rfl
  · subst hi0
    simp only [prevP, vpairf, hpairf, hj0, if_pos rfl, if_neg hj0, if_false]
    exact evB_corner false (r.px (j - 1) 0) false (r.px j 0)
  · subst hj0
    simp only [prevP, vpairf, hpairf, hi0, if_pos rfl, if_neg hi0, if_false]
    exact evB_corner false false (r.px 0 (i - 1)) (r.px 0 i)
  · simp only [prevP, vpairf, hpairf, if_neg hi0, if_neg hj0, if_false]
    exact evB_corner (r.px (j - 1) (i - 1)) (r.px (j - 1) i)
      (r.px j (i - 1)) (r.px j i)

theorem wallB_sum_eq (r : Raster) :
    ((List.range (r.m + 1)).map (wallBV r)).sum =
      ((List.range (r.n + 1)).map (wallBH r)).sum := by
  have hv : ∀ i, wallBV r i = ∑ j ∈ Finset.range (r.n + 1),
      evB (prevP (vpairf r i) j) (vpairf r i j) := by
    intro i
    unfold wallBV
    rw [List.range_eq_range']
    have h0 : ((false, false) : Bool × Bool) = prevP (vpairf r i) 0 := rfl
    rw [h0, chain_eq_sum, ← List.range_eq_range']
    exact listSum_range _ _
  have hh : ∀ i, wallBH r i = ∑ j ∈ Finset.range (r.m + 1),
      evB (prevP (hpairf r i) j) (hpairf r i j) := by
    intro i
    unfold wallBH
    rw [List.range_eq_range']
    have h0 : ((false, false) : Bool × Bool) = prevP (hpairf r i) 0 := rfl
    rw [h0, chain_eq_sum, ← List.range_eq_range']
    exact listSum_range _ _
  rw [listSum_range, listSum_range]
  calc ∑ i ∈ Finset.range (r.m + 1), wallBV r i
      = ∑ i ∈ Finset.range (r.m + 1), ∑ j ∈ Finset.range (r.n + 1),
          evB (prevP (vpairf r i) j) (vpairf r i j) :=
        Finset.sum_congr rfl (fun i _ => hv i)
    _ = ∑ i ∈ Finset.range (r.m + 1), ∑ j ∈ Finset.range (r.n + 1),
          evB (prevP (hpairf r j) i) (hpairf r j i) := by
        refine Finset.sum_congr rfl (fun i _ => ?_)
        exact Finset.sum_congr rfl (fun j _ => corner_event_eq r i j)
    _ = ∑ j ∈ Finset.range (r.n + 1), ∑ i ∈ Finset.range (r.m + 1),
          evB (prevP (hpairf r j) i) (hpairf r j i) := Finset.sum_comm
    _ = ∑ j ∈ Finset.range (r.n + 1), wallBH r j :=
        Finset.sum_congr rfl (fun j _ => (hh j).symm)

theorem getVertices_length :
    ∀ (l : List Nat) (st st2 : GState) (vs : List Nat),
    getVertices st l = .ok (st2, vs) → vs.length = 2 * l.length := by
  intro l
  induction l with
  | nil =>
    intro st st2 vs h
    simp only [getVertices, Except.ok.injEq, Prod.mk.injEq] at h
    rw [← h.2]
    rfl
  | cons si rest ih =>
    intro st st2 vs h
    simp only [getVertices] at h
    split at h
    · split at h
      · rename_i st3 vs3 heq
        simp only [Except.ok.injEq, Prod.mk.injEq] at h
        rw [← h.2]
        simp only [List.length_cons, ih _ _ _ heq]
        omega
      · exact Except.noConfusion h
    · exact Except.noConfusion h

/-- C9: for every raster, the two scanners succeed and return lists of the
same length; consequently, whenever the vertex-building stage succeeds, the
H-vertex and V-vertex lists each have length twice the segment count of
their axis, the two length assertions of `preprocess` both pass, and the
sorting stage succeeds. -/
theorem scanner_lengths_spec (r : Raster) :
    ∃ hrecs vrecs, scanForHSegments r = .ok hrecs ∧ scanForVSegments r = .ok vrecs ∧
      hrecs.length = vrecs.length ∧
      ∀ st hIdxs vIdxs hvs vvs,
        prepVertices r = .ok (st, hIdxs, vIdxs, hvs, vvs) →
        hvs.length = 2 * hrecs.length ∧ vvs.length = 2 * vrecs.length ∧
        hvs.length = vvs.length ∧
        prepSorted r = .ok (st, hIdxs, vIdxs, sortVerts st compareHVertices hvs,
          sortVerts st compareVVertices vvs) := by
  obtain ⟨hsegs, hh, hlh⟩ := scanForHSegments_spec r
  obtain ⟨vsegs, hv, hlv⟩ := scanForVSegments_spec r
  have hlen : hsegs.length = vsegs.length := by
    have := wallB_sum_eq r
    omega
  refine ⟨hsegs, vsegs, hh, hv, hlen, ?_⟩
  intro st hIdxs vIdxs hvs vvs hpre
  have hpre0 := hpre
  simp only [prepVertices, hh, hv] at hpre
  rcases hg1 : getVertices ⟨hsegs, []⟩ (List.range hsegs.length) with e1 | p1
  · rw [hg1] at hpre
    exact Except.noConfusion hpre
  · rcases p1 with ⟨st1, hvs1⟩
    rw [hg1] at hpre
    simp only [] at hpre
    rcases hg2 : getVertices ⟨st1.segs ++ vsegs, st1.verts⟩
        (List.range' hsegs.length vsegs.length) with e2 | p2
    · rw [hg2] at hpre
      exact Except.noConfusion hpre
    · rcases p2 with ⟨st3, vvs3⟩
      rw [hg2] at hpre
      simp only [Except.ok.injEq, Prod.mk.injEq] at hpre
      obtain ⟨hst, hhi, hvi, hhv, hvv⟩ := hpre
      have hl1 : hvs1.length = 2 * hsegs.length := by
        have := getVertices_length _ _ _ _ hg1
        simpa using this
      have hl2 : vvs3.length = 2 * vsegs.length := by
        have := getVertices_length _ _ _ _ hg2
        simpa using this
      have hhv1 : hvs.length = 2 * hsegs.length := by rw [← hhv]; exact hl1
      have hvv1 : vvs.length = 2 * vsegs.length := by rw [← hvv]; exact hl2
      have heq : hvs.length = vvs.length := by omega
      refine ⟨hhv1, hvv1, heq, ?_⟩
      have hIl : hIdxs.length = hsegs.length := by
        rw [← hhi]
        exact List.length_range _
      simp only [prepSorted, hpre0]
      rw [if_pos heq, if_pos (by omega)]

theorem scanner_lengths_spec_witness :
    ∃ hrecs vrecs,
      scanForHSegments twoHolesRaster = .ok hrecs ∧
      scanForVSegments twoHolesRaster = .ok vrecs ∧
      hrecs.length = vrecs.length ∧
      ∀ st hIdxs vIdxs hvs vvs,
        prepVertices twoHolesRaster = .ok (st, hIdxs, vIdxs, hvs, vvs) →
        hvs.length = 2 * hrecs.length ∧ vvs.length = 2 * vrecs.length ∧
        hvs.length = vvs.length ∧
        prepSorted twoHolesRaster = .ok (st, hIdxs, vIdxs,
          sortVerts st compareHVertices hvs, sortVerts st compareVVertices vvs) :=
  scanner_lengths_spec twoHolesRaster

theorem vert_lt_of_segment (st : GState) (i s : Nat)
    (h : (st.vert i).segment = some s) : i < st.verts.length := by
  by_contra hge
  have hd : st.vert i = dummyVert := by
    simp only [GState.vert]
    exact List.getD_eq_default _ _ (by omega)
  rw [hd] at h
  exact Option.noConfusion h

theorem seg_lt_of_startR_vx (st : GState) (i v : Nat)
    (h : (st.seg i).startR = .vx v) : i < st.segs.length := by
  by_contra hge
  have hd : st.seg i = dummySeg := by
    simp only [GState.seg]
    exact List.getD_eq_default _ _ (by omega)
  rw [hd] at h
  exact Ref.noConfusion h

theorem seg_lt_of_endR_vx (st : GState) (i v : Nat)
    (h : (st.seg i).endR = .vx v) : i < st.segs.length := by
  by_contra hge
  have hd : st.seg i = dummySeg := by
    simp only [GState.seg]
    exact List.getD_eq_default _ _ (by omega)
  rw [hd] at h
  exact Ref.noConfusion h

/-- C1: one iteration of the stitching loop of `preprocess`, on the pair
`(hv, vv)` of an H-vertex and a V-vertex: the two vertices occupy the same
grid position; if `hv` is `OUTGOING` then `vv` is `INCOMING` (it is its
segment's end vertex) and the links `hv.segment.prev = vv.segment` and
`vv.segment.next = hv.segment` are set, both vertices being marked concave
iff the directions agree (the concave vertex being collected); otherwise
`hv` is `INCOMING`, `vv` is `OUTGOING`, the links `hv.segment.next =
vv.segment` and `vv.segment.prev = hv.segment` are set, and both are marked
concave iff the directions differ. -/
theorem stitchPair_spec (st : GState) (concaves : List Nat) (hv vv : Nat)
    (st2 : GState) (c2 : List Nat)
    (hend : ∀ sj, (st.vert vv).segment = some sj → (st.seg sj).endR = .vx vv →
      (st.vert vv).orientation = .incoming)
    (h : stitchPair st concaves hv vv = .ok (st2, c2)) :
    ((st.vert vv).pos.1 = (st.vert hv).pos.1 ∧
      (st.vert hv).pos.2 = (st.vert vv).pos.2) ∧
    ∃ hseg vseg, (st.vert hv).segment = some hseg ∧
      (st.vert vv).segment = some vseg ∧
      (((st.vert hv).orientation = .outgoing ∧
        (st.vert vv).orientation = .incoming ∧
        (st2.seg hseg).prev = some vseg ∧ (st2.seg vseg).next = some hseg ∧
        (st2.vert hv).concave =
          some (decide ((st.vert hv).direction = (st.vert vv).direction)) ∧
        (st2.vert vv).concave =
          some (decide ((st.vert hv).direction = (st.vert vv).direction)) ∧
        c2 = (if (st.vert hv).direction = (st.vert vv).direction
          then concaves ++ [hv] else concaves)) ∨
       ((st.vert hv).orientation = .incoming ∧
        (st.vert vv).orientation = .outgoing ∧
        (st2.seg hseg).next = some vseg ∧ (st2.seg vseg).prev = some hseg ∧
        (st2.vert hv).concave =
          some (decide ((st.vert hv).direction ≠ (st.vert vv).direction)) ∧
        (st2.vert vv).concave =
          some (decide ((st.vert hv).direction ≠ (st.vert vv).direction)) ∧
        c2 = (if (st.vert hv).direction ≠ (st.vert vv).direction
          then concaves ++ [vv] else concaves))) := by
  simp only [stitchPair] at h
  by_cases ho : (st.vert hv).orientation = .outgoing
  · rw [if_pos ho] at h
    rcases hhs : (st.vert hv).segment with _ | hseg
    · rw [hhs] at h
      simp at h
    · rcases hvs : (st.vert vv).segment with _ | vseg
      · rw [hhs, hvs] at h
        simp at h
      · rw [hhs, hvs] at h
        simp only [] at h
        by_cases hc1 : (st.seg hseg).startR = .vx hv
        case neg =>
          rw [if_neg hc1] at h
          exact Except.noConfusion h
        rw [if_pos hc1] at h
        by_cases hc2 : (st.seg vseg).endR = .vx vv
        case neg =>
          rw [if_neg hc2] at h
          exact Except.noConfusion h
        rw [if_pos hc2] at h
        by_cases hc3 : (st.vert vv).pos.1 = (st.vert hv).pos.1 ∧
            (st.vert hv).pos.2 = (st.vert vv).pos.2
        case neg =>
          rw [if_neg hc3] at h
          exact Except.noConfusion h
        rw [if_pos hc3] at h
        have hvvlt : vv < st.verts.length := vert_lt_of_segment st vv vseg hvs
        have hhvlt : hv < st.verts.length := vert_lt_of_segment st hv hseg hhs
        have hseglt : hseg < st.segs.length := seg_lt_of_startR_vx st hseg hv hc1
        have hvseglt : vseg < st.segs.length := seg_lt_of_endR_vx st vseg vv hc2
        have hmain : st2 = (((st.setPrev hseg (some vseg)).setNext vseg
              (some hseg)).setConcave hv
              (some (decide ((st.vert hv).direction = (st.vert vv).direction)))).setConcave
              vv (some (decide ((st.vert hv).direction = (st.vert vv).direction))) ∧
            c2 = (if (st.vert hv).direction = (st.vert vv).direction
              then concaves ++ [hv] else concaves) := by
          by_cases hd : (st.vert hv).direction = (st.vert vv).direction
          · rw [if_pos (show decide ((st.vert hv).direction =
                (st.vert vv).direction) = true by simp [hd])] at h
            simp only [Except.ok.injEq, Prod.mk.injEq] at h
            exact ⟨h.1.symm, by rw [← h.2, if_pos hd]⟩
          · rw [if_neg (show ¬decide ((st.vert hv).direction =
                (st.vert vv).direction) = true by simp [hd])] at h
            simp only [Except.ok.injEq, Prod.mk.injEq] at h
            exact ⟨h.1.symm, by rw [← h.2, if_neg hd]⟩
        obtain ⟨hst, hc2g⟩ := hmain
        subst hst
        refine ⟨⟨hc3.1, hc3.2⟩, hseg, vseg, rfl, rfl,
          Or.inl ⟨ho, hend vseg hvs hc2, ?_, ?_, ?_, ?_, hc2g⟩⟩
        · rw [seg_setConcave, seg_setConcave, seg_setNext_prev]
          exact seg_setPrev_prev_self st hseg (some vseg) hseglt
        · rw [seg_setConcave, seg_setConcave]
          apply seg_setNext_next_self
          rw [segsLength_setPrev]
          exact hvseglt
        · by_cases hvvhv : vv = hv
          · subst hvvhv
            rw [vert_setConcave_self]
            rw [vertsLength_setConcave, verts_setNext, verts_setPrev]
            exact hvvlt
          · rw [vert_setConcave_ne _ _ _ _ hvvhv]
            rw [vert_setConcave_self]
            rw [verts_setNext, verts_setPrev]
            exact hhvlt
        · rw [vert_setConcave_self]
          rw [vertsLength_setConcave, verts_setNext, verts_setPrev]
          exact hvvlt
  · rw [if_neg ho] at h
    have hoin : (st.vert hv).orientation = .incoming := by
      cases hq : (st.vert hv).orientation with
      | outgoing => exact absurd hq ho
      | incoming => rfl
    rcases hhs : (st.vert hv).segment with _ | hseg
    · rw [hhs] at h
      simp at h
    · rcases hvs : (st.vert vv).segment with _ | vseg
      · rw [hhs, hvs] at h
        simp at h
      · rw [hhs, hvs] at h
        simp only [] at h
        by_cases hc1 : (st.seg vseg).startR = .vx vv
        case neg =>
          rw [if_neg hc1] at h
          exact Except.noConfusion h
        rw [if_pos hc1] at h
        by_cases hc2 : (st.seg hseg).endR = .vx hv
        case neg =>
          rw [if_neg hc2] at h
          exact Except.noConfusion h
        rw [if_pos hc2] at h
        by_cases hc3 : (st.vert vv).pos.1 = (st.vert hv).pos.1 ∧
            (st.vert hv).pos.2 = (st.vert vv).pos.2
        case neg =>
          rw [if_neg hc3] at h
          exact Except.noConfusion h
        rw [if_pos hc3] at h
        by_cases hc4 : (st.vert vv).orientation = .outgoing
        case neg =>
          rw [if_neg hc4] at h
          exact Except.noConfusion h
        rw [if_pos hc4] at h
        have hvvlt : vv < st.verts.length := vert_lt_of_segment st vv vseg hvs
        have hhvlt : hv < st.verts.length := vert_lt_of_segment st hv hseg hhs
        have hseglt : hseg < st.segs.length := seg_lt_of_endR_vx st hseg hv hc2
        have hvseglt : vseg < st.segs.length := seg_lt_of_startR_vx st vseg vv hc1
        have hmain : st2 = (((st.setNext hseg (some vseg)).setPrev vseg
              (some hseg)).setConcave hv
              (some (decide ((st.vert hv).direction ≠ (st.vert vv).direction)))).setConcave
              vv (some (decide ((st.vert hv).direction ≠ (st.vert vv).direction))) ∧
            c2 = (if (st.vert hv).direction ≠ (st.vert vv).direction
              then concaves ++ [vv] else concaves) := by
          by_cases hd : (st.vert hv).direction ≠ (st.vert vv).direction
          · rw [if_pos (show decide ((st.vert hv).direction ≠
                (st.vert vv).direction) = true by simp [hd])] at h
            simp only [Except.ok.injEq, Prod.mk.injEq] at h
            exact ⟨h.1.symm, by rw [← h.2, if_pos hd]⟩
          · rw [if_neg (show ¬decide ((st.vert hv).direction ≠
                (st.vert vv).direction) = true by simp [hd])] at h
            simp only [Except.ok.injEq, Prod.mk.injEq] at h
            exact ⟨h.1.symm, by rw [← h.2, if_neg hd]⟩
        obtain ⟨hst, hc2g⟩ := hmain
        subst hst
        refine ⟨⟨hc3.1, hc3.2⟩, hseg, vseg, rfl, rfl,
          Or.inr ⟨hoin, hc4, ?_, ?_, ?_, ?_, hc2g⟩⟩
        · rw [seg_setConcave, seg_setConcave, seg_setPrev_next]
          exact seg_setNext_next_self st hseg (some vseg) hseglt
        · rw [seg_setConcave, seg_setConcave]
          apply seg_setPrev_prev_self
          rw [segsLength_setNext]
          exact hvseglt
        · by_cases hvvhv : vv = hv
          · subst hvvhv
            rw [vert_setConcave_self]
            rw [vertsLength_setConcave, verts_setPrev, verts_setNext]
            exact hvvlt
          · rw [vert_setConcave_ne _ _ _ _ hvvhv]
            rw [vert_setConcave_self]
            rw [verts_setPrev, verts_setNext]
            exact hhvlt
        · rw [vert_setConcave_self]
          rw [vertsLength_setConcave, verts_setPrev, verts_setNext]
          exact hvvlt

theorem stitchPair_spec_witness :
    stitchPair wc1st [] 0 1 = .ok (wc1res, [0]) ∧
    (((wc1st.vert 1).pos.1 = (wc1st.vert 0).pos.1 ∧
      (wc1st.vert 0).pos.2 = (wc1st.vert 1).pos.2) ∧
    ∃ hseg vseg, (wc1st.vert 0).segment = some hseg ∧
      (wc1st.vert 1).segment = some vseg ∧
      (((wc1st.vert 0).orientation = .outgoing ∧
        (wc1st.vert 1).orientation = .incoming ∧
        (wc1res.seg hseg).prev = some vseg ∧
        (wc1res.seg vseg).next = some hseg ∧
        (wc1res.vert 0).concave =
          some (decide ((wc1st.vert 0).direction = (wc1st.vert 1).direction)) ∧
        (wc1res.vert 1).concave =
          some (decide ((wc1st.vert 0).direction = (wc1st.vert 1).direction)) ∧
        ([0] : List Nat) =
          (if (wc1st.vert 0).direction = (wc1st.vert 1).direction
            then [] ++ [0] else [])) ∨
       ((wc1st.vert 0).orientation = .incoming ∧
        (wc1st.vert 1).orientation = .outgoing ∧
        (wc1res.seg hseg).next = some vseg ∧
        (wc1res.seg vseg).prev = some hseg ∧
        (wc1res.vert 0).concave =
          some (decide ((wc1st.vert 0).direction ≠ (wc1st.vert 1).direction)) ∧
        (wc1res.vert 1).concave =
          some (decide ((wc1st.vert 0).direction ≠ (wc1st.vert 1).direction)) ∧
        ([0] : List Nat) =
          (if (wc1st.vert 0).direction ≠ (wc1st.vert 1).direction
            then [] ++ [1] else [])))) :=
  ⟨rfl, stitchPair_spec wc1st [] 0 1 wc1res [0] (fun _ _ _ => rfl) rfl⟩

theorem vert_setConcave_segment (st : GState) (i j : Nat) (b : Option Bool) :
    ((st.setConcave i b).vert j).segment = (st.vert j).segment := by
  by_cases hij : i = j
  · subst hij
    by_cases hlt : i < st.verts.length
    · simp [GState.setConcave, GState.vert, GState.setVert,
        List.getD_eq_getElem?_getD, List.getElem?_set_self hlt]
    · have h1 : ∀ v : VertNode, st.verts.set i v = st.verts := fun v =>
        List.set_eq_of_length_le (by omega)
      simp [GState.setConcave, GState.setVert, GState.vert, h1]
  · rw [vert_setConcave_ne _ _ _ _ hij]

theorem stitchPair_cases (st : GState) (concaves : List Nat) (hv vv : Nat)
    (st2 : GState) (c2 : List Nat)
    (h : stitchPair st concaves hv vv = .ok (st2, c2)) :
    ∃ hseg vseg, (st.vert hv).segment = some hseg ∧
      (st.vert vv).segment = some vseg ∧
      (((st.seg hseg).startR = .vx hv ∧ (st.seg vseg).endR = .vx vv ∧
        st2 = (((st.setPrev hseg (some vseg)).setNext vseg
          (some hseg)).setConcave hv
          (some (decide ((st.vert hv).direction = (st.vert vv).direction)))).setConcave
          vv (some (decide ((st.vert hv).direction = (st.vert vv).direction)))) ∨
       ((st.seg vseg).startR = .vx vv ∧ (st.seg hseg).endR = .vx hv ∧
        st2 = (((st.setNext hseg (some vseg)).setPrev vseg
          (some hseg)).setConcave hv
          (some (decide ((st.vert hv).direction ≠ (st.vert vv).direction)))).setConcave
          vv (some (decide ((st.vert hv).direction ≠ (st.vert vv).direction))))) := by
  simp only [stitchPair] at h
  by_cases ho : (st.vert hv).orientation = .outgoing
  · rw [if_pos ho] at h
    rcases hhs : (st.vert hv).segment with _ | hseg
    · rw [hhs] at h
      simp at h
    · rcases hvs : (st.vert vv).segment with _ | vseg
      · rw [hhs, hvs] at h
        simp at h
      · rw [hhs, hvs] at h
        simp only [] at h
        by_cases hc1 : (st.seg hseg).startR = .vx hv
        case neg =>
          rw [if_neg hc1] at h
          exact Except.noConfusion h
        rw [if_pos hc1] at h
        by_cases hc2 : (st.seg vseg).endR = .vx vv
        case neg =>
          rw [if_neg hc2] at h
          exact Except.noConfusion h
        rw [if_pos hc2] at h
        by_cases hc3 : (st.vert vv).pos.1 = (st.vert hv).pos.1 ∧
            (st.vert hv).pos.2 = (st.vert vv).pos.2
        case neg =>
          rw [if_neg hc3] at h
          exact Except.noConfusion h
        rw [if_pos hc3] at h
        refine ⟨hseg, vseg, rfl, rfl, Or.inl ⟨hc1, hc2, ?_⟩⟩
        by_cases hd : decide ((st.vert hv).direction = (st.vert vv).direction) = true
        · rw [if_pos hd] at h
          simp only [Except.ok.injEq, Prod.mk.injEq] at h
          exact h.1.symm
        · rw [if_neg hd] at h
          simp only [Except.ok.injEq, Prod.mk.injEq] at h
          exact h.1.symm
  · rw [if_neg ho] at h
    rcases hhs : (st.vert hv).segment with _ | hseg
    · rw [hhs] at h
      simp at h
    · rcases hvs : (st.vert vv).segment with _ | vseg
      · rw [hhs, hvs] at h
        simp at h
      · rw [hhs, hvs] at h
        simp only [] at h
        by_cases hc1 : (st.seg vseg).startR = .vx vv
        case neg =>
          rw [if_neg hc1] at h
          exact Except.noConfusion h
        rw [if_pos hc1] at h
        by_cases hc2 : (st.seg hseg).endR = .vx hv
        case neg =>
          rw [if_neg hc2] at h
          exact Except.noConfusion h
        rw [if_pos hc2] at h
        by_cases hc3 : (st.vert vv).pos.1 = (st.vert hv).pos.1 ∧
            (st.vert hv).pos.2 = (st.vert vv).pos.2
        case neg =>
          rw [if_neg hc3] at h
          exact Except.noConfusion h
        rw [if_pos hc3] at h
        by_cases hc4 : (st.vert vv).orientation = .outgoing
        case neg =>
          rw [if_neg hc4] at h
          exact Except.noConfusion h
        rw [if_pos hc4] at h
        refine ⟨hseg, vseg, rfl, rfl, Or.inr ⟨hc1, hc2, ?_⟩⟩
        by_cases hd : decide ((st.vert hv).direction ≠ (st.vert vv).direction) = true
        · rw [if_pos hd] at h
          simp only [Except.ok.injEq, Prod.mk.injEq] at h
          exact h.1.symm
        · rw [if_neg hd] at h
          simp only [Except.ok.injEq, Prod.mk.injEq] at h
          exact h.1.symm

theorem stitchAll_links :
    ∀ (ps : List (Nat × Nat)) (st : GState) (concaves : List Nat)
      (stF : GState) (cF : List Nat),
    stitchAll st ps concaves = .ok (stF, cF) →
    (ps.map Prod.fst ++ ps.map Prod.snd).Nodup →
    (∀ s n, (st.seg s).next = some n → (st.seg n).prev = some s) →
    (∀ s p, (st.seg s).prev = some p → (st.seg p).next = some s) →
    (∀ pr ∈ ps, ∀ v, (v = pr.1 ∨ v = pr.2) → ∀ s,
      (st.vert v).segment = some s →
      ((st.seg s).endR = .vx v → (st.seg s).next = none) ∧
      ((st.seg s).startR = .vx v → (st.seg s).prev = none)) →
    (∀ s v, (st.seg s).startR = .vx v → (st.seg s).endR ≠ .vx v) →
    (∀ s, (stF.seg s).startR = (st.seg s).startR ∧
      (stF.seg s).endR = (st.seg s).endR ∧
      ((st.seg s).next.isSome = true → (stF.seg s).next = (st.seg s).next) ∧
      ((st.seg s).prev.isSome = true → (stF.seg s).prev = (st.seg s).prev)) ∧
    (∀ v, (stF.vert v).segment = (st.vert v).segment) ∧
    stF.segs.length = st.segs.length ∧
    (∀ s n, (stF.seg s).next = some n → (stF.seg n).prev = some s) ∧
    (∀ s p, (stF.seg s).prev = some p → (stF.seg p).next = some s) ∧
    (∀ pr ∈ ps, ∀ v, (v = pr.1 ∨ v = pr.2) → ∀ s,
      (st.vert v).segment = some s →
      ((st.seg s).endR = .vx v → (stF.seg s).next.isSome = true) ∧
      ((st.seg s).startR = .vx v → (stF.seg s).prev.isSome = true)) := by
  intro ps
  induction ps with
  | nil =>
    intro st concaves stF cF hok _ hmut1 hmut2 _ _
    simp only [stitchAll, Except.ok.injEq, Prod.mk.injEq] at hok
    rw [← hok.1]
    exact ⟨fun s => ⟨rfl, rfl, fun _ => rfl, fun _ => rfl⟩, fun v => rfl, rfl,
      hmut1, hmut2, fun pr hpr => absurd hpr (List.not_mem_nil pr)⟩
  | cons pr0 rest ih =>
    rcases pr0 with ⟨hv, vv⟩
    intro st concaves stF cF hok hnodup hmut1 hmut2 hfresh hnd
    simp only [stitchAll] at hok
    rcases hsp : stitchPair st concaves hv vv with e | p1
    · rw [hsp] at hok
      exact Except.noConfusion hok
    rcases p1 with ⟨st1, c1⟩
    rw [hsp] at hok
    simp only [] at hok
    -- decompose the nodup hypothesis
    rw [List.map_cons, List.map_cons, List.cons_append, List.nodup_cons] at hnodup
    obtain ⟨hhv_nin, hnodup1⟩ := hnodup
    rw [List.nodup_middle, List.nodup_cons] at hnodup1
    obtain ⟨hvv_nin, hnodup2⟩ := hnodup1
    have hhv_nrest : hv ∉ rest.map Prod.fst ++ rest.map Prod.snd := by
      intro hmem
      rcases List.mem_append.mp hmem with hm | hm
      · exact hhv_nin (List.mem_append.mpr (Or.inl hm))
      · exact hhv_nin (List.mem_append.mpr (Or.inr (List.mem_cons_of_mem _ hm)))
    have hmemv : ∀ v, v ∈ rest.map Prod.fst ++ rest.map Prod.snd →
        v ≠ hv ∧ v ≠ vv := by
      intro v hm
      constructor
      · intro hq
        exact hhv_nrest (hq ▸ hm)
      · intro hq
        exact hvv_nin (hq ▸ hm)
    have hmem_of_pair : ∀ q ∈ rest, ∀ v, (v = q.1 ∨ v = q.2) →
        v ∈ rest.map Prod.fst ++ rest.map Prod.snd := by
      intro q hq v hvq
      rcases hvq with hvq | hvq
      · exact List.mem_append.mpr (Or.inl (hvq ▸ List.mem_map_of_mem Prod.fst hq))
      · exact List.mem_append.mpr (Or.inr (hvq ▸ List.mem_map_of_mem Prod.snd hq))
    obtain ⟨hseg, vseg, hhs, hvs, hbr⟩ := stitchPair_cases st concaves hv vv st1 c1 hsp
    rcases hbr with ⟨hc1, hc2, hst1⟩ | ⟨hc1, hc2, hst1⟩
    · -- OUTGOING branch: writes hseg.prev := vseg and vseg.next := hseg
      have hseglt : hseg < st.segs.length := seg_lt_of_startR_vx st hseg hv hc1
      have hvseglt : vseg < st.segs.length := seg_lt_of_endR_vx st vseg vv hc2
      have hnext1 : ∀ s, (st1.seg s).next =
          (if s = vseg then some hseg else (st.seg s).next) := by
        intro s
        rw [hst1, seg_setConcave, seg_setConcave]
        by_cases hsv : s = vseg
        · subst hsv
          rw [if_pos rfl]
          apply seg_setNext_next_self
          rw [segsLength_setPrev]
          exact hvseglt
        · rw [if_neg hsv, seg_setNext_next_ne _ _ _ _ (fun hh => hsv hh.symm)]
          exact seg_setPrev_next st hseg s (some vseg)
      have hprev1 : ∀ s, (st1.seg s).prev =
          (if s = hseg then some vseg else (st.seg s).prev) := by
        intro s
        rw [hst1, seg_setConcave, seg_setConcave, seg_setNext_prev]
        by_cases hsh : s = hseg
        · subst hsh
          rw [if_pos rfl]
          exact seg_setPrev_prev_self st s (some vseg) hseglt
        · rw [if_neg hsh]
          exact seg_setPrev_prev_ne _ _ _ _ (fun hh => hsh hh.symm)
      have hstart1 : ∀ s, (st1.seg s).startR = (st.seg s).startR := by
        intro s
        rw [hst1, seg_setConcave, seg_setConcave, seg_setNext_startR,
          seg_setPrev_startR]
      have hend1 : ∀ s, (st1.seg s).endR = (st.seg s).endR := by
        intro s
        rw [hst1, seg_setConcave, seg_setConcave, seg_setNext_endR,
          seg_setPrev_endR]
      have hvseg1 : ∀ v, (st1.vert v).segment = (st.vert v).segment := by
        intro v
        rw [hst1, vert_setConcave_segment, vert_setConcave_segment,
          vert_setNext, vert_setPrev]
      have hlen1 : st1.segs.length = st.segs.length := by
        rw [hst1]
        show ((st.setPrev hseg (some vseg)).setNext vseg (some hseg)).segs.length = _
        rw [segsLength_setNext, segsLength_setPrev]
      -- the freshly written fields were previously none
      have hfresh0 := hfresh (hv, vv) (List.mem_cons_self _ _)
      have hnextv_none : (st.seg vseg).next = none :=
        ((hfresh0 vv (Or.inr rfl) vseg hvs).1) hc2
      have hprevh_none : (st.seg hseg).prev = none :=
        ((hfresh0 hv (Or.inl rfl) hseg hhs).2) hc1
      -- hypotheses of the inductive step
      have hmut1s : ∀ s n, (st1.seg s).next = some n → (st1.seg n).prev = some s := by
        intro s n hsn
        rw [hnext1] at hsn
        by_cases hsv : s = vseg
        · rw [if_pos hsv] at hsn
          injection hsn with hsn
          rw [hprev1, ← hsn, if_pos rfl, hsv]
        · rw [if_neg hsv] at hsn
          have hold := hmut1 s n hsn
          rw [hprev1]
          have hnh : n ≠ hseg := by
            intro hq
            rw [hq, hprevh_none] at hold
            exact Option.noConfusion hold
          rw [if_neg hnh]
          exact hold
      have hmut2s : ∀ s p, (st1.seg s).prev = some p → (st1.seg p).next = some s := by
        intro s p hsp2
        rw [hprev1] at hsp2
        by_cases hsh : s = hseg
        · rw [if_pos hsh] at hsp2
          injection hsp2 with hsp2
          rw [hnext1, ← hsp2, if_pos rfl, hsh]
        · rw [if_neg hsh] at hsp2
          have hold := hmut2 s p hsp2
          rw [hnext1]
          have hpv : p ≠ vseg := by
            intro hq
            rw [hq, hnextv_none] at hold
            exact Option.noConfusion hold
          rw [if_neg hpv]
          exact hold
      have hfreshs : ∀ q ∈ rest, ∀ v, (v = q.1 ∨ v = q.2) → ∀ s,
          (st1.vert v).segment = some s →
          ((st1.seg s).endR = .vx v → (st1.seg s).next = none) ∧
          ((st1.seg s).startR = .vx v → (st1.seg s).prev = none) := by
        intro q hq v hvq s hown
        rw [hvseg1] at hown
        rw [hend1, hstart1, hnext1, hprev1]
        have hne := hmemv v (hmem_of_pair q hq v hvq)
        have hold := hfresh q (List.mem_cons_of_mem _ hq) v hvq s hown
        constructor
        · intro hev
          by_cases hsv : s = vseg
          · exfalso
            rw [hsv] at hev
            rw [hc2] at hev
            injection hev with hev
            exact hne.2 hev.symm
          · rw [if_neg hsv]
            exact hold.1 hev
        · intro hsv2
          by_cases hsh : s = hseg
          · exfalso
            rw [hsh] at hsv2
            rw [hc1] at hsv2
            injection hsv2 with hsv2
            exact hne.1 hsv2.symm
          · rw [if_neg hsh]
            exact hold.2 hsv2
      have hnds : ∀ s v, (st1.seg s).startR = .vx v → (st1.seg s).endR ≠ .vx v := by
        intro s v hs
        rw [hstart1] at hs
        rw [hend1]
        exact hnd s v hs
      obtain ⟨ihstat, ihvseg, ihlen, ihmut1, ihmut2, ihT⟩ :=
        ih st1 c1 stF cF hok hnodup2 hmut1s hmut2s hfreshs hnds
      refine ⟨?_, ?_, ?_, ihmut1, ihmut2, ?_⟩
      · intro s
        obtain ⟨i1, i2, i3, i4⟩ := ihstat s
        refine ⟨by rw [i1, hstart1], by rw [i2, hend1], ?_, ?_⟩
        · intro hsome
          have hsv : s ≠ vseg := by
            intro hq
            rw [hq, hnextv_none] at hsome
            exact Bool.noConfusion hsome
          have he : (st1.seg s).next = (st.seg s).next := by
            rw [hnext1, if_neg hsv]
          rw [i3 (by rw [he]; exact hsome), he]
        · intro hsome
          have hsh : s ≠ hseg := by
            intro hq
            rw [hq, hprevh_none] at hsome
            exact Bool.noConfusion hsome
          have he : (st1.seg s).prev = (st.seg s).prev := by
            rw [hprev1, if_neg hsh]
          rw [i4 (by rw [he]; exact hsome), he]
      · intro v
        rw [ihvseg, hvseg1]
      · rw [ihlen, hlen1]
      · intro q hq v hvq s hown
        rcases List.mem_cons.mp hq with hq0 | hqr
        · -- the pair processed in this step
          subst hq0
          rcases hvq with hvq | hvq
          · -- v = hv: its keyed field is hseg.prev
            subst hvq
            rw [hhs] at hown
            injection hown with hown
            subst hown
            constructor
            · intro hev
              exact absurd hev (hnd hseg v hc1)
            · intro _
              have h1 : (st1.seg hseg).prev = some vseg := by
                rw [hprev1, if_pos rfl]
              have h2 := (ihstat hseg).2.2.2 (by rw [h1]; rfl)
              rw [h2, h1]
              rfl
          · -- v = vv: its keyed field is vseg.next
            subst hvq
            rw [hvs] at hown
            injection hown with hown
            subst hown
            constructor
            · intro _
              have h1 : (st1.seg vseg).next = some hseg := by
                rw [hnext1, if_pos rfl]
              have h2 := (ihstat vseg).2.2.1 (by rw [h1]; rfl)
              rw [h2, h1]
              rfl
            · intro hsv2
              exact absurd hc2 (hnd vseg v hsv2)
        · -- a later pair: use the inductive conclusion, transported
          have hT := ihT q hqr v hvq s (by rw [hvseg1]; exact hown)
          rw [hend1, hstart1] at hT
          exact hT
    · -- INCOMING branch: writes hseg.next := vseg and vseg.prev := hseg
      have hseglt : hseg < st.segs.length := seg_lt_of_endR_vx st hseg hv hc2
      have hvseglt : vseg < st.segs.length := seg_lt_of_startR_vx st vseg vv hc1
      have hnext1 : ∀ s, (st1.seg s).next =
          (if s = hseg then some vseg else (st.seg s).next) := by
        intro s
        rw [hst1, seg_setConcave, seg_setConcave, seg_setPrev_next]
        by_cases hsh : s = hseg
        · subst hsh
          rw [if_pos rfl]
          exact seg_setNext_next_self st s (some vseg) hseglt
        · rw [if_neg hsh]
          exact seg_setNext_next_ne _ _ _ _ (fun hh => hsh hh.symm)
      have hprev1 : ∀ s, (st1.seg s).prev =
          (if s = vseg then some hseg else (st.seg s).prev) := by
        intro s
        rw [hst1, seg_setConcave, seg_setConcave]
        by_cases hsv : s = vseg
        · subst hsv
          rw [if_pos rfl]
          apply seg_setPrev_prev_self
          rw [segsLength_setNext]
          exact hvseglt
        · rw [if_neg hsv, seg_setPrev_prev_ne _ _ _ _ (fun hh => hsv hh.symm)]
          exact seg_setNext_prev st hseg s (some vseg)
      have hstart1 : ∀ s, (st1.seg s).startR = (st.seg s).startR := by
        intro s
        rw [hst1, seg_setConcave, seg_setConcave, seg_setPrev_startR,
          seg_setNext_startR]
      have hend1 : ∀ s, (st1.seg s).endR = (st.seg s).endR := by
        intro s
        rw [hst1, seg_setConcave, seg_setConcave, seg_setPrev_endR,
          seg_setNext_endR]
      have hvseg1 : ∀ v, (st1.vert v).segment = (st.vert v).segment := by
        intro v
        rw [hst1, vert_setConcave_segment, vert_setConcave_segment,
          vert_setPrev, vert_setNext]
      have hlen1 : st1.segs.length = st.segs.length := by
        rw [hst1]
        show ((st.setNext hseg (some vseg)).setPrev vseg (some hseg)).segs.length = _
        rw [segsLength_setPrev, segsLength_setNext]
      have hfresh0 := hfresh (hv, vv) (List.mem_cons_self _ _)
      have hnexth_none : (st.seg hseg).next = none :=
        ((hfresh0 hv (Or.inl rfl) hseg hhs).1) hc2
      have hprevv_none : (st.seg vseg).prev = none :=
        ((hfresh0 vv (Or.inr rfl) vseg hvs).2) hc1
      have hmut1s : ∀ s n, (st1.seg s).next = some n → (st1.seg n).prev = some s := by
        intro s n hsn
        rw [hnext1] at hsn
        by_cases hsh : s = hseg
        · rw [if_pos hsh] at hsn
          injection hsn with hsn
          rw [hprev1, ← hsn, if_pos rfl, hsh]
        · rw [if_neg hsh] at hsn
          have hold := hmut1 s n hsn
          rw [hprev1]
          have hnv : n ≠ vseg := by
            intro hq
            rw [hq, hprevv_none] at hold
            exact Option.noConfusion hold
          rw [if_neg hnv]
          exact hold
      have hmut2s : ∀ s p, (st1.seg s).prev = some p → (st1.seg p).next = some s := by
        intro s p hsp2
        rw [hprev1] at hsp2
        by_cases hsv : s = vseg
        · rw [if_pos hsv] at hsp2
          injection hsp2 with hsp2
          rw [hnext1, ← hsp2, if_pos rfl, hsv]
        · rw [if_neg hsv] at hsp2
          have hold := hmut2 s p hsp2
          rw [hnext1]
          have hph : p ≠ hseg := by
            intro hq
            rw [hq, hnexth_none] at hold
            exact Option.noConfusion hold
          rw [if_neg hph]
          exact hold
      have hfreshs : ∀ q ∈ rest, ∀ v, (v = q.1 ∨ v = q.2) → ∀ s,
          (st1.vert v).segment = some s →
          ((st1.seg s).endR = .vx v → (st1.seg s).next = none) ∧
          ((st1.seg s).startR = .vx v → (st1.seg s).prev = none) := by
        intro q hq v hvq s hown
        rw [hvseg1] at hown
        rw [hend1, hstart1, hnext1, hprev1]
        have hne := hmemv v (hmem_of_pair q hq v hvq)
        have hold := hfresh q (List.mem_cons_of_mem _ hq) v hvq s hown
        constructor
        · intro hev
          by_cases hsh : s = hseg
          · exfalso
            rw [hsh] at hev
            rw [hc2] at hev
            injection hev with hev
            exact hne.1 hev.symm
          · rw [if_neg hsh]
            exact hold.1 hev
        · intro hsv2
          by_cases hsv : s = vseg
          · exfalso
            rw [hsv] at hsv2
            rw [hc1] at hsv2
            injection hsv2 with hsv2
            exact hne.2 hsv2.symm
          · rw [if_neg hsv]
            exact hold.2 hsv2
      have hnds : ∀ s v, (st1.seg s).startR = .vx v → (st1.seg s).endR ≠ .vx v := by
        intro s v hs
        rw [hstart1] at hs
        rw [hend1]
        exact hnd s v hs
      obtain ⟨ihstat, ihvseg, ihlen, ihmut1, ihmut2, ihT⟩ :=
        ih st1 c1 stF cF hok hnodup2 hmut1s hmut2s hfreshs hnds
      refine ⟨?_, ?_, ?_, ihmut1, ihmut2, ?_⟩
      · intro s
        obtain ⟨i1, i2, i3, i4⟩ := ihstat s
        refine ⟨by rw [i1, hstart1], by rw [i2, hend1], ?_, ?_⟩
        · intro hsome
          have hsh : s ≠ hseg := by
            intro hq
            rw [hq, hnexth_none] at hsome
            exact Bool.noConfusion hsome
          have he : (st1.seg s).next = (st.seg s).next := by
            rw [hnext1, if_neg hsh]
          rw [i3 (by rw [he]; exact hsome), he]
        · intro hsome
          have hsv : s ≠ vseg := by
            intro hq
            rw [hq, hprevv_none] at hsome
            exact Bool.noConfusion hsome
          have he : (st1.seg s).prev = (st.seg s).prev := by
            rw [hprev1, if_neg hsv]
          rw [i4 (by rw [he]; exact hsome), he]
      · intro v
        rw [ihvseg, hvseg1]
      · rw [ihlen, hlen1]
      · intro q hq v hvq s hown
        rcases List.mem_cons.mp hq with hq0 | hqr
        · subst hq0
          rcases hvq with hvq | hvq
          · subst hvq
            rw [hhs] at hown
            injection hown with hown
            subst hown
            constructor
            · intro _
              have h1 : (st1.seg hseg).next = some vseg := by
                rw [hnext1, if_pos rfl]
              have h2 := (ihstat hseg).2.2.1 (by rw [h1]; rfl)
              rw [h2, h1]
              rfl
            · intro hsv2
              exact absurd hc2 (hnd hseg v hsv2)
          · subst hvq
            rw [hvs] at hown
            injection hown with hown
            subst hown
            constructor
            · intro hev
              exact absurd hev (hnd vseg v hc1)
            · intro _
              have h1 : (st1.seg vseg).prev = some hseg := by
                rw [hprev1, if_pos rfl]
              have h2 := (ihstat vseg).2.2.2 (by rw [h1]; rfl)
              rw [h2, h1]
              rfl
        · have hT := ihT q hqr v hvq s (by rw [hvseg1]; exact hown)
          rw [hend1, hstart1] at hT
          exact hT

/-! ## C2: freshness of the scanner outputs -/

theorem segCtor_raw (sp ep p q : Point) (s : SegNode)
    (h : segCtor sp ep (.pt p) (.pt q) = .ok s) : rawSeg s := by
  simp only [segCtor] at h
  split at h
  · injection h with h
    exact ⟨⟨p, by rw [← h]⟩, ⟨q, by rw [← h]⟩, by rw [← h], by rw [← h]⟩
  · split at h
    · injection h with h
      exact ⟨⟨p, by rw [← h]⟩, ⟨q, by rw [← h]⟩, by rw [← h], by rw [← h]⟩
    · exact Except.noConfusion h

theorem mkSegment_raw (p q : Point) (s : SegNode)
    (h : mkSegment p q = .ok s) : rawSeg s :=
  segCtor_raw p q p q s h

theorem vTopGo_raw (r : Raster) :
    ∀ (js : List Nat) (ll : Bool) (ss : Nat) (acc : List SegNode)
      (ll2 : Bool) (ss2 : Nat) (acc2 : List SegNode),
    vTopGo r js ll ss acc = .ok (ll2, ss2, acc2) →
    (∀ s ∈ acc, rawSeg s) → ∀ s ∈ acc2, rawSeg s := by
  intro js
  induction js with
  | nil =>
    intro ll ss acc ll2 ss2 acc2 hok hacc
    simp only [vTopGo, Except.ok.injEq, Prod.mk.injEq] at hok
    rw [← hok.2.2]
    exact hacc
  | cons j js ih =>
    intro ll ss acc ll2 ss2 acc2 hok hacc
    simp only [vTopGo] at hok
    split at hok
    · exact ih _ _ _ _ _ _ hok hacc
    · split at hok
      · exact ih _ _ _ _ _ _ hok hacc
      · rcases hmk : mkSegment (0, j) (0, ss) with e | s0
        · rw [hmk] at hok
          simp only [] at hok
          exact Except.noConfusion hok
        · rw [hmk] at hok
          simp only [] at hok
          refine ih _ _ _ _ _ _ hok ?_
          intro s hs
          rcases List.mem_append.mp hs with hs | hs
          · exact hacc s hs
          · rw [List.mem_singleton.mp hs]
            exact mkSegment_raw _ _ _ hmk

theorem vBotGo_raw (r : Raster) :
    ∀ (js : List Nat) (ll : Bool) (ss : Nat) (acc : List SegNode)
      (ll2 : Bool) (ss2 : Nat) (acc2 : List SegNode),
    vBotGo r js ll ss acc = .ok (ll2, ss2, acc2) →
    (∀ s ∈ acc, rawSeg s) → ∀ s ∈ acc2, rawSeg s := by
  intro js
  induction js with
  | nil =>
    intro ll ss acc ll2 ss2 acc2 hok hacc
    simp only [vBotGo, Except.ok.injEq, Prod.mk.injEq] at hok
    rw [← hok.2.2]
    exact hacc
  | cons j js ih =>
    intro ll ss acc ll2 ss2 acc2 hok hacc
    simp only [vBotGo] at hok
    split at hok
    · exact ih _ _ _ _ _ _ hok hacc
    · split at hok
      · exact ih _ _ _ _ _ _ hok hacc
      · rcases hmk : mkSegment (r.m, ss) (r.m, j) with e | s0
        · rw [hmk] at hok
          simp only [] at hok
          exact Except.noConfusion hok
        · rw [hmk] at hok
          simp only [] at hok
          refine ih _ _ _ _ _ _ hok ?_
          intro s hs
          rcases List.mem_append.mp hs with hs | hs
          · exact hacc s hs
          · rw [List.mem_singleton.mp hs]
            exact mkSegment_raw _ _ _ hmk

theorem hTopGo_raw (r : Raster) :
    ∀ (js : List Nat) (ll : Bool) (ss : Nat) (acc : List SegNode)
      (ll2 : Bool) (ss2 : Nat) (acc2 : List SegNode),
    hTopGo r js ll ss acc = .ok (ll2, ss2, acc2) →
    (∀ s ∈ acc, rawSeg s) → ∀ s ∈ acc2, rawSeg s := by
  intro js
  induction js with
  | nil =>
    intro ll ss acc ll2 ss2 acc2 hok hacc
    simp only [hTopGo, Except.ok.injEq, Prod.mk.injEq] at hok
    rw [← hok.2.2]
    exact hacc
  | cons j js ih =>
    intro ll ss acc ll2 ss2 acc2 hok hacc
    simp only [hTopGo] at hok
    split at hok
    · exact ih _ _ _ _ _ _ hok hacc
    · split at hok
      · exact ih _ _ _ _ _ _ hok hacc
      · rcases hmk : mkSegment (ss, 0) (j, 0) with e | s0
        · rw [hmk] at hok
          simp only [] at hok
          exact Except.noConfusion hok
        · rw [hmk] at hok
          simp only [] at hok
          refine ih _ _ _ _ _ _ hok ?_
          intro s hs
          rcases List.mem_append.mp hs with hs | hs
          · exact hacc s hs
          · rw [List.mem_singleton.mp hs]
            exact mkSegment_raw _ _ _ hmk

theorem hBotGo_raw (r : Raster) :
    ∀ (js : List Nat) (ll : Bool) (ss : Nat) (acc : List SegNode)
      (ll2 : Bool) (ss2 : Nat) (acc2 : List SegNode),
    hBotGo r js ll ss acc = .ok (ll2, ss2, acc2) →
    (∀ s ∈ acc, rawSeg s) → ∀ s ∈ acc2, rawSeg s := by
  intro js
  induction js with
  | nil =>
    intro ll ss acc ll2 ss2 acc2 hok hacc
    simp only [hBotGo, Except.ok.injEq, Prod.mk.injEq] at hok
    rw [← hok.2.2]
    exact hacc
  | cons j js ih =>
    intro ll ss acc ll2 ss2 acc2 hok hacc
    simp only [hBotGo] at hok
    split at hok
    · exact ih _ _ _ _ _ _ hok hacc
    · split at hok
      · exact ih _ _ _ _ _ _ hok hacc
      · rcases hmk : mkSegment (j, r.n) (ss, r.n) with e | s0
        · rw [hmk] at hok
          simp only [] at hok
          exact Except.noConfusion hok
        · rw [hmk] at hok
          simp only [] at hok
          refine ih _ _ _ _ _ _ hok ?_
          intro s hs
          rcases List.mem_append.mp hs with hs | hs
          · exact hacc s hs
          · rw [List.mem_singleton.mp hs]
            exact mkSegment_raw _ _ _ hmk

theorem vCenterGo_raw (r : Raster) (i : Nat) :
    ∀ (js : List Nat) (ll lu : Bool) (ss : Nat) (acc : List SegNode)
      (ll2 lu2 : Bool) (ss2 : Nat) (acc2 : List SegNode),
    vCenterGo r i js ll lu ss acc = .ok (ll2, lu2, ss2, acc2) →
    (∀ s ∈ acc, rawSeg s) → ∀ s ∈ acc2, rawSeg s := by
  intro js
  induction js with
  | nil =>
    intro ll lu ss acc ll2 lu2 ss2 acc2 hok hacc
    simp only [vCenterGo, Except.ok.injEq, Prod.mk.injEq] at hok
    rw [← hok.2.2.2]
    exact hacc
  | cons j js ih =>
    intro ll lu ss acc ll2 lu2 ss2 acc2 hok hacc
    simp only [vCenterGo] at hok
    split at hok
    · exact ih _ _ _ _ _ _ _ _ hok hacc
    · split at hok
      · split at hok
        · rcases hmk : mkSegment (i, j) (i, ss) with e | s0
          · rw [hmk] at hok
            simp only [] at hok
            exact Except.noConfusion hok
          · rw [hmk] at hok
            simp only [] at hok
            refine ih _ _ _ _ _ _ _ _ hok ?_
            intro s hs
            rcases List.mem_append.mp hs with hs | hs
            · exact hacc s hs
            · rw [List.mem_singleton.mp hs]
              exact mkSegment_raw _ _ _ hmk
        · rcases hmk : mkSegment (i, ss) (i, j) with e | s0
          · rw [hmk] at hok
            simp only [] at hok
            exact Except.noConfusion hok
          · rw [hmk] at hok
            simp only [] at hok
            refine ih _ _ _ _ _ _ _ _ hok ?_
            intro s hs
            rcases List.mem_append.mp hs with hs | hs
            · exact hacc s hs
            · rw [List.mem_singleton.mp hs]
              exact mkSegment_raw _ _ _ hmk
      · exact ih _ _ _ _ _ _ _ _ hok hacc

theorem hCenterGo_raw (r : Raster) (i : Nat) :
    ∀ (js : List Nat) (ll lu : Bool) (ss : Nat) (acc : List SegNode)
      (ll2 lu2 : Bool) (ss2 : Nat) (acc2 : List SegNode),
    hCenterGo r i js ll lu ss acc = .ok (ll2, lu2, ss2, acc2) →
    (∀ s ∈ acc, rawSeg s) → ∀ s ∈ acc2, rawSeg s := by
  intro js
  induction js with
  | nil =>
    intro ll lu ss acc ll2 lu2 ss2 acc2 hok hacc
    simp only [hCenterGo, Except.ok.injEq, Prod.mk.injEq] at hok
    rw [← hok.2.2.2]
    exact hacc
  | cons j js ih =>
    intro ll lu ss acc ll2 lu2 ss2 acc2 hok hacc
    simp only [hCenterGo] at hok
    split at hok
    · exact ih _ _ _ _ _ _ _ _ hok hacc
    · split at hok
      · split at hok
        · rcases hmk : mkSegment (ss, i) (j, i) with e | s0
          · rw [hmk] at hok
            simp only [] at hok
            exact Except.noConfusion hok
          · rw [hmk] at hok
            simp only [] at hok
            refine ih _ _ _ _ _ _ _ _ hok ?_
            intro s hs
            rcases List.mem_append.mp hs with hs | hs
            · exact hacc s hs
            · rw [List.mem_singleton.mp hs]
              exact mkSegment_raw _ _ _ hmk
        · rcases hmk : mkSegment (j, i) (ss, i) with e | s0
          · rw [hmk] at hok
            simp only [] at hok
            exact Except.noConfusion hok
          · rw [hmk] at hok
            simp only [] at hok
            refine ih _ _ _ _ _ _ _ _ hok ?_
            intro s hs
            rcases List.mem_append.mp hs with hs | hs
            · exact hacc s hs
            · rw [List.mem_singleton.mp hs]
              exact mkSegment_raw _ _ _ hmk
      · exact ih _ _ _ _ _ _ _ _ hok hacc

theorem vTop_raw (r : Raster) (ss : Nat) (acc : List SegNode)
    (h : vTop r = .ok (ss, acc)) : ∀ s ∈ acc, rawSeg s := by
  simp only [vTop] at h
  rcases hgo : vTopGo r (List.range r.n) false 0 [] with e | p0
  · rw [hgo] at h
    exact Except.noConfusion h
  · rcases p0 with ⟨ll, ss0, acc0⟩
    rw [hgo] at h
    simp only [] at h
    have hraw0 : ∀ s ∈ acc0, rawSeg s :=
      vTopGo_raw r _ _ _ _ _ _ _ hgo (fun s hs => absurd hs (List.not_mem_nil s))
    split at h
    · rcases hmk : mkSegment (0, r.n) (0, ss0) with e | s0
      · rw [hmk] at h
        simp only [] at h
        exact Except.noConfusion h
      · rw [hmk] at h
        simp only [Except.ok.injEq, Prod.mk.injEq] at h
        rw [← h.2]
        intro s hs
        rcases List.mem_append.mp hs with hs | hs
        · exact hraw0 s hs
        · rw [List.mem_singleton.mp hs]
          exact mkSegment_raw _ _ _ hmk
    · simp only [Except.ok.injEq, Prod.mk.injEq] at h
      rw [← h.2]
      exact hraw0

theorem vCenterWall_raw (r : Raster) (i ss : Nat) (acc : List SegNode)
    (ss2 : Nat) (acc2 : List SegNode)
    (h : vCenterWall r i ss acc = .ok (ss2, acc2))
    (hacc : ∀ s ∈ acc, rawSeg s) : ∀ s ∈ acc2, rawSeg s := by
  simp only [vCenterWall] at h
  rcases hgo : vCenterGo r i (List.range r.n) false false ss acc with e | p0
  · rw [hgo] at h
    exact Except.noConfusion h
  · rcases p0 with ⟨ll, lu, ss0, acc0⟩
    rw [hgo] at h
    simp only [] at h
    have hraw0 : ∀ s ∈ acc0, rawSeg s :=
      vCenterGo_raw r i _ _ _ _ _ _ _ _ _ hgo hacc
    split at h
    · split at h
      · rcases hmk : mkSegment (i, r.n) (i, ss0) with e | s0
        · rw [hmk] at h
          simp only [] at h
          exact Except.noConfusion h
        · rw [hmk] at h
          simp only [Except.ok.injEq, Prod.mk.injEq] at h
          rw [← h.2]
          intro s hs
          rcases List.mem_append.mp hs with hs | hs
          · exact hraw0 s hs
          · rw [List.mem_singleton.mp hs]
            exact mkSegment_raw _ _ _ hmk
      · rcases hmk : mkSegment (i, ss0) (i, r.n) with e | s0
        · rw [hmk] at h
          simp only [] at h
          exact Except.noConfusion h
        · rw [hmk] at h
          simp only [Except.ok.injEq, Prod.mk.injEq] at h
          rw [← h.2]
          intro s hs
          rcases List.mem_append.mp hs with hs | hs
          · exact hraw0 s hs
          · rw [List.mem_singleton.mp hs]
            exact mkSegment_raw _ _ _ hmk
    · simp only [Except.ok.injEq, Prod.mk.injEq] at h
      rw [← h.2]
      exact hraw0

theorem vCenterLoop_raw (r : Raster) :
    ∀ (is : List Nat) (ss : Nat) (acc : List SegNode) (ss2 : Nat)
      (acc2 : List SegNode),
    vCenterLoop r is ss acc = .ok (ss2, acc2) →
    (∀ s ∈ acc, rawSeg s) → ∀ s ∈ acc2, rawSeg s := by
  intro is
  induction is with
  | nil =>
    intro ss acc ss2 acc2 hok hacc
    simp only [vCenterLoop, Except.ok.injEq, Prod.mk.injEq] at hok
    rw [← hok.2]
    exact hacc
  | cons i is ih =>
    intro ss acc ss2 acc2 hok hacc
    simp only [vCenterLoop] at hok
    rcases hw : vCenterWall r i ss acc with e | p0
    · rw [hw] at hok
      exact Except.noConfusion hok
    · rcases p0 with ⟨ss0, acc0⟩
      rw [hw] at hok
      simp only [] at hok
      exact ih _ _ _ _ hok (vCenterWall_raw r i ss acc ss0 acc0 hw hacc)

theorem vBot_raw (r : Raster) (ss : Nat) (acc acc2 : List SegNode)
    (h : vBot r ss acc = .ok acc2)
    (hacc : ∀ s ∈ acc, rawSeg s) : ∀ s ∈ acc2, rawSeg s := by
  simp only [vBot] at h
  rcases hgo : vBotGo r (List.range r.n) false ss acc with e | p0
  · rw [hgo] at h
    exact Except.noConfusion h
  · rcases p0 with ⟨lu, ss0, acc0⟩
    rw [hgo] at h
    simp only [] at h
    have hraw0 : ∀ s ∈ acc0, rawSeg s :=
      vBotGo_raw r _ _ _ _ _ _ _ hgo hacc
    split at h
    · rcases hmk : mkSegment (r.m, ss0) (r.m, r.n) with e | s0
      · rw [hmk] at h
        simp only [] at h
        exact Except.noConfusion h
      · rw [hmk] at h
        simp only [Except.ok.injEq] at h
        rw [← h]
        intro s hs
        rcases List.mem_append.mp hs with hs | hs
        · exact hraw0 s hs
        · rw [List.mem_singleton.mp hs]
          exact mkSegment_raw _ _ _ hmk
    · simp only [Except.ok.injEq] at h
      rw [← h]
      exact hraw0

theorem scanForVSegments_raw (r : Raster) (segs : List SegNode)
    (h : scanForVSegments r = .ok segs) : ∀ s ∈ segs, rawSeg s := by
  simp only [scanForVSegments] at h
  rcases ht : vTop r with e | p0
  · rw [ht] at h
    exact Except.noConfusion h
  · rcases p0 with ⟨ss, acc⟩
    rw [ht] at h
    simp only [] at h
    rcases hl : vCenterLoop r (List.range' 1 (r.m - 1)) ss acc with e | p1
    · rw [hl] at h
      exact Except.noConfusion h
    · rcases p1 with ⟨ss2, acc2⟩
      rw [hl] at h
      simp only [] at h
      exact vBot_raw r ss2 acc2 segs h
        (vCenterLoop_raw r _ _ _ _ _ hl (vTop_raw r ss acc ht))

theorem hTop_raw (r : Raster) (ss : Nat) (acc : List SegNode)
    (h : hTop r = .ok (ss, acc)) : ∀ s ∈ acc, rawSeg s := by
  simp only [hTop] at h
  rcases hgo : hTopGo r (List.range r.m) false 0 [] with e | p0
  · rw [hgo] at h
    exact Except.noConfusion h
  · rcases p0 with ⟨ll, ss0, acc0⟩
    rw [hgo] at h
    simp only [] at h
    have hraw0 : ∀ s ∈ acc0, rawSeg s :=
      hTopGo_raw r _ _ _ _ _ _ _ hgo (fun s hs => absurd hs (List.not_mem_nil s))
    split at h
    · rcases hmk : mkSegment (ss0, 0) (r.m, 0) with e | s0
      · rw [hmk] at h
        simp only [] at h
        exact Except.noConfusion h
      · rw [hmk] at h
        simp only [Except.ok.injEq, Prod.mk.injEq] at h
        rw [← h.2]
        intro s hs
        rcases List.mem_append.mp hs with hs | hs
        · exact hraw0 s hs
        · rw [List.mem_singleton.mp hs]
          exact mkSegment_raw _ _ _ hmk
    · simp only [Except.ok.injEq, Prod.mk.injEq] at h
      rw [← h.2]
      exact hraw0

theorem hCenterWall_raw (r : Raster) (i ss : Nat) (acc : List SegNode)
    (ss2 : Nat) (acc2 : List SegNode)
    (h : hCenterWall r i ss acc = .ok (ss2, acc2))
    (hacc : ∀ s ∈ acc, rawSeg s) : ∀ s ∈ acc2, rawSeg s := by
  simp only [hCenterWall] at h
  rcases hgo : hCenterGo r i (List.range r.m) false false ss acc with e | p0
  · rw [hgo] at h
    exact Except.noConfusion h
  · rcases p0 with ⟨ll, lu, ss0, acc0⟩
    rw [hgo] at h
    simp only [] at h
    have hraw0 : ∀ s ∈ acc0, rawSeg s :=
      hCenterGo_raw r i _ _ _ _ _ _ _ _ _ hgo hacc
    split at h
    · split at h
      · rcases hmk : mkSegment (ss0, i) (r.m, i) with e | s0
        · rw [hmk] at h
          simp only [] at h
          exact Except.noConfusion h
        · rw [hmk] at h
          simp only [Except.ok.injEq, Prod.mk.injEq] at h
          rw [← h.2]
          intro s hs
          rcases List.mem_append.mp hs with hs | hs
          · exact hraw0 s hs
          · rw [List.mem_singleton.mp hs]
            exact mkSegment_raw _ _ _ hmk
      · rcases hmk : mkSegment (r.m, i) (ss0, i) with e | s0
        · rw [hmk] at h
          simp only [] at h
          exact Except.noConfusion h
        · rw [hmk] at h
          simp only [Except.ok.injEq, Prod.mk.injEq] at h
          rw [← h.2]
          intro s hs
          rcases List.mem_append.mp hs with hs | hs
          · exact hraw0 s hs
          · rw [List.mem_singleton.mp hs]
            exact mkSegment_raw _ _ _ hmk
    · simp only [Except.ok.injEq, Prod.mk.injEq] at h
      rw [← h.2]
      exact hraw0

theorem hCenterLoop_raw (r : Raster) :
    ∀ (is : List Nat) (ss : Nat) (acc : List SegNode) (ss2 : Nat)
      (acc2 : List SegNode),
    hCenterLoop r is ss acc = .ok (ss2, acc2) →
    (∀ s ∈ acc, rawSeg s) → ∀ s ∈ acc2, rawSeg s := by
  intro is
  induction is with
  | nil =>
    intro ss acc ss2 acc2 hok hacc
    simp only [hCenterLoop, Except.ok.injEq, Prod.mk.injEq] at hok
    rw [← hok.2]
    exact hacc
  | cons i is ih =>
    intro ss acc ss2 acc2 hok hacc
    simp only [hCenterLoop] at hok
    rcases hw : hCenterWall r i ss acc with e | p0
    · rw [hw] at hok
      exact Except.noConfusion hok
    · rcases p0 with ⟨ss0, acc0⟩
      rw [hw] at hok
      simp only [] at hok
      exact ih _ _ _ _ hok (hCenterWall_raw r i ss acc ss0 acc0 hw hacc)

theorem hBot_raw (r : Raster) (ss : Nat) (acc acc2 : List SegNode)
    (h : hBot r ss acc = .ok acc2)
    (hacc : ∀ s ∈ acc, rawSeg s) : ∀ s ∈ acc2, rawSeg s := by
  simp only [hBot] at h
  rcases hgo : hBotGo r (List.range r.m) false ss acc with e | p0
  · rw [hgo] at h
    exact Except.noConfusion h
  · rcases p0 with ⟨lu, ss0, acc0⟩
    rw [hgo] at h
    simp only [] at h
    have hraw0 : ∀ s ∈ acc0, rawSeg s :=
      hBotGo_raw r _ _ _ _ _ _ _ hgo hacc
    split at h
    · rcases hmk : mkSegment (r.m, r.n) (ss0, r.n) with e | s0
      · rw [hmk] at h
        simp only [] at h
        exact Except.noConfusion h
      · rw [hmk] at h
        simp only [Except.ok.injEq] at h
        rw [← h]
        intro s hs
        rcases List.mem_append.mp hs with hs | hs
        · exact hraw0 s hs
        · rw [List.mem_singleton.mp hs]
          exact mkSegment_raw _ _ _ hmk
    · simp only [Except.ok.injEq] at h
      rw [← h]
      exact hraw0

theorem scanForHSegments_raw (r : Raster) (segs : List SegNode)
    (h : scanForHSegments r = .ok segs) : ∀ s ∈ segs, rawSeg s := by
  simp only [scanForHSegments] at h
  rcases ht : hTop r with e | p0
  · rw [ht] at h
    exact Except.noConfusion h
  · rcases p0 with ⟨ss, acc⟩
    rw [ht] at h
    simp only [] at h
    rcases hl : hCenterLoop r (List.range' 1 (r.n - 1)) ss acc with e | p1
    · rw [hl] at h
      exact Except.noConfusion h
    · rcases p1 with ⟨ss2, acc2⟩
      rw [hl] at h
      simp only [] at h
      exact hBot_raw r ss2 acc2 segs h
        (hCenterLoop_raw r _ _ _ _ _ hl (hTop_raw r ss acc ht))

/-! ## C2: the doubly-linked invariant and loop closure -/

theorem seg_lt_of_next_some (st : GState) (i n : Nat)
    (h : (st.seg i).next = some n) : i < st.segs.length := by
  by_contra hge
  have hd : st.seg i = dummySeg := by
    simp only [GState.seg]
    exact List.getD_eq_default _ _ (by omega)
  rw [hd] at h
  exact Option.noConfusion h

theorem seg_lt_of_prev_some (st : GState) (i p : Nat)
    (h : (st.seg i).prev = some p) : i < st.segs.length := by
  by_contra hge
  have hd : st.seg i = dummySeg := by
    simp only [GState.seg]
    exact List.getD_eq_default _ _ (by omega)
  rw [hd] at h
  exact Option.noConfusion h

theorem linkedAtB_iff (st : GState) (s : Nat) :
    linkedAtB st s = true ↔
      ((∃ n, (st.seg s).next = some n ∧ (st.seg n).prev = some s) ∧
       (∃ p, (st.seg s).prev = some p ∧ (st.seg p).next = some s)) := by
  unfold linkedAtB
  rcases hn : (st.seg s).next with _ | n
  · simp only []
    constructor
    · intro hq
      exact Bool.noConfusion hq
    · intro hq
      obtain ⟨n, hn2, _⟩ := hq.1
      exact Option.noConfusion hn2
  · rcases hp : (st.seg s).prev with _ | p
    · simp only []
      constructor
      · intro hq
        exact Bool.noConfusion hq
      · intro hq
        obtain ⟨p, hp2, _⟩ := hq.2
        exact Option.noConfusion hp2
    · simp only [Bool.and_eq_true, decide_eq_true_eq]
      constructor
      · intro hq
        exact ⟨⟨n, rfl, hq.1⟩, ⟨p, rfl, hq.2⟩⟩
      · intro hq
        obtain ⟨⟨n2, hn2, hq1⟩, ⟨p2, hp2, hq2⟩⟩ := hq
        injection hn2 with hn2
        injection hp2 with hp2
        exact ⟨hn2 ▸ hq1, hp2 ▸ hq2⟩

theorem nextIter_add (st : GState) :
    ∀ (b a : Nat) (s : Nat),
    nextIter st (a + b) s = nextIter st a (nextIter st b s) := by
  intro b
  induction b with
  | zero => intro a s; rfl
  | succ b ih =>
    intro a s
    show nextIter st (a + b + 1) s = _
    show nextIter st (a + b) ((st.seg s).next.getD 0) = _
    rw [ih a ((st.seg s).next.getD 0)]
    rfl

/-- From mutually consistent links, iterating `next` returns to the start
within `segs.length` steps (injectivity of the successor map plus the
pigeonhole principle). -/
theorem loop_return (st : GState) (P : Nat → Prop)
    (h : ∀ s, P s → ∃ n, (st.seg s).next = some n ∧ (st.seg n).prev = some s ∧
      P n ∧ n < st.segs.length) :
    ∀ s, P s → s < st.segs.length →
      ∃ k, 0 < k ∧ k ≤ st.segs.length ∧ nextIter st k s = s := by
  intro s hP hs
  set L := st.segs.length with hL
  have hstepP : ∀ t, P t → P ((st.seg t).next.getD 0) ∧
      (st.seg t).next.getD 0 < L := by
    intro t ht
    obtain ⟨n, hn, _, hPn, hnlt⟩ := h t ht
    rw [hn]
    exact ⟨hPn, hnlt⟩
  have hiter : ∀ k t, P t → t < L → P (nextIter st k t) ∧ nextIter st k t < L := by
    intro k
    induction k with
    | zero => intro t ht htl; exact ⟨ht, htl⟩
    | succ k ih =>
      intro t ht htl
      obtain ⟨hP2, hl2⟩ := hstepP t ht
      exact ih _ hP2 hl2
  have hinj : ∀ t1 t2, P t1 → P t2 →
      (st.seg t1).next.getD 0 = (st.seg t2).next.getD 0 → t1 = t2 := by
    intro t1 t2 h1 h2 he
    obtain ⟨n1, hn1, hp1, _, _⟩ := h t1 h1
    obtain ⟨n2, hn2, hp2, _, _⟩ := h t2 h2
    have hee : n1 = n2 := by
      rw [hn1, hn2] at he
      simpa using he
    subst hee
    rw [hp1] at hp2
    injection hp2
  have hcancel : ∀ d t1 t2, P t1 → P t2 → t1 < L → t2 < L →
      nextIter st d t1 = nextIter st d t2 → t1 = t2 := by
    intro d
    induction d with
    | zero => intro t1 t2 _ _ _ _ he; exact he
    | succ d ih =>
      intro t1 t2 h1 h2 hl1 hl2 he
      obtain ⟨hP1, hq1⟩ := hstepP t1 h1
      obtain ⟨hP2, hq2⟩ := hstepP t2 h2
      have := ih _ _ hP1 hP2 hq1 hq2 he
      exact hinj t1 t2 h1 h2 this
  have hmaps : ∀ i ∈ Finset.range (L + 1), nextIter st i s ∈ Finset.range L := by
    intro i _
    exact Finset.mem_range.mpr (hiter i s hP hs).2
  have hcard : (Finset.range L).card < (Finset.range (L + 1)).card := by
    simp only [Finset.card_range]
    omega
  obtain ⟨i, hi, j, hj, hij, hgij⟩ :=
    Finset.exists_ne_map_eq_of_card_lt_of_maps_to hcard hmaps
  have hmain : ∀ a b : Nat, a < b → b < L + 1 →
      nextIter st a s = nextIter st b s →
      ∃ k, 0 < k ∧ k ≤ L ∧ nextIter st k s = s := by
    intro a b hab hbL he
    have hb : b = a + (b - a) := by omega
    rw [hb, nextIter_add] at he
    have hPd := hiter (b - a) s hP hs
    have := hcancel a s (nextIter st (b - a) s) hP hPd.1 hs hPd.2 he
    exact ⟨b - a, by omega, by omega, this.symm⟩
  rcases Nat.lt_or_ge i j with hlt | hge
  · exact hmain i j hlt (Finset.mem_range.mp hj) hgij
  · have hlt : j < i := by
      rcases Nat.lt_or_ge j i with hq | hq
      · exact hq
      · exact absurd (by omega : i = j) hij
    exact hmain j i hlt (Finset.mem_range.mp hi) hgij.symm

/-- `linked` implies loop closure for every segment. -/
theorem linked_loop (st : GState) (hlk : linked st) :
    ∀ s, s < st.segs.length →
      ∃ k, 0 < k ∧ k ≤ st.segs.length ∧ nextIter st k s = s := by
  intro s hs
  refine loop_return st (fun t => t < st.segs.length) ?_ s hs hs
  intro t ht
  obtain ⟨⟨n, hn, hpn⟩, _⟩ := (linkedAtB_iff st t).mp (hlk t ht)
  exact ⟨n, hn, hpn, seg_lt_of_prev_some st n t hpn,
    seg_lt_of_prev_some st n t hpn⟩

theorem segCtor_links (sp ep : Point) (r1 r2 : Ref) (s : SegNode)
    (h : segCtor sp ep r1 r2 = .ok s) : s.next = none ∧ s.prev = none := by
  simp only [segCtor] at h
  split at h
  · injection h with h
    exact ⟨by rw [← h], by rw [← h]⟩
  · split at h
    · injection h with h
      exact ⟨by rw [← h], by rw [← h]⟩
    · exact Except.noConfusion h

theorem newVertex_out_frame (st : GState) (si : Nat) (p : Point) (d : VDir) :
    (∀ j, ((newVertex st (some si) p .outgoing d).1.seg j).next = (st.seg j).next ∧
          ((newVertex st (some si) p .outgoing d).1.seg j).prev = (st.seg j).prev) ∧
    (newVertex st (some si) p .outgoing d).1.segs.length = st.segs.length := by
  simp only [newVertex]
  constructor
  · intro j
    rw [seg_setSeg]
    split
    · rename_i hc
      rcases hc with ⟨hij, _⟩
      subst hij
      exact ⟨rfl, rfl⟩
    · exact ⟨rfl, rfl⟩
  · simp [GState.setSeg]

theorem splitSegment_state (st0 : GState) (segIdx va vb sa sb spa spb : Nat)
    (hsegs vsegs : List Nat) (stF : GState) (hs2 vs2 : List Nat)
    (hsR : (st0.seg segIdx).startR = .vx va)
    (heR : (st0.seg segIdx).endR = .vx vb)
    (hva : (st0.vert va).segment = some sa)
    (hvb : (st0.vert vb).segment = some sb)
    (hpa : (st0.seg sa).prev = some spa)
    (hpb : (st0.seg sb).prev = some spb)
    (hok : splitSegment st0 segIdx hsegs vsegs = .ok (stF, hs2, vs2)) :
    ∃ sbaRec vd,
      segCtor (st0.vert vb).pos (st0.vert va).pos (.vx vb) (.vx va) = .ok sbaRec ∧
      stF =
        (let st1 : GState := { st0 with segs := st0.segs ++ [sbaRec] }
         let st9 := ((((((((st1.setNext spa (some segIdx)).setPrev segIdx
           (some spa)).setNext segIdx (some sb)).setPrev sb
           (some segIdx)).setNext spb (some st0.segs.length)).setPrev
           st0.segs.length (some spb)).setNext st0.segs.length
           (some sa)).setPrev sa (some st0.segs.length))
         let a1 := newVertex st9 (some segIdx) (st9.vert va).pos .outgoing vd
         let a2 := newVertex a1.1 (some st0.segs.length) (a1.1.vert vb).pos
           .outgoing vd.flip
         (((a2.1.setConcave a1.2 (some false)).setConcave a2.2
           (some false)).setConcave va (some false)).setConcave vb
           (some false)) := by
  simp only [splitSegment, hsR, heR, refVx] at hok
  simp only [hva, hvb] at hok
  by_cases hg : sa ≠ segIdx ∧ sb ≠ segIdx
  · rw [if_pos hg] at hok
    simp only [hpa, hpb] at hok
    rcases hctor : segCtor (st0.vert vb).pos (st0.vert va).pos (.vx vb) (.vx va)
      with e | sbaRec
    · rw [hctor] at hok
      exact Except.noConfusion hok
    · rw [hctor] at hok
      simp only [] at hok
      split at hok
      · exact Except.noConfusion hok
      · rename_i vd hdir
        split at hok
        · split at hok
          · injection hok with hok
            injection hok with h1 h2
            exact ⟨sbaRec, vd, rfl, h1.symm⟩
          · injection hok with hok
            injection hok with h1 h2
            exact ⟨sbaRec, vd, rfl, h1.symm⟩
        · exact Except.noConfusion hok
  · rw [if_neg hg] at hok
    exact Except.noConfusion hok

theorem splitSegment_linked (st0 : GState) (segIdx va vb sa sb spa spb : Nat)
    (hsegs vsegs : List Nat) (stF : GState) (hs2 vs2 : List Nat)
    (X : Nat → Prop)
    (hsR : (st0.seg segIdx).startR = .vx va)
    (heR : (st0.seg segIdx).endR = .vx vb)
    (hva : (st0.vert va).segment = some sa)
    (hvb : (st0.vert vb).segment = some sb)
    (hpa : (st0.seg sa).prev = some spa)
    (hpb : (st0.seg sb).prev = some spb)
    (hinv : ∀ s, s < st0.segs.length →
      (X s → (st0.seg s).next = none ∧ (st0.seg s).prev = none) ∧
      (¬ X s → linkedAtB st0 s = true))
    (hXc : X segIdx)
    (hnd : List.Nodup [segIdx, sa, sb, spa, spb])
    (hok : splitSegment st0 segIdx hsegs vsegs = .ok (stF, hs2, vs2)) :
    stF.segs.length = st0.segs.length + 1 ∧
    ∀ s, s < stF.segs.length →
      ((X s ∧ s ≠ segIdx ∧ s ≠ st0.segs.length) →
        (stF.seg s).next = none ∧ (stF.seg s).prev = none) ∧
      (¬(X s ∧ s ≠ segIdx ∧ s ≠ st0.segs.length) → linkedAtB stF s = true) := by
  obtain ⟨sbaRec, vd, hctor, hstF⟩ :=
    splitSegment_state st0 segIdx va vb sa sb spa spb hsegs vsegs stF hs2 vs2
      hsR heR hva hvb hpa hpb hok
  set L := st0.segs.length with hL
  simp only [] at hstF
  -- distinctness of the five indices
  rw [List.nodup_cons] at hnd
  obtain ⟨hm1, hnd⟩ := hnd
  rw [List.nodup_cons] at hnd
  obtain ⟨hm2, hnd⟩ := hnd
  rw [List.nodup_cons] at hnd
  obtain ⟨hm3, hnd⟩ := hnd
  rw [List.nodup_cons] at hnd
  obtain ⟨hm4, _⟩ := hnd
  simp only [List.mem_cons, List.mem_singleton, not_or] at hm1 hm2 hm3
  have q_ca : segIdx ≠ sa := hm1.1
  have q_cb : segIdx ≠ sb := hm1.2.1
  have q_cpa : segIdx ≠ spa := hm1.2.2.1
  have q_cpb : segIdx ≠ spb := hm1.2.2.2.1
  have q_ab : sa ≠ sb := hm2.1
  have q_apa : sa ≠ spa := hm2.2.1
  have q_apb : sa ≠ spb := hm2.2.2.1
  have q_bpa : sb ≠ spa := hm3.1
  have q_bpb : sb ≠ spb := hm3.2.1
  have q_papb : spa ≠ spb := by simpa using hm4
  -- in-range facts and old-state link facts
  have hseglt : segIdx < L := seg_lt_of_startR_vx st0 segIdx va hsR
  have hsalt : sa < L := seg_lt_of_prev_some st0 sa spa hpa
  have hsblt : sb < L := seg_lt_of_prev_some st0 sb spb hpb
  have hchn : (st0.seg segIdx).next = none := ((hinv segIdx hseglt).1 hXc).1
  have hchp : (st0.seg segIdx).prev = none := ((hinv segIdx hseglt).1 hXc).2
  have hXsa : ¬ X sa := by
    intro hX
    have := ((hinv sa hsalt).1 hX).2
    rw [hpa] at this
    exact Option.noConfusion this
  have hXsb : ¬ X sb := by
    intro hX
    have := ((hinv sb hsblt).1 hX).2
    rw [hpb] at this
    exact Option.noConfusion this
  obtain ⟨⟨na, hna, hpna⟩, ⟨pa, hpa2, hnpa⟩⟩ :=
    (linkedAtB_iff st0 sa).mp ((hinv sa hsalt).2 hXsa)
  obtain ⟨⟨nb, hnb, hpnb⟩, ⟨pb, hpb2, hnpb⟩⟩ :=
    (linkedAtB_iff st0 sb).mp ((hinv sb hsblt).2 hXsb)
  have hpaeq : spa = pa := by
    rw [hpa] at hpa2
    injection hpa2 with h
  subst hpaeq
  have hpbeq : spb = pb := by
    rw [hpb] at hpb2
    injection hpb2 with h
  subst hpbeq
  have hspalt : spa < L := seg_lt_of_next_some st0 spa sa hnpa
  have hspblt : spb < L := seg_lt_of_next_some st0 spb sb hnpb
  have hXspa : ¬ X spa := by
    intro hX
    have := ((hinv spa hspalt).1 hX).1
    rw [hnpa] at this
    exact Option.noConfusion this
  have hXspb : ¬ X spb := by
    intro hX
    have := ((hinv spb hspblt).1 hX).1
    rw [hnpb] at this
    exact Option.noConfusion this
  obtain ⟨_, ⟨ppa, hppa, hnppa⟩⟩ :=
    (linkedAtB_iff st0 spa).mp ((hinv spa hspalt).2 hXspa)
  obtain ⟨_, ⟨ppb, hppb, hnppb⟩⟩ :=
    (linkedAtB_iff st0 spb).mp ((hinv spb hspblt).2 hXspb)
  obtain ⟨hrnone, hrpnone⟩ := segCtor_links _ _ _ _ _ hctor
  have q_cL : segIdx ≠ L := Nat.ne_of_lt hseglt
  have q_aL : sa ≠ L := Nat.ne_of_lt hsalt
  have q_bL : sb ≠ L := Nat.ne_of_lt hsblt
  have q_paL : spa ≠ L := Nat.ne_of_lt hspalt
  have q_pbL : spb ≠ L := Nat.ne_of_lt hspblt
  -- the appended state
  have hst1lt : ∀ j, j < L →
      (({ st0 with segs := st0.segs ++ [sbaRec] } : GState)).seg j = st0.seg j := by
    intro j hj
    simp only [GState.seg]
    rw [getD_append_lt _ _ _ _ hj]
  have hst1L :
      (({ st0 with segs := st0.segs ++ [sbaRec] } : GState)).seg L = sbaRec := by
    simp only [GState.seg]
    rw [getD_append_right _ _ _ _ (le_refl _)]
    simp
  have hst1next0 : ∀ j, j ≠ L →
      ((({ st0 with segs := st0.segs ++ [sbaRec] } : GState)).seg j).next =
        (st0.seg j).next := by
    intro j hj
    rcases Nat.lt_or_ge j L with hlt | hge
    · rw [hst1lt j hlt]
    · have e1 : (({ st0 with segs := st0.segs ++ [sbaRec] } : GState)).seg j =
          dummySeg := by
        simp only [GState.seg]
        apply List.getD_eq_default
        simp only [List.length_append, List.length_cons, List.length_nil]
        omega
      have e0 : st0.seg j = dummySeg := by
        simp only [GState.seg]
        exact List.getD_eq_default _ _ (by omega)
      rw [e1, e0]
  have hst1prev0 : ∀ j, j ≠ L →
      ((({ st0 with segs := st0.segs ++ [sbaRec] } : GState)).seg j).prev =
        (st0.seg j).prev := by
    intro j hj
    rcases Nat.lt_or_ge j L with hlt | hge
    · rw [hst1lt j hlt]
    · have e1 : (({ st0 with segs := st0.segs ++ [sbaRec] } : GState)).seg j =
          dummySeg := by
        simp only [GState.seg]
        apply List.getD_eq_default
        simp only [List.length_append, List.length_cons, List.length_nil]
        omega
      have e0 : st0.seg j = dummySeg := by
        simp only [GState.seg]
        exact List.getD_eq_default _ _ (by omega)
      rw [e1, e0]
  have hst1len :
      (({ st0 with segs := st0.segs ++ [sbaRec] } : GState)).segs.length =
        L + 1 := by
    simp
  -- reduce stF to the nine-setter chain
  have hstFnext : ∀ j, (stF.seg j).next = (((((((((((({ st0 with segs := st0.segs ++ [sbaRec] } : GState)).setNext spa (some segIdx)).setPrev segIdx (some spa)).setNext segIdx (some sb)).setPrev sb (some segIdx)).setNext spb (some L)).setPrev L (some spb)).setNext L (some sa)).setPrev sa (some L)).seg j).next) := by
    intro j
    rw [hstF]
    rw [seg_setConcave, seg_setConcave, seg_setConcave, seg_setConcave]
    rw [((newVertex_out_frame _ _ _ _).1 j).1, ((newVertex_out_frame _ _ _ _).1 j).1]
  have hstFprev : ∀ j, (stF.seg j).prev = (((((((((((({ st0 with segs := st0.segs ++ [sbaRec] } : GState)).setNext spa (some segIdx)).setPrev segIdx (some spa)).setNext segIdx (some sb)).setPrev sb (some segIdx)).setNext spb (some L)).setPrev L (some spb)).setNext L (some sa)).setPrev sa (some L)).seg j).prev) := by
    intro j
    rw [hstF]
    rw [seg_setConcave, seg_setConcave, seg_setConcave, seg_setConcave]
    rw [((newVertex_out_frame _ _ _ _).1 j).2, ((newVertex_out_frame _ _ _ _).1 j).2]
  have hstFlen : stF.segs.length = L + 1 := by
    have h9 : (((((((((({ st0 with segs := st0.segs ++ [sbaRec] } : GState)).setNext spa (some segIdx)).setPrev segIdx (some spa)).setNext segIdx (some sb)).setPrev sb (some segIdx)).setNext spb (some L)).setPrev L (some spb)).setNext L (some sa)).setPrev sa (some L)).segs.length = L + 1 := by
      simp only [segsLength_setPrev, segsLength_setNext, hst1len]
    have hsc : ∀ (st : GState) (i : Nat) (b : Option Bool),
        (st.setConcave i b).segs = st.segs := fun _ _ _ => rfl
    rw [hstF, hsc, hsc, hsc, hsc, (newVertex_out_frame _ _ _ _).2,
      (newVertex_out_frame _ _ _ _).2]
    exact h9
  -- the next/prev tables of the final state
  have hnextF : ∀ j, (stF.seg j).next =
      (if j = L then some sa
       else if j = spb then some L
       else if j = segIdx then some sb
       else if j = spa then some segIdx
       else (st0.seg j).next) := by
    intro j
    rw [hstFnext j, seg_setPrev_next]
    by_cases hjL : j = L
    · subst hjL
      rw [if_pos rfl]
      apply seg_setNext_next_self
      simp only [segsLength_setPrev, segsLength_setNext, hst1len]
      omega
    · rw [if_neg hjL, seg_setNext_next_ne _ _ _ _ (fun hh => hjL hh.symm),
        seg_setPrev_next]
      by_cases hjpb : j = spb
      · subst hjpb
        rw [if_pos rfl]
        apply seg_setNext_next_self
        simp only [segsLength_setPrev, segsLength_setNext, hst1len]
        omega
      · rw [if_neg hjpb, seg_setNext_next_ne _ _ _ _ (fun hh => hjpb hh.symm),
          seg_setPrev_next]
        by_cases hjc : j = segIdx
        · subst hjc
          rw [if_pos rfl]
          apply seg_setNext_next_self
          simp only [segsLength_setPrev, segsLength_setNext, hst1len]
          omega
        · rw [if_neg hjc, seg_setNext_next_ne _ _ _ _ (fun hh => hjc hh.symm),
            seg_setPrev_next]
          by_cases hjpa : j = spa
          · subst hjpa
            rw [if_pos rfl]
            apply seg_setNext_next_self
            simp only [hst1len]
            omega
          · rw [if_neg hjpa, seg_setNext_next_ne _ _ _ _ (fun hh => hjpa hh.symm)]
            exact hst1next0 j hjL
  have hprevF : ∀ j, (stF.seg j).prev =
      (if j = sa then some L
       else if j = L then some spb
       else if j = sb then some segIdx
       else if j = segIdx then some spa
       else (st0.seg j).prev) := by
    intro j
    rw [hstFprev j]
    by_cases hja : j = sa
    · subst hja
      rw [if_pos rfl]
      apply seg_setPrev_prev_self
      simp only [segsLength_setPrev, segsLength_setNext, hst1len]
      omega
    · rw [if_neg hja, seg_setPrev_prev_ne _ _ _ _ (fun hh => hja hh.symm),
        seg_setNext_prev]
      by_cases hjL : j = L
      · subst hjL
        rw [if_pos rfl]
        apply seg_setPrev_prev_self
        simp only [segsLength_setPrev, segsLength_setNext, hst1len]
        omega
      · rw [if_neg hjL, seg_setPrev_prev_ne _ _ _ _ (fun hh => hjL hh.symm),
          seg_setNext_prev]
        by_cases hjb : j = sb
        · subst hjb
          rw [if_pos rfl]
          apply seg_setPrev_prev_self
          simp only [segsLength_setPrev, segsLength_setNext, hst1len]
          omega
        · rw [if_neg hjb, seg_setPrev_prev_ne _ _ _ _ (fun hh => hjb hh.symm),
            seg_setNext_prev]
          by_cases hjc : j = segIdx
          · subst hjc
            rw [if_pos rfl]
            apply seg_setPrev_prev_self
            simp only [segsLength_setNext, hst1len]
            omega
          · rw [if_neg hjc, seg_setPrev_prev_ne _ _ _ _ (fun hh => hjc hh.symm),
              seg_setNext_prev]
            exact hst1prev0 j hjL
  refine ⟨hstFlen, ?_⟩
  intro s hs
  rw [hstFlen] at hs
  constructor
  · rintro ⟨hXs, hsne, hsnL⟩
    have hslt : s < L := by omega
    have h0 := (hinv s hslt).1 hXs
    have hsspa : s ≠ spa := by
      intro he
      rw [he] at hXs
      exact hXspa hXs
    have hsspb : s ≠ spb := by
      intro he
      rw [he] at hXs
      exact hXspb hXs
    have hssa : s ≠ sa := by
      intro he
      rw [he] at hXs
      exact hXsa hXs
    have hssb : s ≠ sb := by
      intro he
      rw [he] at hXs
      exact hXsb hXs
    constructor
    · rw [hnextF s, if_neg hsnL, if_neg hsspb, if_neg hsne, if_neg hsspa]
      exact h0.1
    · rw [hprevF s, if_neg hssa, if_neg hsnL, if_neg hssb, if_neg hsne]
      exact h0.2
  · intro hns
    rw [linkedAtB_iff]
    by_cases hsc : s = segIdx
    · subst hsc
      refine ⟨⟨sb, ?_, ?_⟩, ⟨spa, ?_, ?_⟩⟩
      · rw [hnextF, if_neg q_cL, if_neg q_cpb, if_pos rfl]
      · rw [hprevF, if_neg (fun h => q_ab h.symm), if_neg q_bL, if_pos rfl]
      · rw [hprevF, if_neg q_ca, if_neg q_cL, if_neg q_cb, if_pos rfl]
      · rw [hnextF, if_neg q_paL, if_neg q_papb, if_neg (fun h => q_cpa h.symm),
          if_pos rfl]
    by_cases hsL : s = L
    · subst hsL
      refine ⟨⟨sa, ?_, ?_⟩, ⟨spb, ?_, ?_⟩⟩
      · rw [hnextF, if_pos rfl]
      · rw [hprevF, if_pos rfl]
      · rw [hprevF, if_neg (fun h => q_aL h.symm), if_pos rfl]
      · rw [hnextF, if_neg q_pbL, if_pos rfl]
    by_cases hsa : s = sa
    · subst hsa
      have hnaL : na < L := seg_lt_of_prev_some st0 na s hpna
      refine ⟨⟨na, ?_, ?_⟩, ⟨L, ?_, ?_⟩⟩
      · rw [hnextF, if_neg q_aL, if_neg q_apb, if_neg (fun h => q_ca h.symm),
          if_neg q_apa]
        exact hna
      · have hnasa : na ≠ s := by
          intro he
          rw [he, hpa] at hpna
          injection hpna with h
          exact q_apa h.symm
        have hnasb : na ≠ sb := by
          intro he
          rw [he, hpb] at hpna
          injection hpna with h
          exact q_apb h.symm
        have hnac : na ≠ segIdx := by
          intro he
          rw [he, hchp] at hpna
          exact Option.noConfusion hpna
        rw [hprevF, if_neg hnasa, if_neg (Nat.ne_of_lt hnaL), if_neg hnasb,
          if_neg hnac]
        exact hpna
      · rw [hprevF, if_pos rfl]
      · rw [hnextF, if_pos rfl]
    by_cases hsb : s = sb
    · subst hsb
      have hnbL : nb < L := seg_lt_of_prev_some st0 nb s hpnb
      refine ⟨⟨nb, ?_, ?_⟩, ⟨segIdx, ?_, ?_⟩⟩
      · rw [hnextF, if_neg q_bL, if_neg q_bpb, if_neg (fun h => q_cb h.symm),
          if_neg q_bpa]
        exact hnb
      · have hnbsa : nb ≠ sa := by
          intro he
          rw [he, hpa] at hpnb
          injection hpnb with h
          exact q_bpa h.symm
        have hnbsb : nb ≠ s := by
          intro he
          rw [he, hpb] at hpnb
          injection hpnb with h
          exact q_bpb h.symm
        have hnbc : nb ≠ segIdx := by
          intro he
          rw [he, hchp] at hpnb
          exact Option.noConfusion hpnb
        rw [hprevF, if_neg hnbsa, if_neg (Nat.ne_of_lt hnbL), if_neg hnbsb,
          if_neg hnbc]
        exact hpnb
      · rw [hprevF, if_neg (fun h => q_ab h.symm), if_neg q_bL, if_pos rfl]
      · rw [hnextF, if_neg q_cL, if_neg q_cpb, if_pos rfl]
    by_cases hspa : s = spa
    · subst hspa
      have hppaL : ppa < L := seg_lt_of_next_some st0 ppa s hnppa
      refine ⟨⟨segIdx, ?_, ?_⟩, ⟨ppa, ?_, ?_⟩⟩
      · rw [hnextF, if_neg q_paL, if_neg q_papb, if_neg (fun h => q_cpa h.symm),
          if_pos rfl]
      · rw [hprevF, if_neg q_ca, if_neg q_cL, if_neg q_cb, if_pos rfl]
      · rw [hprevF, if_neg (fun h => q_apa h.symm), if_neg q_paL,
          if_neg (fun h => q_bpa h.symm), if_neg (fun h => q_cpa h.symm)]
        exact hppa
      · have hppaL2 : ppa ≠ L := Nat.ne_of_lt hppaL
        have hppapb : ppa ≠ spb := by
          intro he
          rw [he, hnpb] at hnppa
          injection hnppa with h
          exact q_bpa h
        have hppac : ppa ≠ segIdx := by
          intro he
          rw [he, hchn] at hnppa
          exact Option.noConfusion hnppa
        have hppas : ppa ≠ s := by
          intro he
          rw [he, hnpa] at hnppa
          injection hnppa with h
          exact q_apa h
        rw [hnextF, if_neg hppaL2, if_neg hppapb, if_neg hppac, if_neg hppas]
        exact hnppa
    by_cases hspb : s = spb
    · subst hspb
      have hppbL : ppb < L := seg_lt_of_next_some st0 ppb s hnppb
      refine ⟨⟨L, ?_, ?_⟩, ⟨ppb, ?_, ?_⟩⟩
      · rw [hnextF, if_neg q_pbL, if_pos rfl]
      · rw [hprevF, if_neg (fun h => q_aL h.symm), if_pos rfl]
      · rw [hprevF, if_neg (fun h => q_apb h.symm), if_neg q_pbL,
          if_neg (fun h => q_bpb h.symm), if_neg (fun h => q_cpb h.symm)]
        exact hppb
      · have hppbL2 : ppb ≠ L := Nat.ne_of_lt hppbL
        have hppbpb : ppb ≠ s := by
          intro he
          rw [he, hnpb] at hnppb
          injection hnppb with h
          exact q_bpb h
        have hppbc : ppb ≠ segIdx := by
          intro he
          rw [he, hchn] at hnppb
          exact Option.noConfusion hnppb
        have hppbpa : ppb ≠ spa := by
          intro he
          rw [he, hnpa] at hnppb
          injection hnppb with h
          exact q_apb h
        rw [hnextF, if_neg hppbL2, if_neg hppbpb, if_neg hppbc, if_neg hppbpa]
        exact hnppb
    -- the untouched segments
    have hslt : s < L := by omega
    have hXs : ¬ X s := by
      intro hX
      exact hns ⟨hX, hsc, hsL⟩
    obtain ⟨⟨n, hn, hpn⟩, ⟨p, hp, hnp⟩⟩ :=
      (linkedAtB_iff st0 s).mp ((hinv s hslt).2 hXs)
    have hnL : n < L := seg_lt_of_prev_some st0 n s hpn
    have hpL : p < L := seg_lt_of_next_some st0 p s hnp
    refine ⟨⟨n, ?_, ?_⟩, ⟨p, ?_, ?_⟩⟩
    · rw [hnextF, if_neg hsL, if_neg hspb, if_neg hsc, if_neg hspa]
      exact hn
    · have hnsa : n ≠ sa := by
        intro he
        rw [he, hpa] at hpn
        injection hpn with h
        exact hspa h.symm
      have hnsb : n ≠ sb := by
        intro he
        rw [he, hpb] at hpn
        injection hpn with h
        exact hspb h.symm
      have hnc : n ≠ segIdx := by
        intro he
        rw [he, hchp] at hpn
        exact Option.noConfusion hpn
      rw [hprevF, if_neg hnsa, if_neg (Nat.ne_of_lt hnL), if_neg hnsb, if_neg hnc]
      exact hpn
    · rw [hprevF, if_neg hsa, if_neg hsL, if_neg hsb, if_neg hsc]
      exact hp
    · have hppb2 : p ≠ spb := by
        intro he
        rw [he, hnpb] at hnp
        injection hnp with h
        exact hsb h.symm
      have hpc : p ≠ segIdx := by
        intro he
        rw [he, hchn] at hnp
        exact Option.noConfusion hnp
      have hppa2 : p ≠ spa := by
        intro he
        rw [he, hnpa] at hnp
        injection hnp with h
        exact hsa h.symm
      rw [hnextF, if_neg (Nat.ne_of_lt hpL), if_neg hppb2, if_neg hpc, if_neg hppa2]
      exact hnp

theorem mem_zip_fst {α β : Type} (l1 : List α) (l2 : List β) (a : α)
    (ha : a ∈ l1) (hl : l1.length ≤ l2.length) :
    ∃ pr ∈ l1.zip l2, pr.1 = a := by
  obtain ⟨i, hi, he⟩ := List.mem_iff_getElem.mp ha
  have hiz : i < (l1.zip l2).length := by
    rw [List.length_zip]
    omega
  refine ⟨(l1.zip l2).get ⟨i, hiz⟩, List.get_mem _ _ _, ?_⟩
  rw [List.get_eq_getElem, List.getElem_zip]
  exact he

theorem mem_zip_snd {α β : Type} (l1 : List α) (l2 : List β) (b : β)
    (hb : b ∈ l2) (hl : l2.length ≤ l1.length) :
    ∃ pr ∈ l1.zip l2, pr.2 = b := by
  obtain ⟨i, hi, he⟩ := List.mem_iff_getElem.mp hb
  have hiz : i < (l1.zip l2).length := by
    rw [List.length_zip]
    omega
  refine ⟨(l1.zip l2).get ⟨i, hiz⟩, List.get_mem _ _ _, ?_⟩
  rw [List.get_eq_getElem, List.getElem_zip]
  exact he

theorem preprocess_linked (r : Raster) (po : PreOut)
    (hok : preprocess r = .ok po) : linked po.st := by
  simp only [preprocess] at hok
  rcases hps : prepSorted r with e | p
  · rw [hps] at hok
    exact Except.noConfusion hok
  rcases p with ⟨st, hIdxs, vIdxs, shv, svv⟩
  rw [hps] at hok
  simp only [] at hok
  rcases hsa : stitchAll st (shv.zip svv) [] with e | q
  · rw [hsa] at hok
    exact Except.noConfusion hok
  rcases q with ⟨stF, concs⟩
  rw [hsa] at hok
  simp only [] at hok
  injection hok with hok
  subst hok
  show linked stF
  -- unfold prepSorted
  simp only [prepSorted] at hps
  rcases hpv : prepVertices r with e | pv
  · rw [hpv] at hps
    exact Except.noConfusion hps
  rcases pv with ⟨st3, hIdxs0, vIdxs0, hvs, vvs⟩
  rw [hpv] at hps
  simp only [] at hps
  by_cases hlenEq : hvs.length = vvs.length
  case neg =>
    rw [if_neg hlenEq] at hps
    exact Except.noConfusion hps
  rw [if_pos hlenEq] at hps
  by_cases hlen2 : 2 * hIdxs0.length = hvs.length
  case neg =>
    rw [if_neg hlen2] at hps
    exact Except.noConfusion hps
  rw [if_pos hlen2] at hps
  simp only [Except.ok.injEq, Prod.mk.injEq] at hps
  obtain ⟨hst, hhI, hvI, hshv, hsvv⟩ := hps
  -- unfold prepVertices
  simp only [prepVertices] at hpv
  rcases hsc : scanForHSegments r with e | hrecs
  · rw [hsc] at hpv
    exact Except.noConfusion hpv
  rw [hsc] at hpv
  simp only [] at hpv
  rcases hg1 : getVertices ⟨hrecs, []⟩ (List.range hrecs.length) with e | p1
  · rw [hg1] at hpv
    exact Except.noConfusion hpv
  rcases p1 with ⟨st1, hvs1⟩
  rw [hg1] at hpv
  simp only [] at hpv
  rcases hscv : scanForVSegments r with e | vrecs
  · rw [hscv] at hpv
    exact Except.noConfusion hpv
  rw [hscv] at hpv
  simp only [] at hpv
  rcases hg2 : getVertices ⟨st1.segs ++ vrecs, st1.verts⟩
      (List.range' hrecs.length vrecs.length) with e | p2
  · rw [hg2] at hpv
    exact Except.noConfusion hpv
  rcases p2 with ⟨st2x, vvs2⟩
  rw [hg2] at hpv
  simp only [Except.ok.injEq, Prod.mk.injEq] at hpv
  obtain ⟨e1, e2, e3, e4, e5⟩ := hpv
  subst e1
  subst e4
  subst e5
  subst e2
  subst e3
  subst hst
  subst hshv
  subst hsvv
  subst hhI
  subst hvI
  -- the raw facts of the scanners
  have hrawH := scanForHSegments_raw r hrecs hsc
  have hrawV := scanForVSegments_raw r vrecs hscv
  set H := hrecs.length with hH
  set V := vrecs.length with hV
  -- first getVertices call
  have hin1 : ∀ si ∈ List.range H, si < (⟨hrecs, []⟩ : GState).segs.length := by
    intro si hsi
    simpa using List.mem_range.mp hsi
  have hpt1 : ∀ si ∈ List.range H, ∃ p q : Point,
      ((⟨hrecs, []⟩ : GState).seg si).startR = .pt p ∧
      ((⟨hrecs, []⟩ : GState).seg si).endR = .pt q := by
    intro si hsi
    have hlt : si < H := List.mem_range.mp hsi
    have hseg : (⟨hrecs, []⟩ : GState).seg si = hrecs.get ⟨si, hlt⟩ := by
      simp only [GState.seg]
      rw [List.getD_eq_getElem _ _ hlt, List.get_eq_getElem]
    obtain ⟨⟨p, hp⟩, ⟨q, hq⟩, _, _⟩ := hrawH (hrecs.get ⟨si, hlt⟩) (List.get_mem _ _ _)
    exact ⟨p, q, by rw [hseg]; exact hp, by rw [hseg]; exact hq⟩
  obtain ⟨c1, c2, c3, c4, c5, c6, c7⟩ :=
    getVertices_build (List.range H) ⟨hrecs, []⟩ st1 hvs1
      (List.nodup_range H) hin1 hpt1 hg1
  have c1a : hvs1 = List.range' 0 (2 * H) := by simpa using c1
  have c2a : st1.segs.length = H := by simpa using c2
  have c3a : st1.verts.length = 2 * H := by simpa using c3
  -- second getVertices call
  have hin2 : ∀ si ∈ List.range' H V,
      si < (⟨st1.segs ++ vrecs, st1.verts⟩ : GState).segs.length := by
    intro si hsi
    have := List.mem_range'_1.mp hsi
    simp only [List.length_append]
    omega
  have hpt2 : ∀ si ∈ List.range' H V, ∃ p q : Point,
      ((⟨st1.segs ++ vrecs, st1.verts⟩ : GState).seg si).startR = .pt p ∧
      ((⟨st1.segs ++ vrecs, st1.verts⟩ : GState).seg si).endR = .pt q := by
    intro si hsi
    have hm := List.mem_range'_1.mp hsi
    have hlt : si - H < V := by omega
    have hseg : (⟨st1.segs ++ vrecs, st1.verts⟩ : GState).seg si =
        vrecs.get ⟨si - H, hlt⟩ := by
      simp only [GState.seg]
      rw [getD_append_right _ _ _ _ (by omega), c2a]
      rw [List.getD_eq_getElem _ _ hlt, List.get_eq_getElem]
    obtain ⟨⟨p, hp⟩, ⟨q, hq⟩, _, _⟩ := hrawV (vrecs.get ⟨si - H, hlt⟩) (List.get_mem _ _ _)
    exact ⟨p, q, by rw [hseg]; exact hp, by rw [hseg]; exact hq⟩
  obtain ⟨d1, d2, d3, d4, d5, d6, d7⟩ :=
    getVertices_build (List.range' H V) ⟨st1.segs ++ vrecs, st1.verts⟩ st2x vvs2
      (List.nodup_range' _ _ _ (by omega)) hin2 hpt2 hg2
  have d1a : vvs2 = List.range' (2 * H) (2 * V) := by
    rw [d1]
    show List.range' st1.verts.length _ = _
    rw [c3a]
    simp
  have st2xlen : st2x.segs.length = H + V := by
    rw [d2]
    show (st1.segs ++ vrecs).length = H + V
    rw [List.length_append, c2a]
  -- every link in the pre-stitch state is none
  have hnone : ∀ s, (st2x.seg s).next = none ∧ (st2x.seg s).prev = none := by
    intro s
    obtain ⟨_, _, _, d6n, d6p, _⟩ := d6 s
    obtain ⟨_, _, _, c6n, c6p, _⟩ := c6 s
    rcases Nat.lt_or_ge s H with hsH | hsH
    · have hm : (⟨st1.segs ++ vrecs, st1.verts⟩ : GState).seg s = st1.seg s := by
        simp only [GState.seg]
        exact getD_append_lt _ _ _ _ (by omega)
      have h0 : (⟨hrecs, []⟩ : GState).seg s = hrecs.get ⟨s, hsH⟩ := by
        simp only [GState.seg]
        rw [List.getD_eq_getElem _ _ hsH, List.get_eq_getElem]
      obtain ⟨_, _, hnx, hpx⟩ := hrawH (hrecs.get ⟨s, hsH⟩) (List.get_mem _ _ _)
      constructor
      · rw [d6n, hm, c6n, h0]
        exact hnx
      · rw [d6p, hm, c6p, h0]
        exact hpx
    · rcases Nat.lt_or_ge s (H + V) with hsHV | hsHV
      · have hlt : s - H < V := by omega
        have hm : (⟨st1.segs ++ vrecs, st1.verts⟩ : GState).seg s =
            vrecs.get ⟨s - H, hlt⟩ := by
          simp only [GState.seg]
          rw [getD_append_right _ _ _ _ (by omega), c2a]
          rw [List.getD_eq_getElem _ _ hlt, List.get_eq_getElem]
        obtain ⟨_, _, hnx, hpx⟩ := hrawV (vrecs.get ⟨s - H, hlt⟩) (List.get_mem _ _ _)
        constructor
        · rw [d6n, hm]
          exact hnx
        · rw [d6p, hm]
          exact hpx
      · have hm : (⟨st1.segs ++ vrecs, st1.verts⟩ : GState).seg s = dummySeg := by
          simp only [GState.seg]
          apply List.getD_eq_default
          simp only [List.length_append]
          omega
        constructor
        · rw [d6n, hm]
          rfl
        · rw [d6p, hm]
          rfl
  -- the per-segment keying facts
  have KH : ∀ k, k < H →
      (st2x.seg k).startR = .vx (2 * k) ∧ (st2x.seg k).endR = .vx (2 * k + 1) ∧
      (st2x.vert (2 * k)).segment = some k ∧
      (st2x.vert (2 * k + 1)).segment = some k := by
    intro k hk
    have hks : (List.range H)[k]? = some k := List.getElem?_range hk
    obtain ⟨k1, k2, k3, k4⟩ := c7 k k hks
    have hnotm : k ∉ List.range' H V := by
      intro hm
      have := List.mem_range'_1.mp hm
      omega
    have hseg12 : st2x.seg k = st1.seg k := by
      rw [d5 k hnotm]
      simp only [GState.seg]
      exact getD_append_lt _ _ _ _ (by omega)
    have hvert12 : ∀ j, j < 2 * H → st2x.vert j = st1.vert j := by
      intro j hj
      refine d4 j ?_
      show j < st1.verts.length
      omega
    have k3s : (st1.vert (2 * k)).segment = some k := by
      have := congrArg VertNode.segment k3
      simpa using this
    have k4s : (st1.vert (2 * k + 1)).segment = some k := by
      have := congrArg VertNode.segment k4
      simpa using this
    refine ⟨?_, ?_, ?_, ?_⟩
    · rw [hseg12]
      simpa using k1
    · rw [hseg12]
      simpa using k2
    · rw [hvert12 (2 * k) (by omega)]
      exact k3s
    · rw [hvert12 (2 * k + 1) (by omega)]
      exact k4s
  have KV : ∀ k, k < V →
      (st2x.seg (H + k)).startR = .vx (2 * H + 2 * k) ∧
      (st2x.seg (H + k)).endR = .vx (2 * H + 2 * k + 1) ∧
      (st2x.vert (2 * H + 2 * k)).segment = some (H + k) ∧
      (st2x.vert (2 * H + 2 * k + 1)).segment = some (H + k) := by
    intro k hk
    have hks : (List.range' H V)[k]? = some (H + k) := by
      rw [List.getElem?_range' _ _ hk]
      simp
    obtain ⟨k1, k2, k3, k4⟩ := d7 k (H + k) hks
    have k1a : (st2x.seg (H + k)).startR = .vx (2 * H + 2 * k) := by
      have h := k1
      rw [show (⟨st1.segs ++ vrecs, st1.verts⟩ : GState).verts.length = 2 * H
        from c3a] at h
      exact h
    have k2a : (st2x.seg (H + k)).endR = .vx (2 * H + 2 * k + 1) := by
      have h := k2
      rw [show (⟨st1.segs ++ vrecs, st1.verts⟩ : GState).verts.length = 2 * H
        from c3a] at h
      exact h
    have k3s : (st2x.vert (2 * H + 2 * k)).segment = some (H + k) := by
      have h := congrArg VertNode.segment k3
      rw [show (⟨st1.segs ++ vrecs, st1.verts⟩ : GState).verts.length = 2 * H
        from c3a] at h
      simpa using h
    have k4s : (st2x.vert (2 * H + 2 * k + 1)).segment = some (H + k) := by
      have h := congrArg VertNode.segment k4
      rw [show (⟨st1.segs ++ vrecs, st1.verts⟩ : GState).verts.length = 2 * H
        from c3a] at h
      simpa using h
    exact ⟨k1a, k2a, k3s, k4s⟩
  -- lengths of the sorted lists
  have hlenSH : (sortVerts st2x compareHVertices hvs1).length =
      (sortVerts st2x compareVVertices vvs2).length := by
    have p1 : (sortVerts st2x compareHVertices hvs1).Perm hvs1 := jsSort_perm _ _
    have p2 : (sortVerts st2x compareVVertices vvs2).Perm vvs2 := jsSort_perm _ _
    rw [p1.length_eq, p2.length_eq]
    exact hlenEq
  -- nodup of the stitching pairs
  have hndH : (sortVerts st2x compareHVertices hvs1).Nodup := by
    refine ((jsSort_perm _ hvs1).nodup_iff).mpr ?_
    rw [c1a]
    exact List.nodup_range' _ _ _ (by omega)
  have hndV : (sortVerts st2x compareVVertices vvs2).Nodup := by
    refine ((jsSort_perm _ vvs2).nodup_iff).mpr ?_
    rw [d1a]
    exact List.nodup_range' _ _ _ (by omega)
  have hdisj : ∀ a ∈ sortVerts st2x compareHVertices hvs1,
      a ∉ sortVerts st2x compareVVertices vvs2 := by
    intro a haH haV
    have h1 : a ∈ hvs1 := ((jsSort_perm _ hvs1).mem_iff).mp haH
    have h2 : a ∈ vvs2 := ((jsSort_perm _ vvs2).mem_iff).mp haV
    rw [c1a] at h1
    rw [d1a] at h2
    have hb1 := List.mem_range'_1.mp h1
    have hb2 := List.mem_range'_1.mp h2
    omega
  have hnodup : (((sortVerts st2x compareHVertices hvs1).zip
      (sortVerts st2x compareVVertices vvs2)).map Prod.fst ++
      ((sortVerts st2x compareHVertices hvs1).zip
      (sortVerts st2x compareVVertices vvs2)).map Prod.snd).Nodup := by
    rw [List.map_fst_zip _ _ (le_of_eq hlenSH),
      List.map_snd_zip _ _ (le_of_eq hlenSH.symm)]
    rw [List.nodup_append]
    exact ⟨hndH, hndV, hdisj⟩
  -- the remaining stitching hypotheses
  have hmut1 : ∀ s n, (st2x.seg s).next = some n → (st2x.seg n).prev = some s := by
    intro s n h
    rw [(hnone s).1] at h
    exact Option.noConfusion h
  have hmut2 : ∀ s p, (st2x.seg s).prev = some p → (st2x.seg p).next = some s := by
    intro s p h
    rw [(hnone s).2] at h
    exact Option.noConfusion h
  have hfresh : ∀ pr ∈ ((sortVerts st2x compareHVertices hvs1).zip
      (sortVerts st2x compareVVertices vvs2)), ∀ v, (v = pr.1 ∨ v = pr.2) → ∀ s,
      (st2x.vert v).segment = some s →
      ((st2x.seg s).endR = .vx v → (st2x.seg s).next = none) ∧
      ((st2x.seg s).startR = .vx v → (st2x.seg s).prev = none) :=
    fun pr _ v _ s _ => ⟨fun _ => (hnone s).1, fun _ => (hnone s).2⟩
  have hndd : ∀ s v, (st2x.seg s).startR = .vx v → (st2x.seg s).endR ≠ .vx v := by
    intro s v hsv hev
    rcases Nat.lt_or_ge s H with hsH | hsH
    · obtain ⟨kh1, kh2, _, _⟩ := KH s hsH
      rw [kh1] at hsv
      rw [kh2] at hev
      injection hsv with e1
      injection hev with e2
      omega
    · rcases Nat.lt_or_ge s (H + V) with hsHV | hsHV
      · obtain ⟨kh1, kh2, _, _⟩ := KV (s - H) (by omega)
        rw [show H + (s - H) = s by omega] at kh1 kh2
        rw [kh1] at hsv
        rw [kh2] at hev
        injection hsv with e1
        injection hev with e2
        omega
      · have hm : st2x.seg s = dummySeg := by
          simp only [GState.seg]
          apply List.getD_eq_default
          omega
        rw [hm] at hsv
        exact Ref.noConfusion hsv
  obtain ⟨Sstat, Svert, Slen, Smut1, Smut2, ST⟩ :=
    stitchAll_links ((sortVerts st2x compareHVertices hvs1).zip
      (sortVerts st2x compareVVertices vvs2)) st2x [] stF concs hsa hnodup
      hmut1 hmut2 hfresh hndd
  -- assemble the invariant
  intro s hs
  rw [Slen, st2xlen] at hs
  rw [linkedAtB_iff]
  rcases Nat.lt_or_ge s H with hsH | hsH
  · obtain ⟨kh1, kh2, kh3, kh4⟩ := KH s hsH
    have hmemIn : (2 * s + 1) ∈ hvs1 := by
      rw [c1a]
      exact List.mem_range'_1.mpr ⟨by omega, by omega⟩
    have hmemInS : (2 * s + 1) ∈ sortVerts st2x compareHVertices hvs1 :=
      ((jsSort_perm _ hvs1).mem_iff).mpr hmemIn
    obtain ⟨pr, hpr, hpr1⟩ := mem_zip_fst _ _ (2 * s + 1) hmemInS (le_of_eq hlenSH)
    have hTn := (ST pr hpr (2 * s + 1) (Or.inl hpr1.symm) s kh4).1 kh2
    obtain ⟨n, hn⟩ := Option.isSome_iff_exists.mp hTn
    have hmemOut : (2 * s) ∈ hvs1 := by
      rw [c1a]
      exact List.mem_range'_1.mpr ⟨by omega, by omega⟩
    have hmemOutS : (2 * s) ∈ sortVerts st2x compareHVertices hvs1 :=
      ((jsSort_perm _ hvs1).mem_iff).mpr hmemOut
    obtain ⟨pr2, hpr2, hpr21⟩ := mem_zip_fst _ _ (2 * s) hmemOutS (le_of_eq hlenSH)
    have hTp := (ST pr2 hpr2 (2 * s) (Or.inl hpr21.symm) s kh3).2 kh1
    obtain ⟨p, hp⟩ := Option.isSome_iff_exists.mp hTp
    exact ⟨⟨n, hn, Smut1 s n hn⟩, ⟨p, hp, Smut2 s p hp⟩⟩
  · obtain ⟨kh1, kh2, kh3, kh4⟩ := KV (s - H) (by omega)
    rw [show H + (s - H) = s by omega] at kh1 kh2 kh3 kh4
    have hmemIn : (2 * H + 2 * (s - H) + 1) ∈ vvs2 := by
      rw [d1a]
      exact List.mem_range'_1.mpr ⟨by omega, by omega⟩
    have hmemInS : (2 * H + 2 * (s - H) + 1) ∈ sortVerts st2x compareVVertices vvs2 :=
      ((jsSort_perm _ vvs2).mem_iff).mpr hmemIn
    obtain ⟨pr, hpr, hpr1⟩ := mem_zip_snd _ _ _ hmemInS (le_of_eq hlenSH.symm)
    have hTn := (ST pr hpr (2 * H + 2 * (s - H) + 1) (Or.inr hpr1.symm) s kh4).1 kh2
    obtain ⟨n, hn⟩ := Option.isSome_iff_exists.mp hTn
    have hmemOut : (2 * H + 2 * (s - H)) ∈ vvs2 := by
      rw [d1a]
      exact List.mem_range'_1.mpr ⟨by omega, by omega⟩
    have hmemOutS : (2 * H + 2 * (s - H)) ∈ sortVerts st2x compareVVertices vvs2 :=
      ((jsSort_perm _ vvs2).mem_iff).mpr hmemOut
    obtain ⟨pr2, hpr2, hpr21⟩ := mem_zip_snd _ _ _ hmemOutS (le_of_eq hlenSH.symm)
    have hTp := (ST pr2 hpr2 (2 * H + 2 * (s - H)) (Or.inr hpr21.symm) s kh3).2 kh1
    obtain ⟨p, hp⟩ := Option.isSome_iff_exists.mp hTp
    exact ⟨⟨n, hn, Smut1 s n hn⟩, ⟨p, hp, Smut2 s p hp⟩⟩

/-- C2: for every raster on which `preprocess` succeeds, every segment of
the resulting heap carries non-null `next` and `prev` links satisfying
`s.next.prev == s` and `s.prev.next == s`, and following `next` from any
segment returns to it within `segs.length` steps, so each segment lies on a
closed loop; and `splitSegment` preserves this doubly-linked-loop invariant
(stated relative to an arbitrary set `X` of still-unlinked chords, of which
the segment being split is one) for all segments of the new state,
including the two chord copies it inserts, which join loops and close them
as well. -/
theorem preprocess_split_linked_spec :
    (∀ (r : Raster) (po : PreOut), preprocess r = .ok po →
      linked po.st ∧
      ∀ s, s < po.st.segs.length →
        ∃ k, 0 < k ∧ k ≤ po.st.segs.length ∧ nextIter po.st k s = s) ∧
    (∀ (st0 : GState) (segIdx va vb sa sb spa spb : Nat)
       (hsegs vsegs : List Nat) (stF : GState) (hs2 vs2 : List Nat)
       (X : Nat → Prop),
      (st0.seg segIdx).startR = .vx va →
      (st0.seg segIdx).endR = .vx vb →
      (st0.vert va).segment = some sa →
      (st0.vert vb).segment = some sb →
      (st0.seg sa).prev = some spa →
      (st0.seg sb).prev = some spb →
      (∀ s, s < st0.segs.length →
        (X s → (st0.seg s).next = none ∧ (st0.seg s).prev = none) ∧
        (¬ X s → linkedAtB st0 s = true)) →
      X segIdx →
      List.Nodup [segIdx, sa, sb, spa, spb] →
      splitSegment st0 segIdx hsegs vsegs = .ok (stF, hs2, vs2) →
      stF.segs.length = st0.segs.length + 1 ∧
      (∀ s, s < stF.segs.length →
        ((X s ∧ s ≠ segIdx ∧ s ≠ st0.segs.length) →
          (stF.seg s).next = none ∧ (stF.seg s).prev = none) ∧
        (¬(X s ∧ s ≠ segIdx ∧ s ≠ st0.segs.length) → linkedAtB stF s = true)) ∧
      (∀ s, s < stF.segs.length → ¬(X s ∧ s ≠ segIdx ∧ s ≠ st0.segs.length) →
        ∃ k, 0 < k ∧ k ≤ stF.segs.length ∧ nextIter stF k s = s)) := by
  constructor
  · intro r po hok
    have hlk := preprocess_linked r po hok
    exact ⟨hlk, linked_loop po.st hlk⟩
  · intro st0 segIdx va vb sa sb spa spb hsegs vsegs stF hs2 vs2 X
      hsR heR hva hvb hpa hpb hinv hXc hnd hok
    obtain ⟨hlen, hinv2⟩ := splitSegment_linked st0 segIdx va vb sa sb spa spb
      hsegs vsegs stF hs2 vs2 X hsR heR hva hvb hpa hpb hinv hXc hnd hok
    refine ⟨hlen, hinv2, ?_⟩
    intro s hs hX
    refine loop_return stF (fun t => t < stF.segs.length ∧
      ¬(X t ∧ t ≠ segIdx ∧ t ≠ st0.segs.length)) ?_ s ⟨hs, hX⟩ hs
    intro t ht
    obtain ⟨htl, htX⟩ := ht
    obtain ⟨⟨n, hn, hpn⟩, _⟩ := (linkedAtB_iff stF t).mp ((hinv2 t htl).2 htX)
    have hnlt : n < stF.segs.length := seg_lt_of_prev_some stF n t hpn
    have hnX : ¬(X n ∧ n ≠ segIdx ∧ n ≠ st0.segs.length) := by
      intro hq
      have := ((hinv2 n hnlt).1 hq).2
      rw [hpn] at this
      exact Option.noConfusion this
    exact ⟨n, hn, hpn, ⟨hnlt, hnX⟩, hnlt⟩

theorem preprocess_split_linked_spec_witness :
    (preprocess twoHolesRaster = .ok c2po ∧ linked c2po.st) ∧
    splitSegment w9st 4 [] [] = .ok (c2stF, [4, 7], []) ∧
    ∀ s, s < c2stF.segs.length → linkedAtB c2stF s = true := by
  have hA := preprocess_split_linked_spec.1 twoHolesRaster c2po rfl
  have hB := preprocess_split_linked_spec.2 w9st 4 0 1 0 1 2 3 [] [] c2stF [4, 7] []
    (fun s => s = 4) rfl rfl rfl rfl rfl rfl (by decide) rfl (by decide) rfl
  refine ⟨⟨rfl, hA.1⟩, rfl, ?_⟩
  intro s hs
  exact (hB.2.1 s hs).2 (fun hq => hq.2.1 hq.1)

end Trix
